import Mathlib

/-!
# HBM3 device model of pimulator

A shallow embedding of `src/dram/impl/HBM3.cpp` and `src/dram/lambdas/action.h`:
the topology and command vocabulary, the device node tree with the actions that
mutate it, the organization sanity check, the timing-constraint rule list and the
timing scoreboard that the rule list feeds.

Integers of the source (`int`, `Clk_t`) are mathematical integers here, except in
the density check, where the `size_t` arithmetic is taken modulo `2^64`.
-/

namespace Ramulator

/-! ## Topology and command vocabulary (`HBM3::m_levels`, `m_commands`, `m_states`) -/

/-- Entries of `m_levels`, in their order: channel is 0 and column is 6. -/
inductive Level where
  | channel | pseudochannel | rank | bankgroup | bank | row | column
  deriving DecidableEq

/-- Index of a level in `m_levels`, the value of `m_levels["name"]`. -/
def Level.toNat : Level → Nat
  | .channel => 0
  | .pseudochannel => 1
  | .rank => 2
  | .bankgroup => 3
  | .bank => 4
  | .row => 5
  | .column => 6

/-- All levels of `m_levels`, in their order. -/
def m_levels : List Level :=
  [.channel, .pseudochannel, .rank, .bankgroup, .bank, .row, .column]

/-- Entries of `m_commands`. -/
inductive Command where
  | ACT | PRE | PREA | RD | WR | RDA | WRA | REFab | REFsb | RFMab | RFMsb
  deriving DecidableEq

/-- All commands of `m_commands`, in their order. -/
def m_commands : List Command :=
  [.ACT, .PRE, .PREA, .RD, .WR, .RDA, .WRA, .REFab, .REFsb, .RFMab, .RFMsb]

/-- Entries of `m_states`; `NA` stands for the entry `"N/A"`. -/
inductive State where
  | Opened | Closed | NA
  deriving DecidableEq

/-- Table `m_init_states`: the state a node of each level starts in. -/
def m_init_states : Level → State
  | .channel => .NA
  | .pseudochannel => .NA
  | .rank => .NA
  | .bankgroup => .NA
  | .bank => .Closed
  | .row => .Closed
  | .column => .NA

/-- Modelled from the spec: the address vector type `AddrVec_t`, whose declaration is not
part of the sources: one integer coordinate per level, indexed by `Level.toNat`. -/
abbrev AddrVec := List Int

/-! ## Device node tree -/

/-- Row map `m_row_state` of a node (a `std::map` from row id to state): `none` is
an absent key. -/
abbrev RowMap := Int → Option State

/-- The row map without any key, the result of `m_row_state.clear()`. -/
def RowMap.empty : RowMap := fun _ => none

/-- Map after the assignment `m_row_state[key] = value`. -/
def RowMap.set (m : RowMap) (key : Int) (value : State) : RowMap :=
  fun r => if r = key then some value else m r

/-- Modelled from the spec: the node type, whose declaration (`DRAMNodeBase` in
`dram/node.h`) is not part of the sources. It holds the members that `action.h` reads
and writes, which are the attributes of a device node in spec 3: `m_level`,
`m_node_id`, `m_state`, `m_row_state` and the owned `m_child_nodes`. The
back-reference `m_parent_node` is the position of the node in the tree. -/
inductive Node where
  | mk (m_level : Level) (m_node_id : Int) (m_state : State) (m_row_state : RowMap)
      (m_child_nodes : List Node)

namespace Node

/-- Member `m_level`. -/
def m_level : Node → Level
  | mk l _ _ _ _ => l

/-- Member `m_node_id`. -/
def m_node_id : Node → Int
  | mk _ i _ _ _ => i

/-- Member `m_state`. -/
def m_state : Node → State
  | mk _ _ s _ _ => s

/-- Member `m_row_state`. -/
def m_row_state : Node → RowMap
  | mk _ _ _ r _ => r

/-- Member `m_child_nodes`. -/
def m_child_nodes : Node → List Node
  | mk _ _ _ _ c => c

/-- Node whose `m_child_nodes` hold the given nodes, other members kept. -/
def setChildren : Node → List Node → Node
  | mk l i s r _, c => mk l i s r c

/-- Node after running `f` on every child (a loop `for (auto c : n->m_child_nodes)`
whose body mutates `c`). -/
def forChildren (f : Node → Node) (n : Node) : Node :=
  n.setChildren (n.m_child_nodes.map f)

/-- Node reached from `n` by following child indices: `[]` is `n` itself and
`i :: p` continues from `n->m_child_nodes[i]`. -/
def get? : Node → List Nat → Option Node
  | n, [] => some n
  | n, i :: p =>
    match n.m_child_nodes[i]? with
    | none => none
    | some c => get? c p

/-- Tree after running `f` on the node at path `p` (a mutation through a pointer to
that node); a path that leads nowhere leaves the tree as it is. -/
def modifyAt (f : Node → Node) : List Nat → Node → Node
  | [], n => f n
  | i :: p, n =>
    match n.m_child_nodes[i]? with
    | none => n
    | some c => n.setChildren (n.m_child_nodes.set i (modifyAt f p c))

end Node

/-! ## Actions of `action.h` -/

namespace Lambdas
namespace Action

namespace Bank

/-- Action `Bank::ACT`: the node becomes `Opened` and its row `target_id` is
marked `Opened`. -/
def ACT (node : Node) (_cmd : Command) (target_id : Int) (_clk : Int) : Node :=
  match node with
  | .mk l i _ rows c => .mk l i State.Opened (RowMap.set rows target_id State.Opened) c

/-- Action `Bank::PRE`: the node becomes `Closed` and its row map is cleared. -/
def PRE (node : Node) (_cmd : Command) (_target_id : Int) (_clk : Int) : Node :=
  match node with
  | .mk l i _ _ c => .mk l i State.Closed RowMap.empty c

end Bank

namespace Channel

/-- Body of the innermost loop of `Channel::PREA`: `bank->m_state = Closed;
bank->m_row_state.clear();`. -/
def closeBank (bank : Node) : Node :=
  match bank with
  | .mk l i _ _ c => .mk l i State.Closed RowMap.empty c

/-- Signature `ActionFunc_t<Node>` of an action: node, command, target id, clock. The
result is the node with its subtree after the mutation. -/
abbrev ActionFunc := Node → Command → Int → Int → Node

/-- Action `Channel::PREA`, instantiated for the compile-time distance
`T::m_levels["bank"] - T::m_levels["channel"]`. The three supported distances select
two, three or four nested loops over `m_child_nodes`; for any other distance the
`static_assert` rejects the instantiation (`none`). -/
def PREA (bank_minus_channel : Nat) : Option ActionFunc :=
  if bank_minus_channel = 2 then
    some (fun node _cmd _target_id _clk =>
      node.forChildren (Node.forChildren closeBank))
  else if bank_minus_channel = 3 then
    some (fun node _cmd _target_id _clk =>
      node.forChildren (Node.forChildren (Node.forChildren closeBank)))
  else if bank_minus_channel = 4 then
    some (fun node _cmd _target_id _clk =>
      node.forChildren (Node.forChildren (Node.forChildren (Node.forChildren closeBank))))
  else
    none

end Channel

end Action
end Lambdas

/-! ## Organization (`HBM3::org_presets`, `HBM3::set_organization`) -/

/-- Modelled from the spec: the type `Organization`, whose declaration is not part of the
sources, with the fields that `HBM3.cpp` reads and writes: declared density in
megabits, data width `dq` and one count per level (`count[m_levels["name"]]`). -/
structure Organization where
  density : Int
  dq : Int
  count : List Int
  deriving DecidableEq

/-- Constant `m_internal_prefetch_size`. -/
def m_internal_prefetch_size : Int := 8

/-- Table `org_presets`, with the shifts of the source written out. -/
def org_presets : List (String × Organization) :=
  [ ("HBM3_2Gb_1R",  ⟨(2 <<< 10 : Nat),  32, [1, 2, 1, 4, 4, (1 <<< 13 : Nat), (1 <<< 5 : Nat)]⟩),
    ("HBM3_4Gb_1R",  ⟨(4 <<< 10 : Nat),  32, [1, 2, 1, 4, 4, (1 <<< 14 : Nat), (1 <<< 5 : Nat)]⟩),
    ("HBM3_8Gb_1R",  ⟨(8 <<< 10 : Nat),  32, [1, 2, 1, 4, 4, (1 <<< 15 : Nat), (1 <<< 5 : Nat)]⟩),
    ("HBM3_4Gb_2R",  ⟨(4 <<< 10 : Nat),  32, [1, 2, 2, 4, 4, (1 <<< 13 : Nat), (1 <<< 5 : Nat)]⟩),
    ("HBM3_8Gb_2R",  ⟨(8 <<< 10 : Nat),  32, [1, 2, 2, 4, 4, (1 <<< 14 : Nat), (1 <<< 5 : Nat)]⟩),
    ("HBM3_16Gb_2R", ⟨(16 <<< 10 : Nat), 32, [1, 2, 2, 4, 4, (1 <<< 15 : Nat), (1 <<< 5 : Nat)]⟩),
    ("HBM3_6Gb_3R",  ⟨(6 <<< 10 : Nat),  32, [1, 2, 3, 4, 4, (1 <<< 13 : Nat), (1 <<< 5 : Nat)]⟩),
    ("HBM3_12Gb_3R", ⟨(12 <<< 10 : Nat), 32, [1, 2, 3, 4, 4, (1 <<< 14 : Nat), (1 <<< 5 : Nat)]⟩),
    ("HBM3_24Gb_3R", ⟨(24 <<< 10 : Nat), 32, [1, 2, 3, 4, 4, (1 <<< 15 : Nat), (1 <<< 5 : Nat)]⟩),
    ("HBM3_8Gb_4R",  ⟨(8 <<< 10 : Nat),  32, [1, 2, 4, 4, 4, (1 <<< 13 : Nat), (1 <<< 5 : Nat)]⟩),
    ("HBM3_16Gb_4R", ⟨(16 <<< 10 : Nat), 32, [1, 2, 4, 4, 4, (1 <<< 14 : Nat), (1 <<< 5 : Nat)]⟩),
    ("HBM3_32Gb_4R", ⟨(32 <<< 10 : Nat), 32, [1, 2, 4, 4, 4, (1 <<< 15 : Nat), (1 <<< 5 : Nat)]⟩) ]

/-- The optional settings that `set_organization` reads from `param_group("org")`:
`preset`, `dq`, one count per level name and `density`. -/
structure OrgParams where
  preset : Option String
  dq : Option Int
  count : Level → Option Int
  density : Option Int

/-- Modelled from the spec: the configuration error, whose declaration is not part of the
sources; one case per `throw ConfigurationError(...)` site of `set_organization` and of
`set_timing_vals`. `timingNotSpecified i` is the error of the completeness check at the
index `i`, whose message names `m_timings(i)`. -/
inductive ConfigurationError where
  | unrecognizedOrgPreset (preset_name : String)
  | densityMismatch (calculated : Nat) (provided : Int)
  | unrecognizedTimingPreset (preset_name : String)
  | rateWithPreset
  | timingNotSpecified (i : Nat)

/-- Conversion `size_t(x)` of an integer to the 64-bit unsigned type. -/
def size_t (x : Int) : Nat := (x % 2 ^ 64).toNat

/-- Product of two `size_t` values, wrapping at `2^64`. -/
def size_t_mul (a b : Nat) : Nat := (a * b) % 2 ^ 64

/-- Vector after `v.resize(n, val)`. -/
def resize (v : List Int) (n : Nat) (val : Int) : List Int :=
  v.take n ++ List.replicate (n - v.length) val

/-- Value of `m_organization.count[m_levels["name"]]`. -/
def Organization.countOf (org : Organization) (l : Level) : Int :=
  org.count.getD l.toNat (-1)

/-- First part of `set_organization`: the organization after the resize of `count`,
the preset and the overrides of `dq`, of the per-level counts (in the order of
`m_levels`) and of `density`. `m_organization` is the member as it is on entry. -/
def resolve_organization (m_organization : Organization) (p : OrgParams) :
    Except ConfigurationError Organization := do
  let org0 : Organization :=
    { m_organization with count := resize m_organization.count m_levels.length (-1) }
  let org1 ←
    match p.preset with
    | some preset_name =>
      match org_presets.lookup preset_name with
      | some o => pure o
      | none => throw (ConfigurationError.unrecognizedOrgPreset preset_name)
    | none => pure org0
  let org2 : Organization :=
    match p.dq with
    | some dq => { org1 with dq := dq }
    | none => org1
  let org3 : Organization :=
    m_levels.foldl (fun o l =>
      match p.count l with
      | some sz => { o with count := o.count.set l.toNat sz }
      | none => o) org2
  let org4 : Organization :=
    match p.density with
    | some density => { org3 with density := density }
    | none => org3
  pure org4

/-- The value `_density` of the sanity check: the `size_t` product of the counts of
pseudochannel, rank, bankgroup, bank, row and column, of `dq` and of the internal
prefetch size, shifted right by 20 bits. -/
def calculated_density (org : Organization) : Nat :=
  (size_t_mul (size_t_mul (size_t_mul (size_t_mul (size_t_mul (size_t_mul (size_t_mul
    (size_t (org.countOf .pseudochannel))
    (size_t (org.countOf .rank)))
    (size_t (org.countOf .bankgroup)))
    (size_t (org.countOf .bank)))
    (size_t (org.countOf .row)))
    (size_t (org.countOf .column)))
    (size_t org.dq))
    (size_t m_internal_prefetch_size)) >>> 20

/-- Function `HBM3::set_organization`: resolve the organization, then the sanity check
`m_organization.density != _density` (the `int` density converted to `size_t` for the
comparison). Returns the organization stored in `m_organization`. -/
def set_organization (m_organization : Organization) (p : OrgParams) :
    Except ConfigurationError Organization := do
  let org ← resolve_organization m_organization p
  let _density := calculated_density org
  if size_t org.density ≠ _density then
    throw (ConfigurationError.densityMismatch _density org.density)
  else
    pure org

/-- Settings that name a preset and override nothing. -/
def OrgParams.ofPreset (preset_name : String) : OrgParams :=
  { preset := some preset_name, dq := none, count := fun _ => none, density := none }

/-- Density in megabits as the specification words it: the product of all seven
per-level counts, the data width and the internal prefetch size, divided by `2^20`. -/
def spec_density (org : Organization) : Int :=
  (org.countOf .channel * org.countOf .pseudochannel * org.countOf .rank *
    org.countOf .bankgroup * org.countOf .bank * org.countOf .row * org.countOf .column *
    org.dq * m_internal_prefetch_size) / 2 ^ 20

/-- Density in megabits of one channel: as `spec_density` without the channel count. -/
def channel_density (org : Organization) : Int :=
  (org.countOf .pseudochannel * org.countOf .rank *
    org.countOf .bankgroup * org.countOf .bank * org.countOf .row * org.countOf .column *
    org.dq * m_internal_prefetch_size) / 2 ^ 20

/-- The integer product whose megabit value the sanity check computes. -/
def channel_bits (org : Organization) : Int :=
  org.countOf .pseudochannel * org.countOf .rank *
    org.countOf .bankgroup * org.countOf .bank * org.countOf .row * org.countOf .column *
    org.dq * m_internal_prefetch_size

/-- Settings of a preset with the channel count overridden. -/
def OrgParams.ofPresetWithChannels (preset_name : String) (channels : Int) : OrgParams :=
  { preset := some preset_name, dq := none,
    count := fun l => if l = Level.channel then some channels else none, density := none }

/-- Settings of a preset with the declared density overridden. -/
def OrgParams.ofPresetWithDensity (preset_name : String) (density : Int) : OrgParams :=
  { preset := some preset_name, dq := none, count := fun _ => none, density := some density }

/-- What a claim observes of a node: its state and its row map. -/
def Node.view (n : Node) : State × RowMap := (n.m_state, n.m_row_state)

/-- Everything of a node but the contents of its children: level, id, state, row map
and number of children. -/
def Node.shell (n : Node) : Level × Int × State × RowMap × Nat :=
  (n.m_level, n.m_node_id, n.m_state, n.m_row_state, n.m_child_nodes.length)

/-- A closed bank without children, as a fresh tree holds it. -/
def Node.closedBank (id : Int) : Node :=
  Node.mk Level.bank id State.Closed RowMap.empty []

/-- A bankgroup with two closed banks. -/
def Node.sampleBankGroup : Node :=
  Node.mk Level.bankgroup 0 State.NA RowMap.empty [Node.closedBank 0, Node.closedBank 1]

/-! ## Timing values and the timing-constraint rule list (`HBM3::set_timing_vals`) -/

/-- Entries of `m_timings`, in their order: `rate` is slot 0 and `tCK_ps` slot 25. -/
inductive Timing where
  | rate
  | nBL | nCL | nRCDRD | nRCDWR | nRP | nRAS | nRC | nWR | nRTPS | nRTPL | nCWL
  | nCCDS | nCCDL
  | nRRDS | nRRDL
  | nWTRS | nWTRL
  | nRTW
  | nFAW
  | nRFC | nRFCSB | nREFI | nREFISB | nRREFD
  | tCK_ps
  deriving DecidableEq

/-- Index of a timing name in `m_timings`. -/
def Timing.toNat : Timing → Nat
  | .rate => 0
  | .nBL => 1 | .nCL => 2 | .nRCDRD => 3 | .nRCDWR => 4 | .nRP => 5 | .nRAS => 6
  | .nRC => 7 | .nWR => 8 | .nRTPS => 9 | .nRTPL => 10 | .nCWL => 11
  | .nCCDS => 12 | .nCCDL => 13
  | .nRRDS => 14 | .nRRDL => 15
  | .nWTRS => 16 | .nWTRL => 17
  | .nRTW => 18
  | .nFAW => 19
  | .nRFC => 20 | .nRFCSB => 21 | .nREFI => 22 | .nREFISB => 23 | .nRREFD => 24
  | .tCK_ps => 25

/-- The timing values `m_timing_vals`, read by name as `m_timing_vals("name")`. -/
abbrev TimingVals := Timing → Int

/-- Table `timing_presets`: one row of 26 slots per speed preset, in the order of
`m_timings`. -/
def timing_presets : List (String × List Int) :=
  [ ("HBM3_4.8Gbps", [4800, 2, 17, 17, 17, 17, 41, 58, 20, 5,  8, 5, 2, 4, 2, 4,  8, 10, 3, 36, -1, 240, 4680, -1, 10, 1200]),
    ("HBM3_5.2Gbps", [5200, 2, 19, 19, 19, 19, 45, 63, 21, 6,  8, 6, 2, 4, 2, 4,  8, 11, 3, 39, -1, 260, 5070, -1, 11, 1300]),
    ("HBM3_5.6Gbps", [5600, 2, 20, 20, 20, 20, 48, 68, 23, 6,  9, 6, 2, 4, 2, 4,  9, 12, 3, 42, -1, 280, 5460, -1, 12, 1400]),
    ("HBM3_6.0Gbps", [6000, 2, 21, 21, 21, 21, 51, 72, 24, 6,  9, 6, 2, 4, 2, 4,  9, 12, 3, 45, -1, 300, 5850, -1, 12, 1500]),
    ("HBM3_6.4Gbps", [6400, 2, 23, 23, 23, 23, 55, 77, 26, 7, 10, 7, 2, 4, 2, 4, 10, 13, 3, 48, -1, 320, 6240, -1, 13, 1600]) ]

/-- Timing values held in a vector of slots, as `m_timing_vals` holds a preset row after
`m_timing_vals = timing_presets.at(name)`. -/
def TimingVals.ofVector (v : List Int) : TimingVals :=
  fun name => v.getD name.toNat (-1)

/-- The row of the preset `HBM3_4.8Gbps` as timing values. The slots `nRFC` and
`nREFISB`, which `set_timing_vals` derives from the organization, hold the `-1` of
the table. -/
def TimingVals.HBM3_4_8Gbps : TimingVals :=
  TimingVals.ofVector ((timing_presets.lookup "HBM3_4.8Gbps").getD [])

/-- Modelled from the spec: the type of one entry of the initializer list given to
`populate_timingcons`, whose declaration is not part of the sources: scope level,
preceding commands, following commands, latency and the optional window (spec 3,
Timing Constraint Rule). -/
structure TimingCons where
  level : Level
  preceding : List Command
  following : List Command
  latency : Int
  window : Option Nat := none
  deriving DecidableEq

/-- The rule list that `set_timing_vals` gives to `populate_timingcons`, in its order;
`V` is the macro `V(timing)` reading `m_timing_vals`. -/
def timing_cons (V : TimingVals) : List TimingCons :=
  [ -- Channel
    { level := .channel, preceding := [.ACT], following := [.ACT, .PRE, .PREA, .REFab, .REFsb, .RFMab, .RFMsb], latency := 2 },
    -- Pseudo Channel
    { level := .pseudochannel, preceding := [.RD, .RDA], following := [.RD, .RDA], latency := V .nBL },
    { level := .pseudochannel, preceding := [.WR, .WRA], following := [.WR, .WRA], latency := V .nBL },
    { level := .pseudochannel, preceding := [.RD], following := [.PREA], latency := V .nRTPS },
    { level := .pseudochannel, preceding := [.WR], following := [.PREA], latency := V .nCWL + V .nBL + V .nWR },
    { level := .pseudochannel, preceding := [.ACT], following := [.PREA], latency := V .nRAS },
    { level := .pseudochannel, preceding := [.PREA], following := [.ACT], latency := V .nRP },
    { level := .pseudochannel, preceding := [.ACT], following := [.REFab, .RFMab], latency := V .nRC },
    { level := .pseudochannel, preceding := [.PRE, .PREA], following := [.REFab, .RFMab], latency := V .nRP },
    { level := .pseudochannel, preceding := [.RDA], following := [.REFab, .RFMab], latency := V .nRP + V .nRTPS },
    { level := .pseudochannel, preceding := [.WRA], following := [.REFab, .RFMab], latency := V .nCWL + V .nBL + V .nWR + V .nRP },
    { level := .pseudochannel, preceding := [.REFab, .RFMab], following := [.ACT, .REFsb, .RFMsb], latency := V .nRFC },
    -- Rank
    { level := .rank, preceding := [.ACT], following := [.ACT], latency := V .nRRDS },
    { level := .rank, preceding := [.ACT], following := [.ACT], latency := V .nFAW, window := some 4 },
    { level := .rank, preceding := [.ACT], following := [.REFsb, .RFMsb], latency := V .nRRDS + 1 },
    { level := .rank, preceding := [.REFsb, .RFMsb], following := [.REFsb, .RFMsb], latency := V .nRREFD },
    { level := .rank, preceding := [.REFsb, .RFMsb], following := [.ACT], latency := V .nRREFD - 1 },
    { level := .rank, preceding := [.RD, .RDA], following := [.RD, .RDA], latency := V .nCCDS },
    { level := .rank, preceding := [.WR, .WRA], following := [.WR, .WRA], latency := V .nCCDS },
    { level := .rank, preceding := [.RD, .RDA], following := [.WR, .WRA], latency := V .nCL + V .nBL + 2 - V .nCWL },
    { level := .rank, preceding := [.WR, .WRA], following := [.RD, .RDA], latency := V .nCWL + V .nBL + V .nWTRS },
    { level := .rank, preceding := [.ACT], following := [.ACT], latency := V .nRRDS },
    { level := .rank, preceding := [.ACT], following := [.ACT], latency := V .nFAW, window := some 4 },
    { level := .rank, preceding := [.ACT], following := [.PREA], latency := V .nRAS },
    { level := .rank, preceding := [.PREA], following := [.ACT], latency := V .nRP },
    -- Same Bank Group
    { level := .bankgroup, preceding := [.RD, .RDA], following := [.RD, .RDA], latency := V .nCCDL },
    { level := .bankgroup, preceding := [.WR, .WRA], following := [.WR, .WRA], latency := V .nCCDL },
    { level := .bankgroup, preceding := [.WR, .WRA], following := [.RD, .RDA], latency := V .nCWL + V .nBL + V .nWTRL },
    { level := .bankgroup, preceding := [.ACT], following := [.ACT], latency := V .nRRDL },
    { level := .bankgroup, preceding := [.ACT], following := [.REFsb, .RFMsb], latency := V .nRRDL + 1 },
    { level := .bankgroup, preceding := [.REFsb, .RFMsb], following := [.ACT], latency := V .nRRDL - 1 },
    { level := .bank, preceding := [.RD], following := [.PRE], latency := V .nRTPS },
    -- Bank
    { level := .bank, preceding := [.ACT], following := [.ACT], latency := V .nRC },
    { level := .bank, preceding := [.ACT], following := [.RD, .RDA], latency := V .nRCDRD },
    { level := .bank, preceding := [.ACT], following := [.WR, .WRA], latency := V .nRCDWR },
    { level := .bank, preceding := [.ACT], following := [.PRE], latency := V .nRAS },
    { level := .bank, preceding := [.PRE], following := [.ACT], latency := V .nRP },
    { level := .bank, preceding := [.RD], following := [.PRE], latency := V .nRTPL },
    { level := .bank, preceding := [.WR], following := [.PRE], latency := V .nCWL + V .nBL + V .nWR },
    { level := .bank, preceding := [.RDA], following := [.ACT, .REFsb, .RFMsb], latency := V .nRTPL + V .nRP },
    { level := .bank, preceding := [.WRA], following := [.ACT, .REFsb, .RFMsb], latency := V .nCWL + V .nBL + V .nWR + V .nRP } ]

/-! ## Timing scoreboard -/

/-- Modelled from the spec: the identity of a device node as the scoreboard keys it.
The node class (`dram/node.h`) is not part of the sources. A node is named by its
level and by the coordinates of the address vector from the channel down to that
level, "using the address vector to resolve the scope-level ancestor" (spec 4.2). -/
abbrev NodeId := Level × List Int

/-- Modelled from the spec: the node at scope `level` on the path of an address vector
(`dram/node.h` is not part of the sources). -/
def scopeNode (level : Level) (addr_vec : AddrVec) : NodeId :=
  (level, addr_vec.take (level.toNat + 1))

/-- Modelled from the spec: the timing scoreboard of spec 4.2, which `dram/node.h`
(not part of the sources) implements. `next_allowed` is, per node and per command,
the earliest clock at which the command is legal; `history` holds, per node and per
command, the clocks at which the command was issued at the node, oldest first, one
clock per issue. -/
structure Scoreboard where
  next_allowed : NodeId → Command → Int
  history : NodeId → Command → List Int

/-- Modelled from the spec: the scoreboard at initialization (`dram/node.h` is not part
of the sources). Every command is legal from the first clock, 0, on, and no command
was issued. -/
def Scoreboard.fresh : Scoreboard :=
  { next_allowed := fun _ _ => 0, history := fun _ _ => [] }

/-- Modelled from the spec: the "fixed-size history ring (size = window)" of a windowed
rule (`dram/node.h` is not part of the sources): the last `window` clocks at which the
preceding command was issued at the node, oldest first. It is full when it has
`window` clocks. -/
def ringOf (window : Nat) (clocks : List Int) : List Int :=
  clocks.drop (clocks.length - window)

/-- Modelled from the spec: the push of the clock of one issue (`dram/node.h` is not
part of the sources). The command has occurred once more at every node on the address
path, whatever the number of rules that it triggers. -/
def Scoreboard.record (command : Command) (addr_vec : AddrVec) (clk : Int)
    (sb : Scoreboard) : Scoreboard :=
  { sb with
    history := fun n c =>
      if c = command ∧ n = scopeNode n.1 addr_vec then sb.history n c ++ [clk]
      else sb.history n c }

/-- Modelled from the spec: the effect of one rule in `update_timing` (`dram/node.h` is
not part of the sources), spec 4.2. A rule whose `preceding` holds the command
acts on the node at its scope level on the address path. Without a window it sets
`next_allowed[node][f] = max(current, clock + latency)` for every `f` in `following`.
With a window it reads the ring of the command at the node, in which the clock of this
issue is already pushed, and only when the ring is full (the command has occurred
`window` times) recomputes `next_allowed[node][f]` as `history[oldest] + latency` (the
entry is assigned: spec 3 exempts window-based entries from being non-decreasing). -/
def Scoreboard.applyRule (command : Command) (addr_vec : AddrVec) (clk : Int)
    (sb : Scoreboard) (r : TimingCons) : Scoreboard :=
  if command ∈ r.preceding then
    match r.window with
    | none =>
      { sb with
        next_allowed := fun n c =>
          if n = scopeNode r.level addr_vec ∧ c ∈ r.following then
            max (sb.next_allowed n c) (clk + r.latency)
          else sb.next_allowed n c }
    | some window =>
      let ring := ringOf window (sb.history (scopeNode r.level addr_vec) command)
      { sb with
        next_allowed := fun n c =>
          if n = scopeNode r.level addr_vec ∧ c ∈ r.following ∧ ring.length = window then
            match ring.head? with
            | some oldest => oldest + r.latency
            | none => sb.next_allowed n c
          else sb.next_allowed n c }
  else sb

/-- Modelled from the spec: `update_timing(command, address, clock)` of spec 4.2
(`dram/node.h` is not part of the sources): the clock of the issue is pushed once, then
every rule of the list, in its order, has its effect. -/
def Scoreboard.update_timing (rules : List TimingCons) (command : Command)
    (addr_vec : AddrVec) (clk : Int) (sb : Scoreboard) : Scoreboard :=
  rules.foldl (Scoreboard.applyRule command addr_vec clk) (sb.record command addr_vec clk)

/-- Modelled from the spec: `check_ready(command, address, clock)` of spec 4.2
(`dram/node.h` is not part of the sources): true only if
`clock >= next_allowed[node][command]` for the node of every level on the address
path, so that constraints registered at several levels must all be satisfied. -/
def Scoreboard.check_ready (sb : Scoreboard) (command : Command) (addr_vec : AddrVec)
    (clk : Int) : Bool :=
  m_levels.all (fun l => decide (sb.next_allowed (scopeNode l addr_vec) command ≤ clk))

/-! ## Dispatch of actions and the device facade -/

/-- Table `m_actions` as `set_actions` fills it: `Channel::PREA` for PREA at the channel
level, `Bank::ACT` for ACT and `Bank::PRE` for PRE, RDA and WRA at the bank level; every
other entry is empty. -/
def m_actions : Level → Command → Option Lambdas.Action.Channel.ActionFunc
  | .channel, .PREA => Lambdas.Action.Channel.PREA (Level.bank.toNat - Level.channel.toNat)
  | .bank, .ACT => some Lambdas.Action.Bank.ACT
  | .bank, .PRE => some Lambdas.Action.Bank.PRE
  | .bank, .RDA => some Lambdas.Action.Bank.PRE
  | .bank, .WRA => some Lambdas.Action.Bank.PRE
  | _, _ => none

/-- Modelled from the spec: the Action dispatch `update_states` of a node
(`dram/node.h` is not part of the sources), spec 4.3 and 4.4. The walk starts at
the channel node and follows the address path through the levels `levels`; at each
node it runs the Action entry of (level, command) with the coordinate of the next
level as target id, an absent entry being a no-op, and then goes on to the child with
that coordinate. The path ends at an unused (negative) coordinate or where the tree
has no such child. -/
def Node.update_states (actions : Level → Command → Option Lambdas.Action.Channel.ActionFunc)
    (command : Command) (addr_vec : AddrVec) (clk : Int) : List Level → Node → Node
  | [], node => node
  | l :: below, node =>
    let child_id := addr_vec.getD (l.toNat + 1) (-1)
    let node1 :=
      match actions l command with
      | some action => action node command child_id clk
      | none => node
    if child_id < 0 then node1
    else
      match node1.m_child_nodes[child_id.toNat]? with
      | none => node1
      | some c =>
        node1.setChildren
          (node1.m_child_nodes.set child_id.toNat
            (Node.update_states actions command addr_vec clk below c))

/-- Modelled from the spec: construction of a node and of the subtree below it
(`dram/node.h` is not part of the sources). A node starts in the state that
`m_init_states` gives its level, with an empty row map, and owns one child per unit
of the count of each level in `below`. -/
def Node.create (level : Level) (id : Int) : List (Level × Nat) → Node
  | [] => Node.mk level id (m_init_states level) RowMap.empty []
  | (l, n) :: below =>
    Node.mk level id (m_init_states level) RowMap.empty
      ((List.range n).map (fun i => Node.create l i below))

/-- The device `HBM3`: clock, resolved organization and timing values, the channel
nodes `m_channels` and the timing scoreboard of their nodes. The members `m_clk`,
`m_organization` and `m_timing_vals` are declared in `dram/dram.h`, which is not part
of the sources; `HBM3.cpp` reads and writes them. -/
structure HBM3 where
  m_clk : Int
  m_organization : Organization
  m_timing_vals : TimingVals
  m_channels : List Node
  m_scoreboard : Scoreboard

namespace HBM3

/-- Function `create_nodes`: one channel node per unit of the channel count; the levels
below a channel that hold nodes are pseudochannel, rank, bankgroup and bank (rows
live in the row map of their bank). -/
def create_nodes (org : Organization) : List Node :=
  (List.range (org.countOf .channel).toNat).map (fun i =>
    Node.create .channel i
      [ (.pseudochannel, (org.countOf .pseudochannel).toNat),
        (.rank, (org.countOf .rank).toNat),
        (.bankgroup, (org.countOf .bankgroup).toNat),
        (.bank, (org.countOf .bank).toNat) ])

/-- The device after `init()` resolved the organization `org` and the timing values
`V`: fresh nodes, a fresh scoreboard and the clock at 0, the first clock of a run. -/
def create (org : Organization) (V : TimingVals) : HBM3 :=
  { m_clk := 0, m_organization := org, m_timing_vals := V,
    m_channels := create_nodes org, m_scoreboard := Scoreboard.fresh }

/-- Function `tick`: `m_clk++`. -/
def tick (d : HBM3) : HBM3 := { d with m_clk := d.m_clk + 1 }

/-- The device after `n` calls of `tick`. -/
def tickN : Nat → HBM3 → HBM3
  | 0, d => d
  | n + 1, d => tickN n d.tick

/-- Function `issue_command`: `update_timing` and then `update_states` on the channel
node `m_channels[addr_vec[m_levels["channel"]]]`, both at the clock `m_clk`. The
scoreboard entries of that channel are those whose node path starts with its id. -/
def issue_command (d : HBM3) (command : Command) (addr_vec : AddrVec) : HBM3 :=
  let channel_id := addr_vec.getD Level.channel.toNat (-1)
  { d with
    m_scoreboard :=
      d.m_scoreboard.update_timing (timing_cons d.m_timing_vals) command addr_vec d.m_clk
    m_channels :=
      if channel_id < 0 then d.m_channels
      else
        match d.m_channels[channel_id.toNat]? with
        | none => d.m_channels
        | some channel =>
          d.m_channels.set channel_id.toNat
            (channel.update_states m_actions command addr_vec d.m_clk m_levels) }

/-- Function `check_ready`: `check_ready` of the addressed channel node at the clock
`m_clk`. -/
def check_ready (d : HBM3) (command : Command) (addr_vec : AddrVec) : Bool :=
  d.m_scoreboard.check_ready command addr_vec d.m_clk

end HBM3

/-- A valid address vector for an organization: one coordinate per level, each at
least 0 and below the count of its level. -/
def AddrVec.valid (org : Organization) (addr_vec : AddrVec) : Bool :=
  addr_vec.length == m_levels.length &&
    m_levels.all (fun l =>
      decide (0 ≤ addr_vec.getD l.toNat (-1)) &&
        decide (addr_vec.getD l.toNat (-1) < org.countOf l))

/-- The organization of the preset `HBM3_2Gb_1R`. -/
def Organization.HBM3_2Gb_1R : Organization :=
  (org_presets.lookup "HBM3_2Gb_1R").getD ⟨-1, -1, []⟩

/-- The earliest clock that the rules without a window allow for the command `F` at the
node `n` once `P` was issued to `addr_vec` at clock `t`, starting from the value `v0`. -/
def gate (rules : List TimingCons) (P : Command) (addr_vec : AddrVec) (t : Int)
    (n : NodeId) (F : Command) (v0 : Int) : Int :=
  rules.foldl (fun v r =>
    if r.window = none ∧ P ∈ r.preceding ∧ n = scopeNode r.level addr_vec ∧ F ∈ r.following
    then max v (t + r.latency) else v) v0

/-- One call of the controller that changes the device: `tick()` or
`issue_command(command, addr_vec)`. -/
inductive Op where
  | tick
  | issue (command : Command) (addr_vec : AddrVec)

/-- The device after one call. -/
def HBM3.step (d : HBM3) : Op → HBM3
  | .tick => d.tick
  | .issue command addr_vec => d.issue_command command addr_vec

/-- The device after a sequence of calls, in their order. -/
def HBM3.run (d : HBM3) (ops : List Op) : HBM3 :=
  ops.foldl HBM3.step d

/-- Whether a call is an ACT issued to a bank of the rank of `addr_vec`. -/
def Op.isACTtoRankOf (addr_vec : AddrVec) : Op → Bool
  | .tick => false
  | .issue command a =>
    decide (command = Command.ACT) && decide (scopeNode .rank a = scopeNode .rank addr_vec)

/-- The effect of one rule of `update_timing` as seen at one node `n` and for one
following command `F`: the value of `next_allowed[n][F]` after the rule, from its value
`v` before and the clocks `clocks` of the issues of `P` at `n`. -/
def localStep (P : Command) (a : AddrVec) (t : Int) (n : NodeId) (F : Command)
    (clocks : List Int) (v : Int) (r : TimingCons) : Int :=
  if P ∈ r.preceding ∧ n = scopeNode r.level a then
    match r.window with
    | none => if F ∈ r.following then max v (t + r.latency) else v
    | some w =>
      if F ∈ r.following ∧ (ringOf w clocks).length = w then
        match (ringOf w clocks).head? with
        | some oldest => oldest + r.latency
        | none => v
      else v
  else v

/-- The device after four ACT commands to `a0`, `a1`, `a2` and `a3`, the calls `s0`, `s1`
and `s2` between them and the calls `s3` after the fourth. -/
def HBM3.afterFourACT (d : HBM3) (a0 a1 a2 a3 : AddrVec) (s0 s1 s2 s3 : List Op) : HBM3 :=
  ((((((((d.issue_command .ACT a0).run s0).issue_command .ACT a1).run s1).issue_command
    .ACT a2).run s2).issue_command .ACT a3).run s3)

/-- Positions of the nodes `depth` levels below `n`, in the order in which nested loops
over `m_child_nodes` visit them. -/
def Node.positions : Nat → Node → List (List Nat)
  | 0, _ => [[]]
  | depth + 1, n =>
    (List.range n.m_child_nodes.length).flatMap (fun i =>
      match n.m_child_nodes[i]? with
      | none => []
      | some c => (Node.positions depth c).map (fun p => i :: p))

/-- Tree after running `f` on the node at each of the positions `ps`, one after the
other. -/
def Node.modifyEach (f : Node → Node) (ps : List (List Nat)) (n : Node) : Node :=
  ps.foldl (fun t p => t.modifyAt f p) n

/-- Tree after running `f` on every node `depth` levels below `n` by nested loops. -/
def Node.forDepth (f : Node → Node) : Nat → Node → Node
  | 0 => f
  | depth + 1 => Node.forChildren (Node.forDepth f depth)

/-- Child indices from a channel node down to the bank that an address vector names:
its coordinates at the levels pseudochannel, rank, bankgroup and bank. -/
def AddrVec.bankPath (addr_vec : AddrVec) : List Nat :=
  [(addr_vec.getD Level.pseudochannel.toNat (-1)).toNat,
   (addr_vec.getD Level.rank.toNat (-1)).toNat,
   (addr_vec.getD Level.bankgroup.toNat (-1)).toNat,
   (addr_vec.getD Level.bank.toNat (-1)).toNat]

/-- The organization of the preset `HBM3_2Gb_1R` with two channels. -/
def Organization.HBM3_2Gb_1R_x2 : Organization :=
  { Organization.HBM3_2Gb_1R with count := Organization.HBM3_2Gb_1R.count.set 0 2 }

/-- The first channel node of a device (a closed bank stands in when there is none). -/
def HBM3.firstChannel (d : HBM3) : Node :=
  (d.m_channels[0]?).getD (Node.closedBank 0)

/-- The node at a position of a tree (a closed bank stands in when there is none). -/
def Node.getD (n : Node) (p : List Nat) : Node :=
  (n.get? p).getD (Node.closedBank 0)

/-- The device of the presets `HBM3_2Gb_1R` and `HBM3_4.8Gbps` at clock 100, nothing issued. -/
def HBM3.sample : HBM3 :=
  (HBM3.create Organization.HBM3_2Gb_1R TimingVals.HBM3_4_8Gbps).tickN 100

/-- The device of the preset `HBM3_2Gb_1R` with two channels, at clock 100, nothing issued. -/
def HBM3.sample_x2 : HBM3 :=
  (HBM3.create Organization.HBM3_2Gb_1R_x2 TimingVals.HBM3_4_8Gbps).tickN 100

/-! ## Prerequisite and row-hit dispatch -/

/-- Signature `PreqFunc_t<Node>` of a Prerequisite entry: node, command, target id and
clock; the result is the command to issue first, or the command itself when nothing
blocks it at this node. -/
abbrev PreqFunc := Node → Command → Int → Int → Command

/-- The three Prerequisite lambdas that `set_preqs` registers. Their definitions
(`dram/lambdas/preq.h`) are not part of the sources; they are taken as they come. -/
structure PreqLambdas where
  RequireAllBanksClosed : PreqFunc
  RequireBankClosed : PreqFunc
  RequireRowOpen : PreqFunc

/-- Table `m_preqs` as `set_preqs` fills it: `RequireAllBanksClosed` for REFab at the
channel level, `RequireBankClosed` for REFsb and `RequireRowOpen` for RD and WR at the
bank level; every other entry is empty. -/
def m_preqs (L : PreqLambdas) : Level → Command → Option PreqFunc
  | .channel, .REFab => some L.RequireAllBanksClosed
  | .bank, .REFsb => some L.RequireBankClosed
  | .bank, .RD => some L.RequireRowOpen
  | .bank, .WR => some L.RequireRowOpen
  | _, _ => none

/-- Modelled from the spec: the Prerequisite dispatch `get_preq_command` of a node
(`dram/node.h` is not part of the sources), spec 4.3 and 4.4. The walk follows the
address path through the levels `levels`; at a node whose (level, command) entry
answers another command, that command is the prerequisite; an absent entry does not
guard the command; when nothing on the path blocks it the command itself is
returned. -/
def Node.get_preq_command (preqs : Level → Command → Option PreqFunc) (command : Command)
    (addr_vec : AddrVec) (clk : Int) : List Level → Node → Command
  | [], _ => command
  | l :: below, node =>
    let child_id := addr_vec.getD (l.toNat + 1) (-1)
    let here :=
      match preqs l command with
      | some preq => preq node command child_id clk
      | none => command
    if here ≠ command then here
    else if child_id < 0 then command
    else
      match node.m_child_nodes[child_id.toNat]? with
      | none => command
      | some c => Node.get_preq_command preqs command addr_vec clk below c

/-- Function `get_preq_command`: `get_preq_command` of the channel node
`m_channels[addr_vec[m_levels["channel"]]]` at the clock `m_clk`. Without such a
channel node nothing blocks the command. -/
def HBM3.get_preq_command (L : PreqLambdas) (d : HBM3) (command : Command)
    (addr_vec : AddrVec) : Command :=
  let channel_id := addr_vec.getD Level.channel.toNat (-1)
  if channel_id < 0 then command
  else
    match d.m_channels[channel_id.toNat]? with
    | none => command
    | some channel => channel.get_preq_command (m_preqs L) command addr_vec d.m_clk m_levels

/-- Signature `RowhitFunc_t<Node>` of a RowHit entry: node, command, target id, clock. -/
abbrev RowhitFunc := Node → Command → Int → Int → Bool

namespace Lambdas
namespace RowHit
namespace Bank

/-- Modelled from the spec: the RowHit predicate `RowHit::Bank::RDWR`
(`dram/lambdas/rowhit.h` is not part of the sources), spec 4.3: "does the requested
access's row id equal the currently-open row id at the addressed bank". The open rows
of a bank are the row ids that its row map holds as Opened (spec 4.1). -/
def RDWR (node : Node) (_cmd : Command) (target_id : Int) (_clk : Int) : Bool :=
  decide (node.m_row_state target_id = some State.Opened)

end Bank
end RowHit
end Lambdas

/-- Table `m_rowhits` as `set_rowhits` fills it: `RowHit::Bank::RDWR` for RD and for WR at
the bank level; every other entry is empty. -/
def m_rowhits : Level → Command → Option RowhitFunc
  | .bank, .RD => some Lambdas.RowHit.Bank.RDWR
  | .bank, .WR => some Lambdas.RowHit.Bank.RDWR
  | _, _ => none

/-- Modelled from the spec: the RowHit dispatch `check_rowbuffer_hit` of a node
(`dram/node.h` is not part of the sources), spec 4.3 and 4.4. The walk follows the
address path through the levels `levels` down to the first node with a (level, command)
entry and answers with that predicate, the coordinate of the next level being the
target id; without any entry on the path the access is not a row-buffer hit. -/
def Node.check_rowbuffer_hit (rowhits : Level → Command → Option RowhitFunc)
    (command : Command) (addr_vec : AddrVec) (clk : Int) : List Level → Node → Bool
  | [], _ => false
  | l :: below, node =>
    let child_id := addr_vec.getD (l.toNat + 1) (-1)
    match rowhits l command with
    | some rowhit => rowhit node command child_id clk
    | none =>
      if child_id < 0 then false
      else
        match node.m_child_nodes[child_id.toNat]? with
        | none => false
        | some c => Node.check_rowbuffer_hit rowhits command addr_vec clk below c

/-- Function `check_rowbuffer_hit`: `check_rowbuffer_hit` of the channel node
`m_channels[addr_vec[m_levels["channel"]]]` at the clock `m_clk`. Without such a
channel node there is no hit. -/
def HBM3.check_rowbuffer_hit (d : HBM3) (command : Command) (addr_vec : AddrVec) : Bool :=
  let channel_id := addr_vec.getD Level.channel.toNat (-1)
  if channel_id < 0 then false
  else
    match d.m_channels[channel_id.toNat]? with
    | none => false
    | some channel => channel.check_rowbuffer_hit m_rowhits command addr_vec d.m_clk m_levels

/-- Address vector with the row coordinate replaced. -/
def AddrVec.withRow (addr_vec : AddrVec) (row : Int) : AddrVec :=
  addr_vec.set Level.row.toNat row

/-! ## Per-bank actions (`Bank::ACTPB`, `Bank::PREPB`) -/

namespace Lambdas
namespace Action
namespace Bank

/-- The nested loops of `Bank::ACTPB` and of `Bank::PREPB`, which are the same text but
for the two assignments under the innermost test: over every pseudochannel `pch` of
the channel `ch`, every rank of `pch` whose `m_node_id` is `rank_id`, every bankgroup
of that rank whose `m_node_id` is `bg_id` and every bank of that bankgroup whose
`m_node_id` is `bank_id`, on which `body` runs. No test reads the `m_node_id` of
`pch`. -/
def forSameIds (body : Node → Node) (rank_id bg_id bank_id : Int) (ch : Node) : Node :=
  ch.forChildren (fun pch =>
    pch.forChildren (fun rank =>
      if rank.m_node_id = rank_id then
        rank.forChildren (fun bg =>
          if bg.m_node_id = bg_id then
            bg.forChildren (fun bank =>
              if bank.m_node_id = bank_id then body bank else bank)
          else bg)
      else rank))

/-- Action `Bank::ACTPB`, instantiated for the compile-time distance
`T::m_levels["bank"] - T::m_levels["channel"]`; for a distance other than 4 the
`static_assert` rejects the instantiation (`none`). The node of the C++ signature is
given by the channel `ch` that its fourth `m_parent_node` is and by the child indices
`pos` that lead from `ch` to it; `none` also stands for indices that name no node four
levels below `ch`. Every bank that passes the three tests becomes `Opened` with its
row `target_id` marked `Opened`. The result is the channel after the mutation. -/
def ACTPB (bank_minus_channel : Nat) (ch : Node) (pos : List Nat) (cmd : Command)
    (target_id : Int) (clk : Int) : Option Node :=
  if bank_minus_channel = 4 then
    match pos with
    | [i, j, k, l] =>
      match ch.get? [i, j], ch.get? [i, j, k], ch.get? [i, j, k, l] with
      | some rank0, some bg0, some node =>
        some (forSameIds (fun bank => ACT bank cmd target_id clk)
          rank0.m_node_id bg0.m_node_id node.m_node_id ch)
      | _, _, _ => none
    | _ => none
  else
    none

/-- Action `Bank::PREPB`, with the same instantiation, node position and loops as
`ACTPB`: every bank that passes the three tests becomes `Closed` with its row map
cleared. -/
def PREPB (bank_minus_channel : Nat) (ch : Node) (pos : List Nat) (cmd : Command)
    (target_id : Int) (clk : Int) : Option Node :=
  if bank_minus_channel = 4 then
    match pos with
    | [i, j, k, l] =>
      match ch.get? [i, j], ch.get? [i, j, k], ch.get? [i, j, k, l] with
      | some rank0, some bg0, some node =>
        some (forSameIds (fun bank => PRE bank cmd target_id clk)
          rank0.m_node_id bg0.m_node_id node.m_node_id ch)
      | _, _, _ => none
    | _ => none
  else
    none

end Bank
end Action
end Lambdas

/-! ## Resolution of the timing values (`HBM3::set_timing_vals`) -/

/-- List `m_timings`: the names of the timing slots in their order. -/
def m_timings : List Timing :=
  [ .rate,
    .nBL, .nCL, .nRCDRD, .nRCDWR, .nRP, .nRAS, .nRC, .nWR, .nRTPS, .nRTPL, .nCWL,
    .nCCDS, .nCCDL,
    .nRRDS, .nRRDL,
    .nWTRS, .nWTRL,
    .nRTW,
    .nFAW,
    .nRFC, .nRFCSB, .nREFI, .nREFISB, .nRREFD,
    .tCK_ps ]

/-- The optional settings that `set_timing_vals` reads from `param_group("timing")`:
`preset`, `rate`, for a timing name `nX` the integer `param<int>("nX")` (`cycles`) and
the `param<float>("tX")` in nanoseconds (`nanos`), held as the rational number that the
float is. -/
structure TimingParams where
  preset : Option String
  rate : Option Int
  cycles : Timing → Option Int
  nanos : Timing → Option ℚ

/-- Values that the C++ text leaves open where `set_timing_vals` runs into them: the
`int` that the conversion of the `double` quotient `1E6 / 0` yields, and the `int`
read from `tRFC_TABLE[0][i]` and `tREFISB_TABLE[0][i]` at an index `i` outside `0..7`. -/
structure Unspecified where
  int_of_inf : Int
  tRFC_outside : Int → Int
  tREFISB_outside : Int → Int

/-- Modelled from the spec: the function `JEDEC_rounding(t_ns, tCK_ps)`, whose definition
(`dram/dram.h`) is not part of the sources: the ceiling of the time, in picoseconds,
divided by the clock period (spec 6, "JEDEC rounding": ceiling of time/period). The
specification gives no value at the period 0, where the quotient is taken as 0. -/
def JEDEC_rounding (t_ns : ℚ) (tCK_ps : Int) : Int :=
  ⌈t_ns * 1000 / (tCK_ps : ℚ)⌉

/-- Local `tCK_ps` of `set_timing_vals`, `int tCK_ps = 1E6 / (rate / 4)`: `rate / 4`
is the truncating `int` division, the quotient is a `double` and its conversion to
`int` truncates. The `double` nearest to `1E6 / q` has the same integer part as the
exact quotient for every `int` `q` other than 0. -/
def tCK_ps (U : Unspecified) (rate : Int) : Int :=
  if rate.tdiv 4 = 0 then U.int_of_inf else (1000000 : Int).tdiv (rate.tdiv 4)

/-- Table `tRFC_TABLE[0]`, in nanoseconds: 2Gb, 4Gb, 6Gb, 8Gb, 12Gb, 16Gb, 24Gb, 32Gb. -/
def tRFC_TABLE : List Int := [160, 260, 310, 350, 410, 450, 610, 650]

/-- Table `tREFISB_TABLE[0]`, in nanoseconds, declared with eight entries of which the
initializer gives four (4-Hi, 8-Hi, 12-Hi, 16-Hi); the other four are zero. -/
def tREFISB_TABLE : List Int := [244, 122, 82, 61, 0, 0, 0, 0]

/-- Read `table[0][i]` of an eight-entry table. -/
def table_at (table : List Int) (outside : Int → Int) (i : Int) : Int :=
  if 0 ≤ i ∧ i < table.length then table.getD i.toNat 0 else outside i

/-- The lambda that gives `density_id` from the density in megabits. -/
def density_id (density_Mb : Int) : Int :=
  if density_Mb = 2048 then 0
  else if density_Mb = 4096 then 1
  else if density_Mb = 6144 then 2
  else if density_Mb = 8192 then 3
  else if density_Mb = 12288 then 4
  else if density_Mb = 16384 then 5
  else if density_Mb = 24576 then 6
  else if density_Mb = 32768 then 7
  else -1

/-- Preset step of `set_timing_vals`: the vector after the resize and the preset load,
with the flag `preset_provided`. -/
def load_timing_preset (m_timing_vals : List Int) (p : TimingParams) :
    Except ConfigurationError (List Int × Bool) :=
  match p.preset with
  | some preset_name =>
    match timing_presets.lookup preset_name with
    | some row => .ok (row, true)
    | none => .error (ConfigurationError.unrecognizedTimingPreset preset_name)
  | none => .ok (resize m_timing_vals m_timings.length (-1), false)

/-- Rate step of `set_timing_vals`: a rate given together with a preset is an error,
a rate given alone is stored in the slot `rate`. -/
def set_rate (v : List Int) (preset_provided : Bool) (p : TimingParams) :
    Except ConfigurationError (List Int) :=
  match p.rate with
  | some dq =>
    if preset_provided then .error ConfigurationError.rateWithPreset
    else .ok (v.set Timing.rate.toNat dq)
  | none => .ok v

/-- Body of the override loop of `set_timing_vals` for the index `i`: the cycle count
`param<int>(nX)` if it is given, else the rounding of `param<float>(tX)` if that is
given, else no change. -/
def override_timing (rounding : ℚ → Int → Int) (p : TimingParams) (tCK_ps : Int)
    (v : List Int) (i : Nat) : List Int :=
  match m_timings[i]? with
  | none => v
  | some timing_name =>
    match p.cycles timing_name with
    | some provided_timing => v.set i provided_timing
    | none =>
      match p.nanos timing_name with
      | some provided_timing => v.set i (rounding provided_timing tCK_ps)
      | none => v

/-- Steps of `set_timing_vals` from the clock period to the end of the override loop,
on the vector `v` left by the preset and rate steps: the slot `tCK_ps`, the derived
slots `nRFC` and `nREFISB`, then the loop `for (i = 1; i < m_timings.size() - 1; i++)`. -/
def derive_and_override (rounding : ℚ → Int → Int) (U : Unspecified)
    (m_organization : Organization) (p : TimingParams) (v : List Int) : List Int :=
  let tCK_ps := tCK_ps U (v.getD Timing.rate.toNat (-1))
  let v1 := v.set Timing.tCK_ps.toNat tCK_ps
  let v2 := v1.set Timing.nRFC.toNat
    (rounding (table_at tRFC_TABLE U.tRFC_outside (density_id m_organization.density)) tCK_ps)
  let v3 := v2.set Timing.nREFISB.toNat
    (rounding (table_at tREFISB_TABLE U.tREFISB_outside (m_organization.countOf .rank)) tCK_ps)
  (List.range' 1 (m_timings.length - 2)).foldl (override_timing rounding p tCK_ps) v3

/-- The part of `set_timing_vals` before the completeness check: the vector
`m_timing_vals` after the resize, the preset, the rate, the clock period, the derived
refresh timings and the user overrides. `rounding` is the function `JEDEC_rounding`,
`m_timing_vals` the member as it is on entry. -/
def resolve_timing_vals (rounding : ℚ → Int → Int) (U : Unspecified)
    (m_organization : Organization) (m_timing_vals : List Int) (p : TimingParams) :
    Except ConfigurationError (List Int) :=
  match load_timing_preset m_timing_vals p with
  | .error e => .error e
  | .ok (v, preset_provided) =>
    match set_rate v preset_provided p with
    | .error e => .error e
    | .ok v => .ok (derive_and_override rounding U m_organization p v)

/-- What `set_timing_vals` leaves when it returns: the vector `m_timing_vals`, the member
`m_read_latency` (the `int` sum `nCL + nBL`, exact where it does not overflow) and the
rule list that it gives to `populate_timingcons`. -/
structure TimingSetup where
  m_timing_vals : List Int
  m_read_latency : Int
  rules : List TimingCons

/-- Function `HBM3::set_timing_vals`: the resolution, the completeness check, which
throws at the first index whose slot holds `-1`, then the read latency and the
population of the timing constraints. -/
def set_timing_vals (rounding : ℚ → Int → Int) (U : Unspecified)
    (m_organization : Organization) (m_timing_vals : List Int) (p : TimingParams) :
    Except ConfigurationError TimingSetup :=
  match resolve_timing_vals rounding U m_organization m_timing_vals p with
  | .error e => .error e
  | .ok v =>
    match v.findIdx? (fun x => x == -1) with
    | some i => .error (ConfigurationError.timingNotSpecified i)
    | none =>
      .ok { m_timing_vals := v,
            m_read_latency := TimingVals.ofVector v .nCL + TimingVals.ofVector v .nBL,
            rules := timing_cons (TimingVals.ofVector v) }

/-- Settings that name a timing preset and override nothing. -/
def TimingParams.ofPreset (preset_name : String) : TimingParams :=
  { preset := some preset_name, rate := none, cycles := fun _ => none, nanos := fun _ => none }

/-- Settings of a timing preset with one cycle-count override. -/
def TimingParams.withCycles (p : TimingParams) (timing_name : Timing) (n : Int) :
    TimingParams :=
  { p with
    cycles := fun t => if t = timing_name then some n else p.cycles t }

/-- Settings of a timing preset with one physical-time override, in nanoseconds. -/
def TimingParams.withNanos (p : TimingParams) (timing_name : Timing) (t_ns : ℚ) :
    TimingParams :=
  { p with
    nanos := fun t => if t = timing_name then some t_ns else p.nanos t }

/-- Values for the open points of the C++ text as a common x86-64 build gives them:
the conversion of infinity yields `INT_MIN`, and a read outside a table yields 0. -/
def Unspecified.sample : Unspecified :=
  { int_of_inf := -2147483648, tRFC_outside := fun _ => 0, tREFISB_outside := fun _ => 0 }

/-- The value that the body of the override loop stores at the index `i`, if it stores
one. -/
def override_value (rounding : ℚ → Int → Int) (p : TimingParams) (tCK_ps : Int) (i : Nat) :
    Option Int :=
  match m_timings[i]? with
  | none => none
  | some timing_name =>
    match p.cycles timing_name with
    | some provided_timing => some provided_timing
    | none =>
      match p.nanos timing_name with
      | some provided_timing => some (rounding provided_timing tCK_ps)
      | none => none

/-- The row of the preset `HBM3_4.8Gbps`. -/
def timing_presets_HBM3_4_8Gbps : List Int :=
  (timing_presets.lookup "HBM3_4.8Gbps").getD []

/-- Settings of the preset `HBM3_4.8Gbps` with the cycle count `nRFC` of 200 and the
physical time `tRFC` of 100 ns. -/
def TimingParams.sample_nRFC : TimingParams :=
  ((TimingParams.ofPreset "HBM3_4.8Gbps").withCycles .nRFC 200).withNanos .nRFC 100

/-- Settings that give the preset `HBM3_4.8Gbps` and, with it, the rate 4800 of that
preset. -/
def TimingParams.sample_preset_and_rate : TimingParams :=
  { preset := some "HBM3_4.8Gbps", rate := some 4800, cycles := fun _ => none,
    nanos := fun _ => none }

/-- The organization of the preset `HBM3_8Gb_4R`, with four ranks. -/
def Organization.HBM3_8Gb_4R : Organization :=
  (org_presets.lookup "HBM3_8Gb_4R").getD ⟨-1, -1, []⟩

/-- Settings of the preset `HBM3_2Gb_1R` with 4096 rows and the declared density of
1024 Mb, the density of one channel with that many rows. -/
def OrgParams.sample_1Gb : OrgParams :=
  { preset := some "HBM3_2Gb_1R", dq := none,
    count := fun l => if l = Level.row then some 4096 else none, density := some 1024 }

/-! ## The other state-changing actions of `action.h` -/

namespace Lambdas
namespace Action

namespace Bank

/-- Action `Bank::ACTAB`, instantiated for the compile-time distance
`T::m_levels["bank"] - T::m_levels["channel"]` (other than 4: `none`, the
`static_assert`). The node is given as for `ACTPB` by its channel `ch` and the child
indices `pos`; it serves only to reach the channel. Every bank of the channel becomes
`Opened` with its row `target_id` marked `Opened`. -/
def ACTAB (bank_minus_channel : Nat) (ch : Node) (pos : List Nat) (cmd : Command)
    (target_id : Int) (clk : Int) : Option Node :=
  if bank_minus_channel = 4 then
    match pos with
    | [i, j, k, l] =>
      match ch.get? [i, j, k, l] with
      | some _ =>
        some (ch.forChildren (fun pc =>
          pc.forChildren (fun rank =>
            rank.forChildren (fun bg =>
              bg.forChildren (fun bank => ACT bank cmd target_id clk)))))
      | none => none
    | _ => none
  else
    none

/-- Action `Bank::ACTSB`, with the instantiation and node position of `ACTAB`: every
bank of the channel whose `m_node_id` is that of the node becomes `Opened` with its row
`target_id` marked `Opened`. -/
def ACTSB (bank_minus_channel : Nat) (ch : Node) (pos : List Nat) (cmd : Command)
    (target_id : Int) (clk : Int) : Option Node :=
  if bank_minus_channel = 4 then
    match pos with
    | [i, j, k, l] =>
      match ch.get? [i, j, k, l] with
      | some node =>
        some (ch.forChildren (fun pch =>
          pch.forChildren (fun rank =>
            rank.forChildren (fun bg =>
              bg.forChildren (fun bank =>
                if bank.m_node_id = node.m_node_id then ACT bank cmd target_id clk
                else bank)))))
      | none => none
    | _ => none
  else
    none

/-- Action `Bank::PRESB`, whose text is that of `PREPB`: the loops of `forSameIds` with
the tests on the rank, bankgroup and bank `m_node_id`, closing each bank that passes
them. -/
def PRESB (bank_minus_channel : Nat) (ch : Node) (pos : List Nat) (cmd : Command)
    (target_id : Int) (clk : Int) : Option Node :=
  if bank_minus_channel = 4 then
    match pos with
    | [i, j, k, l] =>
      match ch.get? [i, j], ch.get? [i, j, k], ch.get? [i, j, k, l] with
      | some rank0, some bg0, some node =>
        some (forSameIds (fun bank => PRE bank cmd target_id clk)
          rank0.m_node_id bg0.m_node_id node.m_node_id ch)
      | _, _, _ => none
    | _ => none
  else
    none

/-- Action `Bank::PREsb`. The node is the one at the child indices `rank_pos ++ [k, l]`
below `root`, so that `node->m_parent_node->m_parent_node` is the node at `rank_pos`
(`none` when the indices name no node). Every bank two levels below that rank whose
`m_node_id` is that of the node becomes `Closed` with its row map cleared; `target_id`
is not read. The result is `root` after the mutation. -/
def PREsb (root : Node) (rank_pos : List Nat) (k l : Nat) (cmd : Command)
    (target_id : Int) (clk : Int) : Option Node :=
  match root.get? (rank_pos ++ [k, l]) with
  | none => none
  | some node =>
    some (root.modifyAt (fun rank =>
      rank.forChildren (fun bg =>
        bg.forChildren (fun bank =>
          if bank.m_node_id = node.m_node_id then PRE bank cmd target_id clk else bank)))
      rank_pos)

end Bank

namespace BankGroup

/-- Action `BankGroup::PREsb`. The node is the one at the child indices
`rank_pos ++ [k]` below `root`, so that `node->m_parent_node` is the node at `rank_pos`
(`none` when the indices name no node). Every bank two levels below that rank whose
`m_node_id` is `target_id` becomes `Closed` with its row map cleared. -/
def PREsb (root : Node) (rank_pos : List Nat) (k : Nat) (cmd : Command)
    (target_id : Int) (clk : Int) : Option Node :=
  match root.get? (rank_pos ++ [k]) with
  | none => none
  | some _ =>
    some (root.modifyAt (fun rank =>
      rank.forChildren (fun bg =>
        bg.forChildren (fun bank =>
          if bank.m_node_id = target_id then Bank.PRE bank cmd target_id clk else bank)))
      rank_pos)

end BankGroup

namespace Rank

/-- Action `Rank::PREA`, instantiated for the compile-time distance
`T::m_levels["bank"] - T::m_levels["rank"]`: one or two nested loops over
`m_child_nodes` that close every bank; for any other distance the `static_assert`
rejects the instantiation (`none`). -/
def PREA (bank_minus_rank : Nat) : Option Channel.ActionFunc :=
  if bank_minus_rank = 1 then
    some (fun node cmd target_id clk =>
      node.forChildren (fun bank => Bank.PRE bank cmd target_id clk))
  else if bank_minus_rank = 2 then
    some (fun node cmd target_id clk =>
      node.forChildren (fun bg =>
        bg.forChildren (fun bank => Bank.PRE bank cmd target_id clk)))
  else
    none

/-- Action `Rank::PREsb`: every bank two levels below the node whose `m_node_id` is
`target_id` becomes `Closed` with its row map cleared. -/
def PREsb (node : Node) (cmd : Command) (target_id : Int) (clk : Int) : Node :=
  node.forChildren (fun bg =>
    bg.forChildren (fun bank =>
      if bank.m_node_id = target_id then Bank.PRE bank cmd target_id clk else bank))

end Rank

end Action
end Lambdas

/-- The first channel of the sample device after an ACT to row 7 of the bank 2 of the
bankgroup 3 (pseudochannel 0, rank 0). -/
def Node.sampleChannelOpened : Node :=
  (HBM3.sample.issue_command .ACT [0, 0, 0, 3, 2, 7, 0]).firstChannel

/-! ## Sequences of actions on a channel -/

/-- The invariant of a bank: its state is `Opened` exactly when its row map has an
entry, and every entry of its row map is `Opened`. -/
def Node.bankInvariant (b : Node) : Prop :=
  (b.m_state = State.Opened ↔ ∃ r, b.m_row_state r ≠ none) ∧
  ∀ r s, b.m_row_state r = some s → s = State.Opened

/-- Every node `depth` levels below `n` satisfies `P`. -/
def Node.AllAtDepth (P : Node → Prop) : Nat → Node → Prop
  | 0, n => P n
  | depth + 1, n => ∀ c ∈ n.m_child_nodes, Node.AllAtDepth P depth c

/-- The actions of `action.h` that assign `m_state` and `m_row_state`. -/
inductive ActionName where
  | Bank_ACT | Bank_PRE
  | Bank_ACTAB | Bank_ACTSB | Bank_ACTPB
  | Bank_PRESB | Bank_PREsb | Bank_PREPB
  | BankGroup_PREsb
  | Rank_PREA | Rank_PREsb
  | Channel_PREA
  deriving DecidableEq

/-- One call of an action on the tree of a channel: the action, the child indices
`pos` from the channel to the node it is called on, and the arguments `cmd`,
`target_id` and `clk`. -/
structure ActionCall where
  action : ActionName
  pos : List Nat
  cmd : Command
  target_id : Int
  clk : Int

/-- The channel after one call, on the HBM3 levels (banks four levels below the channel
and two below the rank). A bank action is called on a node four levels below the
channel, `BankGroup::PREsb` on one three levels below, a rank action on one two levels
below and `Channel::PREA` on the channel. A call whose indices name no such node leaves
the channel as it is. -/
def ActionCall.run (ch : Node) (c : ActionCall) : Node :=
  match c.action, c.pos with
  | .Bank_ACT, [i, j, k, l] =>
    ch.modifyAt (fun b => Lambdas.Action.Bank.ACT b c.cmd c.target_id c.clk) [i, j, k, l]
  | .Bank_PRE, [i, j, k, l] =>
    ch.modifyAt (fun b => Lambdas.Action.Bank.PRE b c.cmd c.target_id c.clk) [i, j, k, l]
  | .Bank_ACTAB, pos =>
    (Lambdas.Action.Bank.ACTAB (Level.bank.toNat - Level.channel.toNat) ch pos c.cmd
      c.target_id c.clk).getD ch
  | .Bank_ACTSB, pos =>
    (Lambdas.Action.Bank.ACTSB (Level.bank.toNat - Level.channel.toNat) ch pos c.cmd
      c.target_id c.clk).getD ch
  | .Bank_ACTPB, pos =>
    (Lambdas.Action.Bank.ACTPB (Level.bank.toNat - Level.channel.toNat) ch pos c.cmd
      c.target_id c.clk).getD ch
  | .Bank_PRESB, pos =>
    (Lambdas.Action.Bank.PRESB (Level.bank.toNat - Level.channel.toNat) ch pos c.cmd
      c.target_id c.clk).getD ch
  | .Bank_PREPB, pos =>
    (Lambdas.Action.Bank.PREPB (Level.bank.toNat - Level.channel.toNat) ch pos c.cmd
      c.target_id c.clk).getD ch
  | .Bank_PREsb, [i, j, k, l] =>
    (Lambdas.Action.Bank.PREsb ch [i, j] k l c.cmd c.target_id c.clk).getD ch
  | .BankGroup_PREsb, [i, j, k] =>
    (Lambdas.Action.BankGroup.PREsb ch [i, j] k c.cmd c.target_id c.clk).getD ch
  | .Rank_PREA, [i, j] =>
    match Lambdas.Action.Rank.PREA (Level.bank.toNat - Level.rank.toNat) with
    | some f => ch.modifyAt (fun rank => f rank c.cmd c.target_id c.clk) [i, j]
    | none => ch
  | .Rank_PREsb, [i, j] =>
    ch.modifyAt (fun rank => Lambdas.Action.Rank.PREsb rank c.cmd c.target_id c.clk) [i, j]
  | .Channel_PREA, [] =>
    match Lambdas.Action.Channel.PREA (Level.bank.toNat - Level.channel.toNat) with
    | some f => f ch c.cmd c.target_id c.clk
    | none => ch
  | _, _ => ch

/-- A sequence of four calls: `Bank::ACT` of row 7 at the bank `[0, 0, 1, 2]`,
`Bank::ACTPB` of row 9 at the bank `[0, 0, 2, 3]`, `Bank::PREsb` at the bank
`[0, 0, 0, 2]` and `Bank::ACTSB` of row 5 at the bank `[1, 0, 0, 1]`. -/
def ActionCall.sampleCalls : List ActionCall :=
  [ { action := .Bank_ACT, pos := [0, 0, 1, 2], cmd := .ACT, target_id := 7, clk := 100 },
    { action := .Bank_ACTPB, pos := [0, 0, 2, 3], cmd := .ACT, target_id := 9, clk := 101 },
    { action := .Bank_PREsb, pos := [0, 0, 0, 2], cmd := .PRE, target_id := 0, clk := 102 },
    { action := .Bank_ACTSB, pos := [1, 0, 0, 1], cmd := .ACT, target_id := 5, clk := 103 } ]

/-! ## Lemmas on tree paths -/

theorem Node.m_child_nodes_setChildren (n : Node) (c : List Node) :
    (n.setChildren c).m_child_nodes = c := by
  cases n; rfl

theorem Node.view_setChildren (n : Node) (c : List Node) :
    (n.setChildren c).view = n.view := by
  cases n; rfl

theorem Node.get?_modifyAt_self (f : Node → Node) (p : List Nat) (n : Node) :
    (n.modifyAt f p).get? p = (n.get? p).map f := by
  induction p generalizing n with
  | nil => rfl
  | cons i p ih =>
    simp only [Node.modifyAt, Node.get?]
    cases h : n.m_child_nodes[i]? with
    | none => simp [Node.get?, h]
    | some c =>
      have hi : i < n.m_child_nodes.length := by
        rcases List.getElem?_eq_some_iff.mp h with ⟨hlt, _⟩
        exact hlt
      simp [Node.get?, Node.m_child_nodes_setChildren, List.getElem?_set_self hi, ih]

theorem Node.view_get?_modifyAt_ne (f : Node → Node)
    (hf : ∀ x, (f x).m_child_nodes = x.m_child_nodes) (p q : List Nat) (n : Node)
    (hne : q ≠ p) :
    ((n.modifyAt f p).get? q).map Node.view = (n.get? q).map Node.view := by
  induction p generalizing n q with
  | nil =>
    cases q with
    | nil => exact absurd rfl hne
    | cons j q => simp [Node.modifyAt, Node.get?, hf]
  | cons i p ih =>
    simp only [Node.modifyAt]
    cases h : n.m_child_nodes[i]? with
    | none => rfl
    | some c =>
      have hi : i < n.m_child_nodes.length := by
        rcases List.getElem?_eq_some_iff.mp h with ⟨hlt, _⟩
        exact hlt
      cases q with
      | nil => simp [Node.get?, Node.view_setChildren]
      | cons j q =>
        simp only [Node.get?, Node.m_child_nodes_setChildren]
        by_cases hij : i = j
        · subst hij
          have hq : q ≠ p := fun hqp => hne (by rw [hqp])
          rw [List.getElem?_set_self hi, h]
          exact ih q c hq
        · rw [List.getElem?_set_ne hij]

theorem Node.get?_forChildren_cons (f : Node → Node) (n : Node) (i : Nat) (p : List Nat) :
    (n.forChildren f).get? (i :: p) = (n.m_child_nodes[i]?).bind (fun c => (f c).get? p) := by
  simp only [Node.get?, Node.forChildren, Node.m_child_nodes_setChildren, List.getElem?_map]
  cases n.m_child_nodes[i]? <;> rfl

theorem Lambdas.Action.Bank.m_child_nodes_ACT (n : Node) (cmd : Command) (r clk : Int) :
    (Lambdas.Action.Bank.ACT n cmd r clk).m_child_nodes = n.m_child_nodes := by
  cases n; rfl

theorem Lambdas.Action.Bank.m_child_nodes_PRE (n : Node) (cmd : Command) (r clk : Int) :
    (Lambdas.Action.Bank.PRE n cmd r clk).m_child_nodes = n.m_child_nodes := by
  cases n; rfl

theorem Lambdas.Action.Channel.closeBank_eq_PRE (b : Node) (cmd : Command) (r clk : Int) :
    Lambdas.Action.Channel.closeBank b = Lambdas.Action.Bank.PRE b cmd r clk := by
  cases b; rfl

/-! ## Claims on the actions -/

open Lambdas.Action in
/-- C1: `Bank::ACT` applied to the node `n` at any position `p` of a tree, with target
row `r`, leaves `n` Opened with `r` mapped to Opened and every other entry of its row
map as before; the state and the row map of the node at every other position `q`
are unchanged (and no node appears or disappears). -/
theorem C1_bank_ACT_effect (root : Node) (p : List Nat) (n : Node) (cmd : Command)
    (r clk : Int) (hn : root.get? p = some n) :
    (∃ n', (root.modifyAt (fun x => Bank.ACT x cmd r clk) p).get? p = some n' ∧
        n'.m_state = State.Opened ∧ n'.m_row_state r = some State.Opened ∧
        ∀ r', r' ≠ r → n'.m_row_state r' = n.m_row_state r') ∧
    ∀ q, q ≠ p →
      ((root.modifyAt (fun x => Bank.ACT x cmd r clk) p).get? q).map Node.view =
        (root.get? q).map Node.view := by
  refine ⟨⟨Bank.ACT n cmd r clk, ?_, ?_, ?_, ?_⟩, ?_⟩
  · rw [Node.get?_modifyAt_self, hn]; rfl
  · cases n; rfl
  · cases n; simp [Bank.ACT, Node.m_row_state, RowMap.set]
  · intro r' hr'
    cases n; simp [Bank.ACT, Node.m_row_state, RowMap.set, hr']
  · intro q hq
    exact Node.view_get?_modifyAt_ne _ (fun x => Bank.m_child_nodes_ACT x cmd r clk) p q root hq

open Lambdas.Action in
/-- C1 at the second bank of a bankgroup with two closed banks, row 7: the bank is
Opened with row 7 Opened afterwards and the first bank is still Closed. -/
theorem C1_bank_ACT_effect_witness :
    Node.sampleBankGroup.get? [1] = some (Node.closedBank 1) ∧
    (∃ n', (Node.sampleBankGroup.modifyAt (fun x => Bank.ACT x Command.ACT 7 100) [1]).get? [1]
          = some n' ∧
        n'.m_state = State.Opened ∧ n'.m_row_state 7 = some State.Opened ∧
        ∀ r', r' ≠ 7 → n'.m_row_state r' = (Node.closedBank 1).m_row_state r') ∧
    ((Node.sampleBankGroup.modifyAt (fun x => Bank.ACT x Command.ACT 7 100) [1]).get? [0]).map
        Node.view = (Node.sampleBankGroup.get? [0]).map Node.view :=
  have h := C1_bank_ACT_effect Node.sampleBankGroup [1] (Node.closedBank 1) Command.ACT 7 100 rfl
  ⟨rfl, h.1, h.2 [0] (by decide)⟩

open Lambdas.Action in
/-- C2: `Bank::PRE` applied to the node `n` at any position `p` of a tree, whatever the
prior state and row map of `n`, leaves `n` Closed with an empty row map; the state and
the row map of the node at every other position `q` are unchanged. -/
theorem C2_bank_PRE_effect (root : Node) (p : List Nat) (n : Node) (cmd : Command)
    (r clk : Int) (hn : root.get? p = some n) :
    (∃ n', (root.modifyAt (fun x => Bank.PRE x cmd r clk) p).get? p = some n' ∧
        n'.m_state = State.Closed ∧ n'.m_row_state = RowMap.empty) ∧
    ∀ q, q ≠ p →
      ((root.modifyAt (fun x => Bank.PRE x cmd r clk) p).get? q).map Node.view =
        (root.get? q).map Node.view := by
  refine ⟨⟨Bank.PRE n cmd r clk, ?_, ?_, ?_⟩, ?_⟩
  · rw [Node.get?_modifyAt_self, hn]; rfl
  · cases n; rfl
  · cases n; rfl
  · intro q hq
    exact Node.view_get?_modifyAt_ne _ (fun x => Bank.m_child_nodes_PRE x cmd r clk) p q root hq

open Lambdas.Action in
/-- C2 at a bank that `Bank::ACT` opened on row 7: after `Bank::PRE` it is Closed with an
empty row map and its sibling is as before. -/
theorem C2_bank_PRE_effect_witness :
    (Node.sampleBankGroup.modifyAt (fun x => Bank.ACT x Command.ACT 7 100) [1]).get? [1]
      = some (Bank.ACT (Node.closedBank 1) Command.ACT 7 100) ∧
    (∃ n', ((Node.sampleBankGroup.modifyAt (fun x => Bank.ACT x Command.ACT 7 100) [1]).modifyAt
          (fun x => Bank.PRE x Command.PRE 7 150) [1]).get? [1] = some n' ∧
        n'.m_state = State.Closed ∧ n'.m_row_state = RowMap.empty) ∧
    (((Node.sampleBankGroup.modifyAt (fun x => Bank.ACT x Command.ACT 7 100) [1]).modifyAt
          (fun x => Bank.PRE x Command.PRE 7 150) [1]).get? [0]).map Node.view
      = ((Node.sampleBankGroup.modifyAt (fun x => Bank.ACT x Command.ACT 7 100) [1]).get?
          [0]).map Node.view :=
  have h := C2_bank_PRE_effect
    (Node.sampleBankGroup.modifyAt (fun x => Bank.ACT x Command.ACT 7 100) [1]) [1]
    (Bank.ACT (Node.closedBank 1) Command.ACT 7 100) Command.PRE 7 150 rfl
  ⟨rfl, h.1, h.2 [0] (by decide)⟩

theorem Node.get?_forChildren_map (f g : Node → Node) (d : List Nat)
    (h : ∀ c, (f c).get? d = (c.get? d).map g) (n : Node) (i : Nat) :
    (n.forChildren f).get? (i :: d) = (n.get? (i :: d)).map g := by
  rw [Node.get?_forChildren_cons]
  simp only [Node.get?]
  cases n.m_child_nodes[i]? with
  | none => rfl
  | some c => exact h c

theorem Node.shell_forChildren (f : Node → Node) (n : Node) :
    (n.forChildren f).shell = n.shell := by
  cases n
  simp [Node.forChildren, Node.setChildren, Node.shell, Node.m_level, Node.m_node_id,
    Node.m_state, Node.m_row_state, Node.m_child_nodes]

theorem Node.shell_get?_forChildren (f : Node → Node) (d : Nat)
    (h : ∀ c q, q.length < d → ((f c).get? q).map Node.shell = (c.get? q).map Node.shell)
    (n : Node) (p : List Nat) (hp : p.length < d + 1) :
    ((n.forChildren f).get? p).map Node.shell = (n.get? p).map Node.shell := by
  cases p with
  | nil => simp [Node.get?, Node.shell_forChildren]
  | cons i q =>
    rw [Node.get?_forChildren_cons]
    simp only [Node.get?]
    cases n.m_child_nodes[i]? with
    | none => rfl
    | some c => exact h c q (by simpa using hp)

theorem Node.setChildren_setChildren (n : Node) (c c' : List Node) :
    (n.setChildren c).setChildren c' = n.setChildren c' := by
  cases n; rfl

theorem Node.setChildren_m_child_nodes (n : Node) : n.setChildren n.m_child_nodes = n := by
  cases n; rfl

theorem List.set_of_getElem?_eq {α : Type} (l : List α) (i : Nat) (x : α)
    (h : l[i]? = some x) : l.set i x = l := by
  induction l generalizing i with
  | nil => rfl
  | cons y l ih =>
    cases i with
    | zero => simp at h; simp [h]
    | succ i => simp at h; simp [ih i h]

theorem Node.modifyEach_cons_map (f : Node → Node) (i : Nat) (ps : List (List Nat)) :
    ∀ (t c : Node), t.m_child_nodes[i]? = some c →
      Node.modifyEach f (ps.map (fun p => i :: p)) t
        = t.setChildren (t.m_child_nodes.set i (Node.modifyEach f ps c)) := by
  induction ps with
  | nil =>
    intro t c h
    simp only [Node.modifyEach, List.map_nil, List.foldl_nil]
    rw [List.set_of_getElem?_eq _ _ _ h, Node.setChildren_m_child_nodes]
  | cons p ps ih =>
    intro t c h
    have hi : i < t.m_child_nodes.length := by
      rcases List.getElem?_eq_some_iff.mp h with ⟨hlt, _⟩
      exact hlt
    have hstep : t.modifyAt f (i :: p)
        = t.setChildren (t.m_child_nodes.set i (c.modifyAt f p)) := by
      simp only [Node.modifyAt, h]
    have hget : (t.setChildren (t.m_child_nodes.set i (c.modifyAt f p))).m_child_nodes[i]?
        = some (c.modifyAt f p) := by
      rw [Node.m_child_nodes_setChildren, List.getElem?_set_self hi]
    show Node.modifyEach f (ps.map (fun p => i :: p)) (t.modifyAt f (i :: p)) = _
    rw [hstep, ih _ _ hget, Node.m_child_nodes_setChildren, Node.setChildren_setChildren,
      List.set_set]
    rfl

theorem List.set_take_map_append_drop {α : Type} (g : α → α) (l : List α) (k : Nat) (x : α)
    (h : l[k]? = some x) :
    ((l.take k).map g ++ l.drop k).set k (g x) = (l.take (k + 1)).map g ++ l.drop (k + 1) := by
  induction l generalizing k with
  | nil => simp at h
  | cons y l ih =>
    cases k with
    | zero =>
      simp at h
      simp [h]
    | succ k =>
      have h' : l[k]? = some x := by simpa using h
      simp only [List.take_succ_cons, List.drop_succ_cons, List.map_cons, List.cons_append,
        List.set_cons_succ]
      rw [ih k h']

theorem Node.modifyEach_append (f : Node → Node) (ps qs : List (List Nat)) (n : Node) :
    Node.modifyEach f (ps ++ qs) n = Node.modifyEach f qs (Node.modifyEach f ps n) := by
  simp [Node.modifyEach, List.foldl_append]

/-- Running `f` by pointer on each node `depth` levels down, one after the other, gives
the tree of the nested loops. -/
theorem Node.modifyEach_positions (f : Node → Node) (depth : Nat) :
    ∀ n : Node, Node.modifyEach f (Node.positions depth n) n = Node.forDepth f depth n := by
  induction depth with
  | zero => intro n; rfl
  | succ depth ih =>
    intro n
    have hblock : ∀ k, k ≤ n.m_child_nodes.length →
        Node.modifyEach f
          ((List.range k).flatMap (fun i =>
            match n.m_child_nodes[i]? with
            | none => []
            | some c => (Node.positions depth c).map (fun p => i :: p))) n
          = n.setChildren ((n.m_child_nodes.take k).map (Node.forDepth f depth)
              ++ n.m_child_nodes.drop k) := by
      intro k
      induction k with
      | zero =>
        intro _
        simp [Node.modifyEach, Node.setChildren_m_child_nodes]
      | succ k ihk =>
        intro hk
        have hlt : k < n.m_child_nodes.length := by omega
        have hck : n.m_child_nodes[k]? = some (n.m_child_nodes[k]) :=
          List.getElem?_eq_getElem hlt
        rw [List.range_succ, List.flatMap_append, Node.modifyEach_append, ihk (by omega)]
        simp only [List.flatMap_singleton, hck]
        have hget : (n.setChildren ((n.m_child_nodes.take k).map (Node.forDepth f depth)
            ++ n.m_child_nodes.drop k)).m_child_nodes[k]? = some (n.m_child_nodes[k]) := by
          rw [Node.m_child_nodes_setChildren, List.getElem?_append_right (by simp)]
          simp [List.length_take, Nat.min_eq_left (Nat.le_of_lt hlt), hck]
        rw [Node.modifyEach_cons_map f k _ _ _ hget, ih, Node.m_child_nodes_setChildren,
          Node.setChildren_setChildren, List.set_take_map_append_drop _ _ _ _ hck]
    have h := hblock n.m_child_nodes.length (le_refl _)
    simp only [List.take_length, List.drop_length, List.append_nil] at h
    exact h

open Lambdas.Action in
/-- C3: on the HBM3 topology (`m_levels["bank"] - m_levels["channel"] = 4`),
`Channel::PREA` is instantiated, and applied to a channel node in any tree state it
returns a tree in which every bank (every
node four levels down, whatever its pseudochannel, rank and bankgroup) is Closed with
an empty row map, every node above the banks (channel, pseudochannel, rank, bankgroup)
keeps its level, id, state, row map and number of children, the bank at each position
is `Bank::PRE` applied to the bank that was there, and the whole tree is the one
obtained by applying `Bank::PRE` to each bank of the channel, one after the other. -/
theorem C3_channel_PREA_effect :
    ∃ prea, Channel.PREA (Level.bank.toNat - Level.channel.toNat) = some prea ∧
      ∀ (node : Node) (cmd : Command) (tid clk : Int),
        (∀ i j k l b, (prea node cmd tid clk).get? [i, j, k, l] = some b →
          b.m_state = State.Closed ∧ b.m_row_state = RowMap.empty) ∧
        (∀ p, p.length < 4 →
          ((prea node cmd tid clk).get? p).map Node.shell = (node.get? p).map Node.shell) ∧
        (∀ i j k l, (prea node cmd tid clk).get? [i, j, k, l]
          = (node.get? [i, j, k, l]).map (fun b => Bank.PRE b cmd tid clk)) ∧
        prea node cmd tid clk
          = Node.modifyEach (fun b => Bank.PRE b cmd tid clk) (Node.positions 4 node) node := by
  have hbank : ∀ (n : Node) (i j k l : Nat),
      (n.forChildren (Node.forChildren (Node.forChildren
        (Node.forChildren Channel.closeBank)))).get? [i, j, k, l]
        = (n.get? [i, j, k, l]).map Channel.closeBank := by
    intro n i j k l
    refine Node.get?_forChildren_map _ _ _ (fun c1 => ?_) n i
    refine Node.get?_forChildren_map _ _ _ (fun c2 => ?_) c1 j
    refine Node.get?_forChildren_map _ _ _ (fun c3 => ?_) c2 k
    refine Node.get?_forChildren_map _ _ _ (fun c4 => ?_) c3 l
    rfl
  refine ⟨_, rfl, fun node cmd tid clk => ⟨?_, ?_, ?_, ?_⟩⟩
  · intro i j k l b hb
    rw [hbank] at hb
    cases hget : node.get? [i, j, k, l] with
    | none => rw [hget] at hb; cases hb
    | some b0 =>
      rw [hget] at hb
      cases hb
      cases b0
      exact ⟨rfl, rfl⟩
  · intro p hp
    refine Node.shell_get?_forChildren _ 3 (fun c1 q1 h1 => ?_) node p hp
    refine Node.shell_get?_forChildren _ 2 (fun c2 q2 h2 => ?_) c1 q1 h1
    refine Node.shell_get?_forChildren _ 1 (fun c3 q3 h3 => ?_) c2 q2 h2
    refine Node.shell_get?_forChildren _ 0 (fun c4 q4 h4 => ?_) c3 q3 h3
    exact absurd h4 (Nat.not_lt_zero _)
  · intro i j k l
    rw [hbank]
    cases node.get? [i, j, k, l] with
    | none => rfl
    | some b => exact congrArg some (Channel.closeBank_eq_PRE b cmd tid clk)
  · have hf : (fun b => Bank.PRE b cmd tid clk) = Channel.closeBank :=
      funext (fun b => (Channel.closeBank_eq_PRE b cmd tid clk).symm)
    rw [hf, Node.modifyEach_positions]
    rfl

/-! ## Claims on the organization -/

theorem size_t_mul_size_t (a b : Int) :
    size_t_mul (size_t a) (size_t b) = size_t (a * b) := by
  have ha : (0 : Int) ≤ a % 18446744073709551616 := Int.emod_nonneg a (by norm_num)
  have hb : (0 : Int) ≤ b % 18446744073709551616 := Int.emod_nonneg b (by norm_num)
  have hab : (0 : Int) ≤ (a * b) % 18446744073709551616 :=
    Int.emod_nonneg _ (by norm_num)
  apply Int.ofNat_inj.mp
  unfold size_t_mul size_t
  push_cast
  rw [Int.toNat_of_nonneg ha, Int.toNat_of_nonneg hb, Int.toNat_of_nonneg hab]
  exact (Int.mul_emod a b 18446744073709551616).symm

theorem calculated_density_eq (org : Organization) :
    calculated_density org = size_t (channel_bits org) >>> 20 := by
  unfold calculated_density channel_bits
  simp only [size_t_mul_size_t]

theorem calculated_density_of_fits (org : Organization)
    (h0 : 0 ≤ channel_bits org) (h1 : channel_bits org < 2 ^ 64) :
    (calculated_density org : Int) = channel_density org := by
  rw [calculated_density_eq]
  have hcd : channel_density org = channel_bits org / 2 ^ 20 := rfl
  rw [hcd]
  unfold size_t
  rw [Int.emod_eq_of_lt h0 h1, Nat.shiftRight_eq_div_pow]
  push_cast
  rw [Int.toNat_of_nonneg h0]

theorem size_t_ne_calculated_iff (org : Organization)
    (h0 : 0 ≤ channel_bits org) (h1 : channel_bits org < 2 ^ 64)
    (hd0 : 0 ≤ org.density) (hd1 : org.density < 2 ^ 64) :
    size_t org.density ≠ calculated_density org ↔ channel_density org ≠ org.density := by
  have hc := calculated_density_of_fits org h0 h1
  have hs : (size_t org.density : Int) = org.density := by
    unfold size_t
    rw [Int.emod_eq_of_lt hd0 hd1, Int.toNat_of_nonneg hd0]
  constructor
  · intro h heq
    apply h
    apply Int.ofNat_inj.mp
    rw [hs, hc, heq]
  · intro h heq
    apply h
    rw [← hc, ← hs, heq]

/-- C4 (as the code has it): for every organization that `set_organization` resolves
from its settings, with the checked product and the declared density inside the 64-bit
unsigned range, `set_organization` succeeds exactly when the product of the counts of
pseudochannel, rank, bankgroup, bank, row and column (the channel count is not a
factor), of `dq` and of the prefetch size 8, divided by `2^20`, equals the declared
density, and fails with a configuration error exactly when it does not. -/
theorem C4_density_check (m0 : Organization) (p : OrgParams) (org : Organization)
    (hres : resolve_organization m0 p = Except.ok org)
    (h0 : 0 ≤ channel_bits org) (h1 : channel_bits org < 2 ^ 64)
    (hd0 : 0 ≤ org.density) (hd1 : org.density < 2 ^ 64) :
    (set_organization m0 p = Except.ok org ↔ channel_density org = org.density) ∧
    ((∃ e, set_organization m0 p = Except.error e) ↔ channel_density org ≠ org.density) := by
  have hiff := size_t_ne_calculated_iff org h0 h1 hd0 hd1
  have hset : set_organization m0 p =
      if size_t org.density ≠ calculated_density org then
        Except.error (ConfigurationError.densityMismatch (calculated_density org) org.density)
      else Except.ok org := by
    unfold set_organization
    rw [hres]
    rfl
  rw [hset]
  by_cases hne : channel_density org ≠ org.density
  · have hs := hiff.mpr hne
    rw [if_pos hs]
    constructor
    · constructor
      · intro h; cases h
      · intro h; exact absurd h hne
    · constructor
      · intro _; exact hne
      · intro _; exact ⟨_, rfl⟩
  · have hs : ¬ size_t org.density ≠ calculated_density org := fun h => hne (hiff.mp h)
    rw [if_neg hs]
    constructor
    · constructor
      · intro _; exact not_not.mp hne
      · intro _; rfl
    · constructor
      · rintro ⟨e, he⟩; cases he
      · intro h; exact absurd h hne

/-- C4, an exact-match case and an engineered mismatch: the preset `HBM3_2Gb_1R` is
accepted as it is and rejected when its declared density is overridden to 4096. -/
theorem C4_density_check_witness :
    set_organization ⟨-1, -1, []⟩ (OrgParams.ofPreset "HBM3_2Gb_1R")
        = Except.ok ⟨2048, 32, [1, 2, 1, 4, 4, 8192, 32]⟩ ∧
    ∃ e, set_organization ⟨-1, -1, []⟩ (OrgParams.ofPresetWithDensity "HBM3_2Gb_1R" 4096)
        = Except.error e :=
  ⟨(C4_density_check ⟨-1, -1, []⟩ (OrgParams.ofPreset "HBM3_2Gb_1R")
      ⟨2048, 32, [1, 2, 1, 4, 4, 8192, 32]⟩ rfl (by decide) (by decide) (by decide)
      (by decide)).1.mpr (by decide),
   (C4_density_check ⟨-1, -1, []⟩ (OrgParams.ofPresetWithDensity "HBM3_2Gb_1R" 4096)
      ⟨4096, 32, [1, 2, 1, 4, 4, 8192, 32]⟩ rfl (by decide) (by decide) (by decide)
      (by decide)).2.mpr (by decide)⟩

/-- C4, counterexample to the wording "all the per-level counts": the preset
`HBM3_2Gb_1R` with two channels is accepted with declared density 2048, although the
product of all seven counts, `dq` and 8, divided by `2^20`, is 4096. -/
theorem C4_counterexample :
    (set_organization ⟨-1, -1, []⟩ (OrgParams.ofPresetWithChannels "HBM3_2Gb_1R" 2)).toOption.map
        (fun org => (org.count, org.dq, org.density, spec_density org))
      = some ([2, 2, 1, 4, 4, 8192, 32], 32, 2048, 4096) := by
  decide

/-- C5: each of the twelve entries of `org_presets`, used with no override, passes the
sanity check of `set_organization`, and the checked product is exactly the declared
density times `2^20`, so the shift by 20 bits drops no set bit. -/
theorem C5_presets_pass (m0 : Organization) (preset_name : String) (org : Organization)
    (h : (preset_name, org) ∈ org_presets) :
    set_organization m0 (OrgParams.ofPreset preset_name) = Except.ok org ∧
    org.countOf .pseudochannel * org.countOf .rank * org.countOf .bankgroup *
      org.countOf .bank * org.countOf .row * org.countOf .column * org.dq * 8
      = org.density * 2 ^ 20 ∧
    org_presets.length = 12 := by
  simp only [org_presets, List.mem_cons, List.mem_singleton, List.not_mem_nil, or_false,
    Prod.mk.injEq] at h
  rcases h with h | h | h | h | h | h | h | h | h | h | h | h <;>
    (obtain ⟨h1, h2⟩ := h; subst h1; subst h2; exact ⟨rfl, by decide, rfl⟩)

/-- C5 at the preset `HBM3_6Gb_3R`. -/
theorem C5_presets_pass_witness :
    set_organization ⟨-1, -1, []⟩ (OrgParams.ofPreset "HBM3_6Gb_3R")
        = Except.ok ⟨6144, 32, [1, 2, 3, 4, 4, 8192, 32]⟩ ∧
    (2 * 3 * 4 * 4 * 8192 * 32 * 32 * 8 : Int) = 6144 * 2 ^ 20 :=
  have h := C5_presets_pass ⟨-1, -1, []⟩ "HBM3_6Gb_3R" ⟨6144, 32, [1, 2, 3, 4, 4, 8192, 32]⟩
    (by decide)
  ⟨h.1, h.2.1⟩

/-! ## Lemmas on the scoreboard -/

theorem ringOf_length_ne (w : Nat) (clocks : List Int) (h : clocks.length < w) :
    (ringOf w clocks).length ≠ w := by
  simp only [ringOf, List.length_drop]
  omega

theorem gate_cons (r : TimingCons) (rules : List TimingCons) (P : Command) (a : AddrVec)
    (t : Int) (n : NodeId) (F : Command) (v0 : Int) :
    gate (r :: rules) P a t n F v0 =
      gate rules P a t n F
        (if r.window = none ∧ P ∈ r.preceding ∧ n = scopeNode r.level a ∧ F ∈ r.following
         then max v0 (t + r.latency) else v0) := rfl

theorem gate_le_iff (rules : List TimingCons) (P : Command) (a : AddrVec) (t : Int)
    (n : NodeId) (F : Command) (v0 x : Int) :
    gate rules P a t n F v0 ≤ x ↔
      v0 ≤ x ∧ ∀ r ∈ rules, r.window = none → P ∈ r.preceding →
        n = scopeNode r.level a → F ∈ r.following → t + r.latency ≤ x := by
  induction rules generalizing v0 with
  | nil => simp [gate]
  | cons r rules ih =>
    rw [gate_cons, ih]
    by_cases hc : r.window = none ∧ P ∈ r.preceding ∧ n = scopeNode r.level a ∧ F ∈ r.following
    · rw [if_pos hc]
      constructor
      · rintro ⟨hmax, hall⟩
        refine ⟨le_trans (le_max_left _ _) hmax, ?_⟩
        intro r' hr'
        rcases List.mem_cons.mp hr' with h | h
        · subst h
          intro _ _ _ _
          exact le_trans (le_max_right _ _) hmax
        · exact hall r' h
      · rintro ⟨hv, hall⟩
        refine ⟨max_le hv (hall r (List.mem_cons_self _ _) hc.1 hc.2.1 hc.2.2.1 hc.2.2.2), ?_⟩
        intro r' hr'
        exact hall r' (List.mem_cons_of_mem _ hr')
    · rw [if_neg hc]
      constructor
      · rintro ⟨hv, hall⟩
        refine ⟨hv, ?_⟩
        intro r' hr'
        rcases List.mem_cons.mp hr' with h | h
        · subst h
          intro h1 h2 h3 h4
          exact absurd ⟨h1, h2, h3, h4⟩ hc
        · exact hall r' h
      · rintro ⟨hv, hall⟩
        exact ⟨hv, fun r' hr' => hall r' (List.mem_cons_of_mem _ hr')⟩

theorem Scoreboard.history_applyRule (P : Command) (a : AddrVec) (t : Int)
    (sb : Scoreboard) (r : TimingCons) :
    (Scoreboard.applyRule P a t sb r).history = sb.history := by
  unfold Scoreboard.applyRule
  split
  · cases r.window <;> rfl
  · rfl

theorem Scoreboard.history_foldl_applyRule (P : Command) (a : AddrVec) (t : Int)
    (rules : List TimingCons) :
    ∀ sb : Scoreboard,
      (rules.foldl (Scoreboard.applyRule P a t) sb).history = sb.history := by
  induction rules with
  | nil => intro sb; rfl
  | cons r rules ih =>
    intro sb
    rw [List.foldl_cons, ih, Scoreboard.history_applyRule]

theorem Scoreboard.history_update_timing (P : Command) (a : AddrVec) (t : Int)
    (rules : List TimingCons) (sb : Scoreboard) (n : NodeId) (c : Command) :
    (sb.update_timing rules P a t).history n c
      = if c = P ∧ n = scopeNode n.1 a then sb.history n c ++ [t] else sb.history n c := by
  unfold Scoreboard.update_timing
  rw [Scoreboard.history_foldl_applyRule]
  rfl

theorem Scoreboard.next_allowed_applyRule (P : Command) (a : AddrVec) (t : Int)
    (sb : Scoreboard) (r : TimingCons)
    (hw : ∀ w, r.window = some w → P ∈ r.preceding →
      (sb.history (scopeNode r.level a) P).length < w) (n : NodeId) (F : Command) :
    (Scoreboard.applyRule P a t sb r).next_allowed n F =
      if r.window = none ∧ P ∈ r.preceding ∧ n = scopeNode r.level a ∧ F ∈ r.following
      then max (sb.next_allowed n F) (t + r.latency) else sb.next_allowed n F := by
  unfold Scoreboard.applyRule
  by_cases hP : P ∈ r.preceding
  · rw [if_pos hP]
    cases hwin : r.window with
    | none =>
      by_cases hc : n = scopeNode r.level a ∧ F ∈ r.following
      · simp [hc.1, hc.2, hP]
      · have hc' : ¬ (P ∈ r.preceding ∧ n = scopeNode r.level a ∧ F ∈ r.following) :=
          fun h => hc h.2
        simp [hc, hc']
    | some w =>
      have hlen : (ringOf w (sb.history (scopeNode r.level a) P)).length ≠ w :=
        ringOf_length_ne w _ (hw w hwin hP)
      simp [hlen]
  · rw [if_neg hP]
    simp [hP]

theorem Scoreboard.next_allowed_foldl_applyRule (P : Command) (a : AddrVec) (t : Int)
    (rules : List TimingCons) :
    ∀ sb : Scoreboard,
      (∀ r ∈ rules, ∀ w, r.window = some w → P ∈ r.preceding →
        (sb.history (scopeNode r.level a) P).length < w) →
      ∀ n F, (rules.foldl (Scoreboard.applyRule P a t) sb).next_allowed n F
        = gate rules P a t n F (sb.next_allowed n F) := by
  induction rules with
  | nil => intro sb _ n F; rfl
  | cons r rules ih =>
    intro sb hw n F
    rw [List.foldl_cons, gate_cons]
    rw [ih (Scoreboard.applyRule P a t sb r)
      (fun r' hr' w hwin hP => by
        rw [Scoreboard.history_applyRule]
        exact hw r' (List.mem_cons_of_mem _ hr') w hwin hP) n F]
    rw [Scoreboard.next_allowed_applyRule P a t sb r (hw r (List.mem_cons_self _ _)) n F]

/-- While no ring can fill up, issuing `P` moves every scoreboard entry to the `gate` of
the rules without a window. -/
theorem Scoreboard.next_allowed_update_timing (P : Command) (a : AddrVec) (t : Int)
    (rules : List TimingCons) (sb : Scoreboard)
    (hw : ∀ r ∈ rules, ∀ w, r.window = some w → P ∈ r.preceding →
      (sb.history (scopeNode r.level a) P).length + 1 < w) (n : NodeId) (F : Command) :
    (sb.update_timing rules P a t).next_allowed n F
      = gate rules P a t n F (sb.next_allowed n F) := by
  unfold Scoreboard.update_timing
  rw [Scoreboard.next_allowed_foldl_applyRule P a t rules (sb.record P a t)
    (fun r hr w hwin hP => by
      have h := hw r hr w hwin hP
      have hrec : (sb.record P a t).history (scopeNode r.level a) P
          = sb.history (scopeNode r.level a) P ++ [t] := by
        simp [Scoreboard.record, scopeNode]
      rw [hrec, List.length_append, List.length_singleton]
      exact h) n F]
  rfl

/-! ## Lemmas on the device facade -/

theorem HBM3.m_clk_tickN (n : Nat) (d : HBM3) : (d.tickN n).m_clk = d.m_clk + n := by
  induction n generalizing d with
  | zero => simp [HBM3.tickN]
  | succ n ih =>
    rw [HBM3.tickN, ih]
    simp only [HBM3.tick]
    push_cast
    omega

theorem HBM3.m_scoreboard_tickN (n : Nat) (d : HBM3) :
    (d.tickN n).m_scoreboard = d.m_scoreboard := by
  induction n generalizing d with
  | zero => rfl
  | succ n ih => rw [HBM3.tickN, ih]; rfl

theorem HBM3.m_timing_vals_tickN (n : Nat) (d : HBM3) :
    (d.tickN n).m_timing_vals = d.m_timing_vals := by
  induction n generalizing d with
  | zero => rfl
  | succ n ih => rw [HBM3.tickN, ih]; rfl

theorem scopeNode_eq_iff (l l' : Level) (a : AddrVec) :
    scopeNode l a = scopeNode l' a ↔ l = l' := by
  constructor
  · intro h
    exact congrArg Prod.fst h
  · intro h
    rw [h]

theorem mem_m_levels (l : Level) : l ∈ m_levels := by
  cases l <;> simp [m_levels]

theorem window_timing_cons (V : TimingVals) :
    ∀ r ∈ timing_cons V, ∀ w, r.window = some w → w = 4 := by
  intro r hr w hw
  simp only [timing_cons, List.mem_cons, List.mem_singleton, List.not_mem_nil, or_false] at hr
  rcases hr with h | h | h | h | h | h | h | h | h | h | h | h | h | h | h | h | h | h | h | h |
    h | h | h | h | h | h | h | h | h | h | h | h | h | h | h | h | h | h | h | h | h <;>
    (subst h; simp at hw; try omega)

/-- After a command `P` was issued to `a` on the fresh scoreboard at clock `t`, a
command `F` is ready at clock `c` for the same address exactly when `c` is a clock of
the simulation and every rule without a window from `P` to `F` has elapsed. -/
theorem Scoreboard.check_ready_fresh_update (V : TimingVals) (P F : Command) (a : AddrVec)
    (t c : Int) :
    (Scoreboard.fresh.update_timing (timing_cons V) P a t).check_ready F a c = true ↔
      0 ≤ c ∧ ∀ r ∈ timing_cons V, r.window = none → P ∈ r.preceding → F ∈ r.following →
        t + r.latency ≤ c := by
  have hgate := Scoreboard.next_allowed_update_timing P a t (timing_cons V)
    Scoreboard.fresh
    (fun r hr w hw _ => by
      have := window_timing_cons V r hr w hw
      subst this
      exact Nat.lt_of_sub_eq_succ rfl)
  simp only [Scoreboard.check_ready, List.all_eq_true, decide_eq_true_eq, hgate, gate_le_iff]
  constructor
  · intro h
    refine ⟨(h Level.channel (mem_m_levels _)).1, ?_⟩
    intro r hr hw hP hF
    exact (h r.level (mem_m_levels _)).2 r hr hw hP rfl hF
  · rintro ⟨h0, h⟩ l _
    exact ⟨h0, fun r hr hw hP _ hF => h r hr hw hP hF⟩

/-- The facade form of `Scoreboard.check_ready_fresh_update`: on a freshly initialized
device, `k` ticks after `P` was issued to `a`, `check_ready(F, a)` holds exactly when
every rule without a window from `P` to `F` has a latency of at most `k`. -/
theorem HBM3.check_ready_after_issue (org : Organization) (V : TimingVals) (P F : Command)
    (a : AddrVec) (t k : Nat) :
    ((((HBM3.create org V).tickN t).issue_command P a).tickN k).check_ready F a = true ↔
      ∀ r ∈ timing_cons V, r.window = none → P ∈ r.preceding → F ∈ r.following →
        r.latency ≤ k := by
  have hclk : ((((HBM3.create org V).tickN t).issue_command P a).tickN k).m_clk
      = (t : Int) + k := by
    rw [HBM3.m_clk_tickN]
    show ((HBM3.create org V).tickN t).m_clk + k = t + k
    rw [HBM3.m_clk_tickN]
    simp [HBM3.create]
  have hsb : ((((HBM3.create org V).tickN t).issue_command P a).tickN k).m_scoreboard
      = Scoreboard.fresh.update_timing (timing_cons V) P a t := by
    rw [HBM3.m_scoreboard_tickN]
    show ((HBM3.create org V).tickN t).m_scoreboard.update_timing
      (timing_cons ((HBM3.create org V).tickN t).m_timing_vals) P a
      ((HBM3.create org V).tickN t).m_clk = _
    rw [HBM3.m_scoreboard_tickN, HBM3.m_timing_vals_tickN, HBM3.m_clk_tickN]
    simp [HBM3.create]
  unfold HBM3.check_ready
  rw [hclk, hsb, Scoreboard.check_ready_fresh_update]
  constructor
  · rintro ⟨_, h⟩ r hr hw hP hF
    have := h r hr hw hP hF
    omega
  · intro h
    refine ⟨by omega, ?_⟩
    intro r hr hw hP hF
    have := h r hr hw hP hF
    omega

/-! ## Claims on the timing scoreboard after one command -/

theorem rules_ACT_RD (V : TimingVals) (k : Int) :
    (∀ r ∈ timing_cons V, r.window = none → Command.ACT ∈ r.preceding →
      Command.RD ∈ r.following → r.latency ≤ k) ↔ V .nRCDRD ≤ k := by
  simp [timing_cons]

/-- C6: on a freshly initialized device with any timing values whose `nRCDRD` is the
cycle count `N`, after `issue_command(ACT, a)` at clock `t` for a valid address `a`,
`check_ready(RD, a)` is false `k` ticks later for every `k < N` (the clocks `t` to
`t + N - 1`) and true `N` ticks later (the clock `t + N`). -/
theorem C6_ACT_then_RD (org : Organization) (V : TimingVals) (a : AddrVec) (t N : Nat)
    (_hvalid : AddrVec.valid org a = true) (hN : V .nRCDRD = (N : Int)) :
    (∀ k : Nat, k < N →
      ((((HBM3.create org V).tickN t).issue_command .ACT a).tickN k).check_ready .RD a
        = false) ∧
    ((((HBM3.create org V).tickN t).issue_command .ACT a).tickN N).check_ready .RD a
      = true := by
  constructor
  · intro k hk
    apply Bool.eq_false_iff.mpr
    intro h
    rw [HBM3.check_ready_after_issue, rules_ACT_RD, hN] at h
    omega
  · rw [HBM3.check_ready_after_issue, rules_ACT_RD, hN]

/-- C6 at the preset `HBM3_4.8Gbps` (`nRCDRD = 17`), organization `HBM3_2Gb_1R`, bank 0
of channel 0 and `t = 100`: not ready at the clocks 100 to 116, ready at 117. -/
theorem C6_ACT_then_RD_witness :
    AddrVec.valid Organization.HBM3_2Gb_1R [0, 0, 0, 0, 0, 0, 0] = true ∧
    TimingVals.HBM3_4_8Gbps .nRCDRD = 17 ∧
    (∀ k : Nat, k < 17 →
      ((((HBM3.create Organization.HBM3_2Gb_1R TimingVals.HBM3_4_8Gbps).tickN 100).issue_command
        .ACT [0, 0, 0, 0, 0, 0, 0]).tickN k).check_ready .RD [0, 0, 0, 0, 0, 0, 0] = false) ∧
    ((((HBM3.create Organization.HBM3_2Gb_1R TimingVals.HBM3_4_8Gbps).tickN 100).issue_command
        .ACT [0, 0, 0, 0, 0, 0, 0]).tickN 17).check_ready .RD [0, 0, 0, 0, 0, 0, 0] = true :=
  ⟨by decide, by decide,
    C6_ACT_then_RD Organization.HBM3_2Gb_1R TimingVals.HBM3_4_8Gbps [0, 0, 0, 0, 0, 0, 0]
      100 17 (by decide) (by decide)⟩

theorem Node.update_states_of_no_action
    (actions : Level → Command → Option Lambdas.Action.Channel.ActionFunc)
    (command : Command) (hnone : ∀ l, actions l command = none) (addr_vec : AddrVec)
    (clk : Int) (levels : List Level) :
    ∀ node : Node, node.update_states actions command addr_vec clk levels = node := by
  induction levels with
  | nil => intro node; rfl
  | cons l below ih =>
    intro node
    simp only [Node.update_states, hnone]
    split
    · rfl
    · cases h : node.m_child_nodes[(addr_vec.getD (l.toNat + 1) (-1)).toNat]? with
      | none => rfl
      | some c =>
        simp only []
        rw [ih c, List.set_of_getElem?_eq _ _ _ h, Node.setChildren_m_child_nodes]

theorem HBM3.m_channels_issue_of_no_action (d : HBM3) (command : Command)
    (hnone : ∀ l, m_actions l command = none) (a : AddrVec) :
    (d.issue_command command a).m_channels = d.m_channels := by
  simp only [HBM3.issue_command]
  split
  · rfl
  · cases h : d.m_channels[(a.getD Level.channel.toNat (-1)).toNat]? with
    | none => rfl
    | some c =>
      simp only []
      rw [Node.update_states_of_no_action m_actions command hnone,
        List.set_of_getElem?_eq _ _ _ h]

/-- C10: `set_actions` registers no Action for RD or for WR at any level, and for every
device state and every address the channel nodes after `issue_command` of RD or of WR
are the channel nodes before it: the state of every node and the row map of every bank,
the open row of the addressed bank included, are unchanged. -/
theorem C10_RD_WR_keep_states (d : HBM3) (a : AddrVec) :
    (∀ l, m_actions l .RD = none ∧ m_actions l .WR = none) ∧
    (d.issue_command .RD a).m_channels = d.m_channels ∧
    (d.issue_command .WR a).m_channels = d.m_channels := by
  have hRD : ∀ l, m_actions l .RD = none := by intro l; cases l <;> rfl
  have hWR : ∀ l, m_actions l .WR = none := by intro l; cases l <;> rfl
  exact ⟨fun l => ⟨hRD l, hWR l⟩, HBM3.m_channels_issue_of_no_action d .RD hRD a,
    HBM3.m_channels_issue_of_no_action d .WR hWR a⟩

/-! ## Lemmas on sequences of commands -/

theorem Scoreboard.applyRule_of_no_window_here (P : Command) (a : AddrVec) (t : Int)
    (sb : Scoreboard) (r : TimingCons) (n : NodeId)
    (hr : r.window ≠ none → P ∈ r.preceding → n ≠ scopeNode r.level a) (F : Command) :
    (Scoreboard.applyRule P a t sb r).next_allowed n F =
      if r.window = none ∧ P ∈ r.preceding ∧ n = scopeNode r.level a ∧ F ∈ r.following
      then max (sb.next_allowed n F) (t + r.latency) else sb.next_allowed n F := by
  unfold Scoreboard.applyRule
  by_cases hP : P ∈ r.preceding
  · rw [if_pos hP]
    cases hwin : r.window with
    | none =>
      by_cases hc : n = scopeNode r.level a ∧ F ∈ r.following
      · simp [hc.1, hc.2, hP]
      · have hc' : ¬ (P ∈ r.preceding ∧ n = scopeNode r.level a ∧ F ∈ r.following) :=
          fun h => hc h.2
        simp [hc, hc']
    | some w =>
      have hn : n ≠ scopeNode r.level a := hr (by simp [hwin]) hP
      simp [hn]
  · rw [if_neg hP]
    simp [hP]

theorem Scoreboard.foldl_applyRule_of_no_window_here (P : Command) (a : AddrVec) (t : Int)
    (n : NodeId) (F : Command) (rules : List TimingCons)
    (hr : ∀ r ∈ rules, r.window ≠ none → P ∈ r.preceding → n ≠ scopeNode r.level a) :
    ∀ sb : Scoreboard,
      (rules.foldl (Scoreboard.applyRule P a t) sb).next_allowed n F
        = gate rules P a t n F (sb.next_allowed n F) := by
  induction rules with
  | nil => intro sb; rfl
  | cons r rules ih =>
    intro sb
    have h1 := Scoreboard.applyRule_of_no_window_here P a t sb r n
      (hr r (List.mem_cons_self _ _)) F
    have h2 := ih (fun r' hr' => hr r' (List.mem_cons_of_mem _ hr'))
      (Scoreboard.applyRule P a t sb r)
    rw [List.foldl_cons, gate_cons, h2, h1]

theorem Scoreboard.update_timing_of_no_window_here (P : Command) (a : AddrVec) (t : Int)
    (n : NodeId) (F : Command) (rules : List TimingCons)
    (hr : ∀ r ∈ rules, r.window ≠ none → P ∈ r.preceding → n ≠ scopeNode r.level a)
    (sb : Scoreboard) :
    (sb.update_timing rules P a t).next_allowed n F
      = gate rules P a t n F (sb.next_allowed n F) := by
  unfold Scoreboard.update_timing
  rw [Scoreboard.foldl_applyRule_of_no_window_here P a t n F rules hr]
  rfl

theorem level_of_window_timing_cons (V : TimingVals) :
    ∀ r ∈ timing_cons V, r.window ≠ none →
      r.level = Level.rank ∧ r.preceding = [Command.ACT] := by
  intro r hr hw
  simp only [timing_cons, List.mem_cons, List.mem_singleton, List.not_mem_nil, or_false] at hr
  rcases hr with h | h | h | h | h | h | h | h | h | h | h | h | h | h | h | h | h | h | h | h |
    h | h | h | h | h | h | h | h | h | h | h | h | h | h | h | h | h | h | h | h | h <;>
    (subst h; first | exact absurd rfl hw | exact ⟨rfl, rfl⟩)

theorem HBM3.m_timing_vals_step (d : HBM3) (op : Op) :
    (d.step op).m_timing_vals = d.m_timing_vals := by
  cases op <;> rfl

theorem HBM3.m_timing_vals_run (ops : List Op) (d : HBM3) :
    (d.run ops).m_timing_vals = d.m_timing_vals := by
  induction ops generalizing d with
  | nil => rfl
  | cons op ops ih =>
    show ((d.step op).run ops).m_timing_vals = _
    rw [ih, HBM3.m_timing_vals_step]

theorem HBM3.m_clk_le_step (d : HBM3) (op : Op) : d.m_clk ≤ (d.step op).m_clk := by
  cases op with
  | tick => simp [HBM3.step, HBM3.tick]
  | issue c a => exact le_refl _

theorem HBM3.m_clk_le_run (ops : List Op) (d : HBM3) : d.m_clk ≤ (d.run ops).m_clk := by
  induction ops generalizing d with
  | nil => exact le_refl _
  | cons op ops ih =>
    show d.m_clk ≤ ((d.step op).run ops).m_clk
    exact le_trans (HBM3.m_clk_le_step d op) (ih _)

theorem HBM3.check_ready_eq_false_of_lt (d : HBM3) (F : Command) (a : AddrVec) (l : Level)
    (h : d.m_clk < d.m_scoreboard.next_allowed (scopeNode l a) F) :
    d.check_ready F a = false := by
  apply Bool.eq_false_iff.mpr
  intro hready
  simp only [HBM3.check_ready, Scoreboard.check_ready, List.all_eq_true,
    decide_eq_true_eq] at hready
  have := hready l (mem_m_levels l)
  omega

/-- The entry of a bank node never decreases, whatever is called on the device. -/
theorem HBM3.next_allowed_bank_le_step (d : HBM3) (op : Op) (a : AddrVec) (F : Command) :
    d.m_scoreboard.next_allowed (scopeNode .bank a) F
      ≤ (d.step op).m_scoreboard.next_allowed (scopeNode .bank a) F := by
  cases op with
  | tick => exact le_refl _
  | issue c a' =>
    have h := Scoreboard.update_timing_of_no_window_here c a' d.m_clk (scopeNode .bank a) F
      (timing_cons d.m_timing_vals)
      (fun r hr hw _ hn => by
        have h1 := (level_of_window_timing_cons _ r hr hw).1
        have h2 : Level.bank = r.level := congrArg Prod.fst hn
        rw [h1] at h2
        cases h2) d.m_scoreboard
    show _ ≤ (d.m_scoreboard.update_timing (timing_cons d.m_timing_vals) c a'
      d.m_clk).next_allowed _ _
    rw [h]
    exact ((gate_le_iff _ _ _ _ _ _ _ _).mp (le_refl _)).1

theorem HBM3.next_allowed_bank_le_run (ops : List Op) (d : HBM3) (a : AddrVec)
    (F : Command) :
    d.m_scoreboard.next_allowed (scopeNode .bank a) F
      ≤ (d.run ops).m_scoreboard.next_allowed (scopeNode .bank a) F := by
  induction ops generalizing d with
  | nil => exact le_refl _
  | cons op ops ih =>
    show _ ≤ ((d.step op).run ops).m_scoreboard.next_allowed _ _
    exact le_trans (HBM3.next_allowed_bank_le_step d op a F) (ih _)

theorem HBM3.next_allowed_bank_ACT_issue_ACT (d : HBM3) (a : AddrVec) :
    d.m_clk + d.m_timing_vals .nRC
      ≤ (d.issue_command .ACT a).m_scoreboard.next_allowed (scopeNode .bank a) .ACT := by
  have h := Scoreboard.update_timing_of_no_window_here .ACT a d.m_clk (scopeNode .bank a)
    .ACT (timing_cons d.m_timing_vals)
    (fun r hr hw _ hn => by
      have h1 := (level_of_window_timing_cons _ r hr hw).1
      have h2 : Level.bank = r.level := congrArg Prod.fst hn
      rw [h1] at h2
      cases h2) d.m_scoreboard
  show _ ≤ (d.m_scoreboard.update_timing (timing_cons d.m_timing_vals) .ACT a
    d.m_clk).next_allowed _ _
  rw [h]
  exact ((gate_le_iff _ _ _ _ _ _ _ _).mp (le_refl _)).2
    { level := .bank, preceding := [.ACT], following := [.ACT],
      latency := d.m_timing_vals .nRC }
    (by simp [timing_cons]) rfl (by simp) rfl (by simp)

/-! ## Claim on a second ACT to the same bank -/

/-- C9 (as the code has it): on a device in any state, after ACT is issued to a valid bank
address at clock `t`, whatever calls follow (ticks and commands, with or without a
precharge), `check_ready(ACT, same address)` is false at every clock below `t + nRC`. -/
theorem C9_second_ACT_waits_nRC (d : HBM3) (a : AddrVec) (ops : List Op)
    (_hvalid : AddrVec.valid d.m_organization a = true)
    (hclk : ((d.issue_command .ACT a).run ops).m_clk < d.m_clk + d.m_timing_vals .nRC) :
    ((d.issue_command .ACT a).run ops).check_ready .ACT a = false := by
  apply HBM3.check_ready_eq_false_of_lt _ _ _ .bank
  have h1 := HBM3.next_allowed_bank_ACT_issue_ACT d a
  have h2 := HBM3.next_allowed_bank_le_run ops (d.issue_command .ACT a) a .ACT
  omega

set_option maxRecDepth 100000 in
/-- C9 at the preset `HBM3_4.8Gbps` (`nRC = 58`): 57 ticks after an ACT issued at clock
100, a second ACT to the same bank is not ready. -/
theorem C9_second_ACT_waits_nRC_witness :
    AddrVec.valid Organization.HBM3_2Gb_1R [0, 0, 0, 0, 0, 0, 0] = true ∧
    ((((HBM3.create Organization.HBM3_2Gb_1R TimingVals.HBM3_4_8Gbps).tickN 100).issue_command
        .ACT [0, 0, 0, 0, 0, 0, 0]).run (List.replicate 57 Op.tick)).check_ready .ACT
          [0, 0, 0, 0, 0, 0, 0] = false :=
  ⟨by decide,
    C9_second_ACT_waits_nRC
      ((HBM3.create Organization.HBM3_2Gb_1R TimingVals.HBM3_4_8Gbps).tickN 100)
      [0, 0, 0, 0, 0, 0, 0] (List.replicate 57 Op.tick) (by decide) (by decide)⟩

set_option maxRecDepth 100000 in
/-- C9, counterexample: on the fresh device of the presets `HBM3_2Gb_1R` and
`HBM3_4.8Gbps`, bank 0 is Closed at clock 100; ACT is issued to it at clock 100 and
makes it Opened; with no command at all issued afterwards `check_ready(ACT)` for the
same bank is true at clock 158, while the bank is still Opened. -/
theorem C9_counterexample :
    AddrVec.valid Organization.HBM3_2Gb_1R [0, 0, 0, 0, 0, 0, 0] = true ∧
    (((HBM3.create Organization.HBM3_2Gb_1R TimingVals.HBM3_4_8Gbps).tickN 100).m_channels.map
      (fun ch => (ch.get? [0, 0, 0, 0]).map Node.m_state)) = [some State.Closed] ∧
    (((((HBM3.create Organization.HBM3_2Gb_1R TimingVals.HBM3_4_8Gbps).tickN 100).issue_command
        .ACT [0, 0, 0, 0, 0, 0, 0]).tickN 58).m_channels.map
      (fun ch => (ch.get? [0, 0, 0, 0]).map Node.m_state)) = [some State.Opened] ∧
    ((((HBM3.create Organization.HBM3_2Gb_1R TimingVals.HBM3_4_8Gbps).tickN 100).issue_command
        .ACT [0, 0, 0, 0, 0, 0, 0]).tickN 58).m_clk = 158 ∧
    ((((HBM3.create Organization.HBM3_2Gb_1R TimingVals.HBM3_4_8Gbps).tickN 100).issue_command
        .ACT [0, 0, 0, 0, 0, 0, 0]).tickN 58).check_ready .ACT [0, 0, 0, 0, 0, 0, 0] = true := by
  decide

/-! ## Lemmas on the activation window -/

theorem Scoreboard.applyRule_local (P : Command) (a : AddrVec) (t : Int) (n : NodeId)
    (F : Command) (sb : Scoreboard) (r : TimingCons) :
    (Scoreboard.applyRule P a t sb r).next_allowed n F
      = localStep P a t n F (sb.history n P) (sb.next_allowed n F) r := by
  unfold Scoreboard.applyRule localStep
  by_cases hP : P ∈ r.preceding
  · by_cases hn : n = scopeNode r.level a
    · subst hn
      cases hwin : r.window with
      | none => simp [hP]
      | some w =>
        by_cases hF : F ∈ r.following
        · simp [hP, hF]
        · simp [hP, hF]
    · cases hwin : r.window with
      | none => simp [hP, hn]
      | some w => simp [hP, hn]
  · simp [hP]

theorem Scoreboard.foldl_applyRule_local (P : Command) (a : AddrVec) (t : Int) (n : NodeId)
    (F : Command) (rules : List TimingCons) :
    ∀ sb : Scoreboard,
      (rules.foldl (Scoreboard.applyRule P a t) sb).next_allowed n F
        = rules.foldl (localStep P a t n F (sb.history n P)) (sb.next_allowed n F) := by
  induction rules with
  | nil => intro sb; rfl
  | cons r rules ih =>
    intro sb
    rw [List.foldl_cons, ih, Scoreboard.applyRule_local, List.foldl_cons,
      Scoreboard.history_applyRule]

theorem rank_ACT_local (V : TimingVals) (a : AddrVec) (t v : Int) (clocks : List Int)
    (oldest : Int) (hlen : (ringOf 4 clocks).length = 4)
    (hhead : (ringOf 4 clocks).head? = some oldest) :
    (timing_cons V).foldl (localStep .ACT a t (scopeNode .rank a) .ACT clocks) v
      = oldest + V .nFAW := by
  simp [timing_cons, localStep, scopeNode_eq_iff, hlen, hhead]

theorem ringOf_four (x1 x2 x3 x4 : Int) (h : List Int) :
    ringOf 4 ((((h ++ [x1]) ++ [x2]) ++ [x3]) ++ [x4]) = [x1, x2, x3, x4] := by
  unfold ringOf
  simp only [List.append_assoc, List.singleton_append, List.length_append, List.length_cons,
    List.length_nil]
  have hlen : h.length + (0 + 1 + 1 + 1 + 1) - 4 = h.length := by omega
  rw [hlen, List.drop_left]
  rfl

theorem HBM3.rank_step_other (d : HBM3) (op : Op) (a : AddrVec)
    (hop : op.isACTtoRankOf a = false) :
    (d.step op).m_scoreboard.history (scopeNode .rank a) .ACT
      = d.m_scoreboard.history (scopeNode .rank a) .ACT ∧
    d.m_scoreboard.next_allowed (scopeNode .rank a) .ACT
      ≤ (d.step op).m_scoreboard.next_allowed (scopeNode .rank a) .ACT := by
  cases op with
  | tick => exact ⟨rfl, le_refl _⟩
  | issue c a' =>
    have hnot : ¬ (Command.ACT = c ∧ scopeNode .rank a = scopeNode .rank a') := by
      rintro ⟨h1, h2⟩
      simp [Op.isACTtoRankOf, ← h1, h2] at hop
    have h := Scoreboard.update_timing_of_no_window_here c a' d.m_clk (scopeNode .rank a)
      .ACT (timing_cons d.m_timing_vals)
      (fun r hr hw hc hn => by
        obtain ⟨h1, h2⟩ := level_of_window_timing_cons _ r hr hw
        rw [h2] at hc
        rw [h1] at hn
        have hc' : c = Command.ACT := by simpa using hc
        exact hnot ⟨hc'.symm, hn⟩) d.m_scoreboard
    constructor
    · show (d.m_scoreboard.update_timing (timing_cons d.m_timing_vals) c a'
        d.m_clk).history _ _ = _
      rw [Scoreboard.history_update_timing]
      exact if_neg hnot
    · show _ ≤ (d.m_scoreboard.update_timing (timing_cons d.m_timing_vals) c a'
        d.m_clk).next_allowed _ _
      rw [h]
      exact ((gate_le_iff _ _ _ _ _ _ _ _).mp (le_refl _)).1

theorem HBM3.rank_run_other (ops : List Op) (d : HBM3) (a : AddrVec)
    (hops : ∀ op ∈ ops, op.isACTtoRankOf a = false) :
    (d.run ops).m_scoreboard.history (scopeNode .rank a) .ACT
      = d.m_scoreboard.history (scopeNode .rank a) .ACT ∧
    d.m_scoreboard.next_allowed (scopeNode .rank a) .ACT
      ≤ (d.run ops).m_scoreboard.next_allowed (scopeNode .rank a) .ACT := by
  induction ops generalizing d with
  | nil => exact ⟨rfl, le_refl _⟩
  | cons op ops ih =>
    have h1 := HBM3.rank_step_other d op a (hops op (List.mem_cons_self _ _))
    have h2 := ih (d.step op) (fun op' h => hops op' (List.mem_cons_of_mem _ h))
    show ((d.step op).run ops).m_scoreboard.history _ _ = _ ∧
      _ ≤ ((d.step op).run ops).m_scoreboard.next_allowed _ _
    exact ⟨h2.1.trans h1.1, le_trans h1.2 h2.2⟩

theorem HBM3.rank_issue_ACT (d : HBM3) (a' a : AddrVec)
    (h : scopeNode .rank a' = scopeNode .rank a) :
    (d.issue_command .ACT a').m_scoreboard.history (scopeNode .rank a) .ACT
      = d.m_scoreboard.history (scopeNode .rank a) .ACT ++ [d.m_clk] ∧
    ∀ oldest,
      (ringOf 4 (d.m_scoreboard.history (scopeNode .rank a) .ACT ++ [d.m_clk])).length = 4 →
      (ringOf 4 (d.m_scoreboard.history (scopeNode .rank a) .ACT ++ [d.m_clk])).head?
        = some oldest →
      (d.issue_command .ACT a').m_scoreboard.next_allowed (scopeNode .rank a) .ACT
        = oldest + d.m_timing_vals .nFAW := by
  have hhist : (d.m_scoreboard.record .ACT a' d.m_clk).history (scopeNode .rank a') .ACT
      = d.m_scoreboard.history (scopeNode .rank a') .ACT ++ [d.m_clk] := by
    simp [Scoreboard.record, scopeNode]
  constructor
  · show (d.m_scoreboard.update_timing (timing_cons d.m_timing_vals) .ACT a'
      d.m_clk).history _ _ = _
    rw [← h, Scoreboard.history_update_timing]
    exact if_pos ⟨rfl, rfl⟩
  · intro oldest hlen hhead
    show (d.m_scoreboard.update_timing (timing_cons d.m_timing_vals) .ACT a'
      d.m_clk).next_allowed _ _ = _
    rw [← h] at hlen hhead ⊢
    unfold Scoreboard.update_timing
    rw [Scoreboard.foldl_applyRule_local, hhist]
    exact rank_ACT_local d.m_timing_vals a' d.m_clk _ _ oldest hlen hhead

theorem HBM3.m_timing_vals_issue_command (d : HBM3) (c : Command) (a : AddrVec) :
    (d.issue_command c a).m_timing_vals = d.m_timing_vals := rfl

/-- After four ACT commands to banks of one rank, the rank entry for ACT is at least the
clock of the first of them plus `nFAW`. -/
theorem HBM3.next_allowed_afterFourACT (d : HBM3) (a0 a1 a2 a3 a : AddrVec)
    (s0 s1 s2 s3 : List Op)
    (h0 : scopeNode .rank a0 = scopeNode .rank a) (h1 : scopeNode .rank a1 = scopeNode .rank a)
    (h2 : scopeNode .rank a2 = scopeNode .rank a) (h3 : scopeNode .rank a3 = scopeNode .rank a)
    (hs0 : ∀ op ∈ s0, op.isACTtoRankOf a = false) (hs1 : ∀ op ∈ s1, op.isACTtoRankOf a = false)
    (hs2 : ∀ op ∈ s2, op.isACTtoRankOf a = false)
    (hs3 : ∀ op ∈ s3, op.isACTtoRankOf a = false) :
    d.m_clk + d.m_timing_vals .nFAW
      ≤ (d.afterFourACT a0 a1 a2 a3 s0 s1 s2 s3).m_scoreboard.next_allowed
          (scopeNode .rank a) .ACT := by
  -- the devices along the way
  generalize he1 : d.issue_command .ACT a0 = e1
  generalize hf1 : e1.run s0 = f1
  generalize he2 : f1.issue_command .ACT a1 = e2
  generalize hf2 : e2.run s1 = f2
  generalize he3 : f2.issue_command .ACT a2 = e3
  generalize hf3 : e3.run s2 = f3
  generalize he4 : f3.issue_command .ACT a3 = e4
  have hd4 : d.afterFourACT a0 a1 a2 a3 s0 s1 s2 s3 = e4.run s3 := by
    simp only [HBM3.afterFourACT, he1, hf1, he2, hf2, he3, hf3, he4]
  rw [hd4]
  -- the clocks of the ACTs at the rank
  have r1 := (HBM3.rank_issue_ACT d a0 a h0).1
  have r1' := (HBM3.rank_run_other s0 (d.issue_command .ACT a0) a hs0).1
  have r2 := (HBM3.rank_issue_ACT f1 a1 a h1).1
  have r2' := (HBM3.rank_run_other s1 (f1.issue_command .ACT a1) a hs1).1
  have r3 := (HBM3.rank_issue_ACT f2 a2 a h2).1
  have r3' := (HBM3.rank_run_other s2 (f2.issue_command .ACT a2) a hs2).1
  have r4 := HBM3.rank_issue_ACT f3 a3 a h3
  rw [he1, hf1] at r1'
  rw [he1] at r1
  rw [he2, hf2] at r2'
  rw [he2] at r2
  rw [he3, hf3] at r3'
  rw [he3] at r3
  rw [he4] at r4
  have hring : ringOf 4 (f3.m_scoreboard.history (scopeNode .rank a) .ACT ++ [f3.m_clk])
      = [d.m_clk, f1.m_clk, f2.m_clk, f3.m_clk] := by
    rw [r3', r3, r2', r2, r1', r1, ringOf_four]
  have hval := r4.2 d.m_clk (by rw [hring]; rfl) (by rw [hring]; rfl)
  have hmono := (HBM3.rank_run_other s3 e4 a hs3).2
  have v3 : f3.m_timing_vals = d.m_timing_vals := by
    rw [← hf3, ← he3, ← hf2, ← he2, ← hf1, ← he1]
    simp only [HBM3.m_timing_vals_run, HBM3.m_timing_vals_issue_command]
  rw [v3] at hval
  omega

/-! ## Claim on the four-activation window -/

/-- C7: on a device in any state with any timing values, let four ACT commands be issued
to banks of one rank, the first at clock `t0`, with any calls in between and afterwards
that are not a further ACT to that rank. Then at every later clock below `t0 + nFAW`
`check_ready(ACT)` is false for every bank of that rank; put the other way, a fifth ACT
to the rank that `check_ready` lets through is at a clock `t4 >= t0 + nFAW`. -/
theorem C7_four_activation_window (d : HBM3) (a0 a1 a2 a3 a : AddrVec)
    (s0 s1 s2 s3 : List Op)
    (h0 : scopeNode .rank a0 = scopeNode .rank a) (h1 : scopeNode .rank a1 = scopeNode .rank a)
    (h2 : scopeNode .rank a2 = scopeNode .rank a) (h3 : scopeNode .rank a3 = scopeNode .rank a)
    (hs0 : ∀ op ∈ s0, op.isACTtoRankOf a = false) (hs1 : ∀ op ∈ s1, op.isACTtoRankOf a = false)
    (hs2 : ∀ op ∈ s2, op.isACTtoRankOf a = false)
    (hs3 : ∀ op ∈ s3, op.isACTtoRankOf a = false) :
    ((d.afterFourACT a0 a1 a2 a3 s0 s1 s2 s3).m_clk < d.m_clk + d.m_timing_vals .nFAW →
      (d.afterFourACT a0 a1 a2 a3 s0 s1 s2 s3).check_ready .ACT a = false) ∧
    ((d.afterFourACT a0 a1 a2 a3 s0 s1 s2 s3).check_ready .ACT a = true →
      d.m_clk + d.m_timing_vals .nFAW ≤ (d.afterFourACT a0 a1 a2 a3 s0 s1 s2 s3).m_clk) := by
  have hslot := HBM3.next_allowed_afterFourACT d a0 a1 a2 a3 a s0 s1 s2 s3 h0 h1 h2 h3
    hs0 hs1 hs2 hs3
  have hfalse : (d.afterFourACT a0 a1 a2 a3 s0 s1 s2 s3).m_clk
      < d.m_clk + d.m_timing_vals .nFAW →
      (d.afterFourACT a0 a1 a2 a3 s0 s1 s2 s3).check_ready .ACT a = false := by
    intro hlt
    apply HBM3.check_ready_eq_false_of_lt _ _ _ .rank
    omega
  refine ⟨hfalse, ?_⟩
  intro hready
  by_contra hlt
  rw [hfalse (by omega)] at hready
  cases hready

set_option maxRecDepth 100000 in
/-- C7 at the preset `HBM3_4.8Gbps` (`nFAW = 36`): ACT to the banks 0 of the four
bankgroups of rank 0 at the clocks 100, 102, 104 and 106, each ready when it is
issued; an ACT to bank 1 of bankgroup 0 is not ready at clock 135 and is ready at
clock 136, the clock of the first ACT plus `nFAW`. -/
theorem C7_four_activation_window_witness :
    HBM3.sample.m_clk = 100 ∧
    HBM3.sample.check_ready .ACT [0, 0, 0, 0, 0, 5, 0] = true ∧
    (HBM3.sample.run [.issue .ACT [0, 0, 0, 0, 0, 5, 0], .tick, .tick]).check_ready .ACT
      [0, 0, 0, 1, 0, 5, 0] = true ∧
    (HBM3.sample.run [.issue .ACT [0, 0, 0, 0, 0, 5, 0], .tick, .tick,
      .issue .ACT [0, 0, 0, 1, 0, 5, 0], .tick, .tick]).check_ready .ACT
      [0, 0, 0, 2, 0, 5, 0] = true ∧
    (HBM3.sample.run [.issue .ACT [0, 0, 0, 0, 0, 5, 0], .tick, .tick,
      .issue .ACT [0, 0, 0, 1, 0, 5, 0], .tick, .tick,
      .issue .ACT [0, 0, 0, 2, 0, 5, 0], .tick, .tick]).check_ready .ACT
      [0, 0, 0, 3, 0, 5, 0] = true ∧
    (HBM3.sample.afterFourACT
        [0, 0, 0, 0, 0, 5, 0] [0, 0, 0, 1, 0, 5, 0] [0, 0, 0, 2, 0, 5, 0] [0, 0, 0, 3, 0, 5, 0]
        (List.replicate 2 Op.tick) (List.replicate 2 Op.tick) (List.replicate 2 Op.tick)
        (List.replicate 29 Op.tick)).m_clk = 135 ∧
    (HBM3.sample.afterFourACT
        [0, 0, 0, 0, 0, 5, 0] [0, 0, 0, 1, 0, 5, 0] [0, 0, 0, 2, 0, 5, 0] [0, 0, 0, 3, 0, 5, 0]
        (List.replicate 2 Op.tick) (List.replicate 2 Op.tick) (List.replicate 2 Op.tick)
        (List.replicate 29 Op.tick)).check_ready .ACT [0, 0, 0, 0, 1, 9, 0] = false ∧
    (HBM3.sample.afterFourACT
        [0, 0, 0, 0, 0, 5, 0] [0, 0, 0, 1, 0, 5, 0] [0, 0, 0, 2, 0, 5, 0] [0, 0, 0, 3, 0, 5, 0]
        (List.replicate 2 Op.tick) (List.replicate 2 Op.tick) (List.replicate 2 Op.tick)
        (List.replicate 30 Op.tick)).check_ready .ACT [0, 0, 0, 0, 1, 9, 0] = true :=
  ⟨by decide, by decide, by decide, by decide, by decide, by decide,
    (C7_four_activation_window HBM3.sample
      [0, 0, 0, 0, 0, 5, 0] [0, 0, 0, 1, 0, 5, 0] [0, 0, 0, 2, 0, 5, 0] [0, 0, 0, 3, 0, 5, 0]
      [0, 0, 0, 0, 1, 9, 0]
      (List.replicate 2 Op.tick) (List.replicate 2 Op.tick) (List.replicate 2 Op.tick)
      (List.replicate 29 Op.tick)
      (by decide) (by decide) (by decide) (by decide)
      (by decide) (by decide) (by decide) (by decide)).1 (by decide),
    by decide⟩

/-! ## Lemmas on the dispatch of actions along an address -/

theorem Node.update_states_of_no_action_in
    (actions : Level → Command → Option Lambdas.Action.Channel.ActionFunc)
    (command : Command) (addr_vec : AddrVec) (clk : Int) (levels : List Level)
    (hnone : ∀ l ∈ levels, actions l command = none) :
    ∀ node : Node, node.update_states actions command addr_vec clk levels = node := by
  induction levels with
  | nil => intro node; rfl
  | cons l below ih =>
    intro node
    have hl : actions l command = none := hnone l (List.mem_cons_self _ _)
    have ih' := ih (fun l' h => hnone l' (List.mem_cons_of_mem _ h))
    simp only [Node.update_states, hl]
    split
    · rfl
    · cases h : node.m_child_nodes[(addr_vec.getD (l.toNat + 1) (-1)).toNat]? with
      | none => rfl
      | some c =>
        simp only []
        rw [ih' c, List.set_of_getElem?_eq _ _ _ h, Node.setChildren_m_child_nodes]

/-- A level without an Action entry passes the walk on to the addressed child. -/
theorem Node.update_states_cons_none
    (actions : Level → Command → Option Lambdas.Action.Channel.ActionFunc)
    (command : Command) (addr_vec : AddrVec) (clk : Int) (l : Level) (below : List Level)
    (hl : actions l command = none) (hpos : 0 ≤ addr_vec.getD (l.toNat + 1) (-1))
    (g : Node → Node) (p : List Nat)
    (hbelow : ∀ c : Node, c.update_states actions command addr_vec clk below = c.modifyAt g p)
    (node : Node) :
    node.update_states actions command addr_vec clk (l :: below)
      = node.modifyAt g ((addr_vec.getD (l.toNat + 1) (-1)).toNat :: p) := by
  simp only [Node.update_states, hl, Node.modifyAt]
  rw [if_neg (by omega)]
  cases h : node.m_child_nodes[(addr_vec.getD (l.toNat + 1) (-1)).toNat]? with
  | none => rfl
  | some c => simp only [hbelow]

/-- At the deepest level with an Action entry the walk runs the entry and changes
nothing below. -/
theorem Node.update_states_cons_last
    (actions : Level → Command → Option Lambdas.Action.Channel.ActionFunc)
    (command : Command) (addr_vec : AddrVec) (clk : Int) (l : Level) (below : List Level)
    (f : Lambdas.Action.Channel.ActionFunc) (hl : actions l command = some f)
    (hbelow : ∀ l' ∈ below, actions l' command = none) (node : Node) :
    node.update_states actions command addr_vec clk (l :: below)
      = f node command (addr_vec.getD (l.toNat + 1) (-1)) clk := by
  simp only [Node.update_states, hl]
  split
  · rfl
  · cases h : (f node command (addr_vec.getD (l.toNat + 1) (-1)) clk).m_child_nodes[
        (addr_vec.getD (l.toNat + 1) (-1)).toNat]? with
    | none => rfl
    | some c =>
      simp only []
      rw [Node.update_states_of_no_action_in actions command addr_vec clk below hbelow c,
        List.set_of_getElem?_eq _ _ _ h, Node.setChildren_m_child_nodes]

/-- For a command whose only Action entry is at the bank level, the walk from a channel
node runs that entry on the bank that the address names. -/
theorem Node.update_states_bank_action (command : Command) (addr_vec : AddrVec) (clk : Int)
    (f : Lambdas.Action.Channel.ActionFunc) (hbank : m_actions .bank command = some f)
    (hother : ∀ l, l ≠ Level.bank → m_actions l command = none)
    (hpos : ∀ l ∈ [Level.pseudochannel, Level.rank, Level.bankgroup, Level.bank],
      0 ≤ addr_vec.getD l.toNat (-1))
    (channel : Node) :
    channel.update_states m_actions command addr_vec clk m_levels
      = channel.modifyAt (fun b => f b command (addr_vec.getD Level.row.toNat (-1)) clk)
          addr_vec.bankPath := by
  have h1 := hpos Level.pseudochannel (by simp)
  have h2 := hpos Level.rank (by simp)
  have h3 := hpos Level.bankgroup (by simp)
  have h4 := hpos Level.bank (by simp)
  unfold m_levels AddrVec.bankPath
  refine Node.update_states_cons_none m_actions command addr_vec clk Level.channel _
    (hother _ (by decide)) h1 _ _ (fun c1 => ?_) channel
  refine Node.update_states_cons_none m_actions command addr_vec clk Level.pseudochannel _
    (hother _ (by decide)) h2 _ _ (fun c2 => ?_) c1
  refine Node.update_states_cons_none m_actions command addr_vec clk Level.rank _
    (hother _ (by decide)) h3 _ _ (fun c3 => ?_) c2
  refine Node.update_states_cons_none m_actions command addr_vec clk Level.bankgroup _
    (hother _ (by decide)) h4 _ _ (fun c4 => ?_) c3
  exact Node.update_states_cons_last m_actions command addr_vec clk _ _ f hbank
    (fun l' hl' => hother l' (by
      simp only [List.mem_cons, List.mem_singleton, List.not_mem_nil, or_false] at hl'
      rcases hl' with h | h <;> (rw [h]; decide))) c4

theorem AddrVec.nonneg_of_valid (org : Organization) (a : AddrVec)
    (h : AddrVec.valid org a = true) (l : Level) : 0 ≤ a.getD l.toNat (-1) := by
  simp only [AddrVec.valid, Bool.and_eq_true, List.all_eq_true, decide_eq_true_eq] at h
  exact (h.2 l (mem_m_levels l)).1

/-- The channel nodes after `issue_command` of a command whose only Action entry is at the
bank level: the addressed channel with the entry run on the addressed bank. -/
theorem HBM3.m_channels_issue_bank_action (d : HBM3) (command : Command) (a : AddrVec)
    (f : Lambdas.Action.Channel.ActionFunc) (hbank : m_actions .bank command = some f)
    (hother : ∀ l, l ≠ Level.bank → m_actions l command = none)
    (hpos : ∀ l ∈ [Level.channel, Level.pseudochannel, Level.rank, Level.bankgroup,
      Level.bank], 0 ≤ a.getD l.toNat (-1)) (channel : Node)
    (hch : d.m_channels[(a.getD Level.channel.toNat (-1)).toNat]? = some channel) :
    (d.issue_command command a).m_channels
      = d.m_channels.set (a.getD Level.channel.toNat (-1)).toNat
          (channel.modifyAt (fun b => f b command (a.getD Level.row.toNat (-1)) d.m_clk)
            a.bankPath) := by
  have h0 := hpos Level.channel (by simp)
  simp only [HBM3.issue_command, hch]
  rw [if_neg (by omega),
    Node.update_states_bank_action command a d.m_clk f hbank hother
      (fun l hl => hpos l (List.mem_cons_of_mem _ hl))]

/-! ## Claims on the state effect of `issue_command` -/

theorem Lambdas.Action.Bank.PRE_cmd_irrelevant (c c' : Command) (r r' clk clk' : Int) :
    (fun b => Lambdas.Action.Bank.PRE b c r clk)
      = (fun b => Lambdas.Action.Bank.PRE b c' r' clk') := by
  funext b
  cases b
  rfl

/-- C18: for every command and every address, `issue_command` leaves every channel node
other than the addressed one as it was (states and row maps of all its nodes included),
and the number of channels is unchanged. -/
theorem C18_other_channels_unchanged (d : HBM3) (command : Command) (a : AddrVec) (j : Nat)
    (hj : (j : Int) ≠ a.getD Level.channel.toNat (-1)) :
    (d.issue_command command a).m_channels[j]? = d.m_channels[j]? ∧
    (d.issue_command command a).m_channels.length = d.m_channels.length := by
  simp only [HBM3.issue_command]
  split
  · exact ⟨rfl, rfl⟩
  · rename_i hneg
    cases h : d.m_channels[(a.getD Level.channel.toNat (-1)).toNat]? with
    | none => exact ⟨rfl, rfl⟩
    | some c =>
      simp only []
      refine ⟨?_, List.length_set _ _ _⟩
      apply List.getElem?_set_ne
      intro heq
      apply hj
      rw [← heq]
      omega

/-- C18 on a device with two channels: PREA and ACT addressed to channel 0 leave channel 1
as it was. -/
theorem C18_other_channels_unchanged_witness :
    HBM3.sample_x2.m_channels.length = 2 ∧
    (HBM3.sample_x2.issue_command .PREA [0, 0, 0, 0, 0, 0, 0]).m_channels[1]?
      = HBM3.sample_x2.m_channels[1]? ∧
    (HBM3.sample_x2.issue_command .ACT [0, 1, 0, 2, 3, 7, 0]).m_channels[1]?
      = HBM3.sample_x2.m_channels[1]? :=
  ⟨by decide,
   (C18_other_channels_unchanged HBM3.sample_x2 .PREA [0, 0, 0, 0, 0, 0, 0] 1 (by decide)).1,
   (C18_other_channels_unchanged HBM3.sample_x2 .ACT [0, 1, 0, 2, 3, 7, 0] 1 (by decide)).1⟩

open Lambdas.Action in
/-- C20: for every device state and every valid address of a bank of the tree, the channel
nodes after `issue_command` of RDA and of WRA are those after `issue_command` of PRE:
the addressed channel with the addressed bank Closed and its row map empty, every
other node of that channel with the state and row map it had, and the other channels
as they were. -/
theorem C20_RDA_WRA_as_PRE (d : HBM3) (a : AddrVec) (channel bank : Node)
    (hvalid : AddrVec.valid d.m_organization a = true)
    (hch : d.m_channels[(a.getD Level.channel.toNat (-1)).toNat]? = some channel)
    (hbank : channel.get? a.bankPath = some bank) :
    (d.issue_command .RDA a).m_channels = (d.issue_command .PRE a).m_channels ∧
    (d.issue_command .WRA a).m_channels = (d.issue_command .PRE a).m_channels ∧
    ∃ channel', (d.issue_command .PRE a).m_channels
        = d.m_channels.set (a.getD Level.channel.toNat (-1)).toNat channel' ∧
      (∃ bank', channel'.get? a.bankPath = some bank' ∧
        bank'.m_state = State.Closed ∧ bank'.m_row_state = RowMap.empty) ∧
      ∀ q, q ≠ a.bankPath → (channel'.get? q).map Node.view = (channel.get? q).map Node.view := by
  have hpos := AddrVec.nonneg_of_valid d.m_organization a hvalid
  have hother : ∀ c, c = Command.PRE ∨ c = Command.RDA ∨ c = Command.WRA →
      ∀ l, l ≠ Level.bank → m_actions l c = none := by
    intro c hc l hl
    rcases hc with h | h | h <;> (subst h; cases l <;> first | rfl | exact absurd rfl hl)
  have hPRE := HBM3.m_channels_issue_bank_action d .PRE a Bank.PRE rfl
    (hother _ (Or.inl rfl)) (fun l _ => hpos l) channel hch
  have hRDA := HBM3.m_channels_issue_bank_action d .RDA a Bank.PRE rfl
    (hother _ (Or.inr (Or.inl rfl))) (fun l _ => hpos l) channel hch
  have hWRA := HBM3.m_channels_issue_bank_action d .WRA a Bank.PRE rfl
    (hother _ (Or.inr (Or.inr rfl))) (fun l _ => hpos l) channel hch
  refine ⟨?_, ?_, _, hPRE, ⟨Bank.PRE bank .PRE (a.getD Level.row.toNat (-1)) d.m_clk, ?_, ?_, ?_⟩, ?_⟩
  · rw [hRDA, hPRE, Bank.PRE_cmd_irrelevant .RDA .PRE]
  · rw [hWRA, hPRE, Bank.PRE_cmd_irrelevant .WRA .PRE]
  · rw [Node.get?_modifyAt_self, hbank]; rfl
  · cases bank; rfl
  · cases bank; rfl
  · intro q hq
    exact Node.view_get?_modifyAt_ne _
      (fun x => Bank.m_child_nodes_PRE x .PRE (a.getD Level.row.toNat (-1)) d.m_clk)
      a.bankPath q channel hq

set_option maxRecDepth 100000 in
/-- C20 on the sample device after an ACT to row 7 of bank 3 of bankgroup 2 of
pseudochannel 1, which is Opened: RDA and WRA to that bank leave the channel nodes that
PRE leaves. -/
theorem C20_RDA_WRA_as_PRE_witness :
    ((HBM3.sample.issue_command .ACT [0, 1, 0, 2, 3, 7, 0]).firstChannel.getD
        [1, 0, 2, 3]).m_state = State.Opened ∧
    ((HBM3.sample.issue_command .ACT [0, 1, 0, 2, 3, 7, 0]).issue_command .RDA
        [0, 1, 0, 2, 3, 7, 0]).m_channels
      = ((HBM3.sample.issue_command .ACT [0, 1, 0, 2, 3, 7, 0]).issue_command .PRE
        [0, 1, 0, 2, 3, 7, 0]).m_channels ∧
    ((HBM3.sample.issue_command .ACT [0, 1, 0, 2, 3, 7, 0]).issue_command .WRA
        [0, 1, 0, 2, 3, 7, 0]).m_channels
      = ((HBM3.sample.issue_command .ACT [0, 1, 0, 2, 3, 7, 0]).issue_command .PRE
        [0, 1, 0, 2, 3, 7, 0]).m_channels :=
  have h := C20_RDA_WRA_as_PRE (HBM3.sample.issue_command .ACT [0, 1, 0, 2, 3, 7, 0])
    [0, 1, 0, 2, 3, 7, 0]
    (HBM3.sample.issue_command .ACT [0, 1, 0, 2, 3, 7, 0]).firstChannel
    ((HBM3.sample.issue_command .ACT [0, 1, 0, 2, 3, 7, 0]).firstChannel.getD [1, 0, 2, 3])
    (by decide) rfl rfl
  ⟨by decide, h.1, h.2.1⟩

/-! ## Claim on commands without a prerequisite -/

theorem Node.get_preq_command_of_no_entry (preqs : Level → Command → Option PreqFunc)
    (command : Command) (hnone : ∀ l, preqs l command = none) (addr_vec : AddrVec)
    (clk : Int) (levels : List Level) :
    ∀ node : Node, node.get_preq_command preqs command addr_vec clk levels = command := by
  induction levels with
  | nil => intro node; rfl
  | cons l below ih =>
    intro node
    simp only [Node.get_preq_command, hnone, ne_eq, not_true_eq_false, if_false]
    split
    · rfl
    · cases h : node.m_child_nodes[(addr_vec.getD (l.toNat + 1) (-1)).toNat]? with
      | none => rfl
      | some c => exact ih c

theorem HBM3.preq_of_no_entry (L : PreqLambdas) (d : HBM3) (c : Command)
    (a : AddrVec) (hnone : ∀ l, m_preqs L l c = none) :
    HBM3.get_preq_command L d c a = c := by
  simp only [HBM3.get_preq_command]
  split
  · rfl
  · cases h : d.m_channels[(a.getD Level.channel.toNat (-1)).toNat]? with
    | none => rfl
    | some ch => exact Node.get_preq_command_of_no_entry (m_preqs L) c hnone a d.m_clk _ ch

/-- C19: `set_preqs` registers no Prerequisite for ACT, PRE, PREA, RDA, WRA, RFMab and
RFMsb at any level, whatever the three registered lambdas are, and for every device
state and every address `get_preq_command` returns each of these commands unchanged. -/
theorem C19_no_prerequisite (L : PreqLambdas) (d : HBM3) (a : AddrVec) :
    (∀ l, m_preqs L l .ACT = none ∧ m_preqs L l .PRE = none ∧ m_preqs L l .PREA = none ∧
      m_preqs L l .RDA = none ∧ m_preqs L l .WRA = none ∧ m_preqs L l .RFMab = none ∧
      m_preqs L l .RFMsb = none) ∧
    HBM3.get_preq_command L d .ACT a = .ACT ∧
    HBM3.get_preq_command L d .PRE a = .PRE ∧
    HBM3.get_preq_command L d .PREA a = .PREA ∧
    HBM3.get_preq_command L d .RDA a = .RDA ∧
    HBM3.get_preq_command L d .WRA a = .WRA ∧
    HBM3.get_preq_command L d .RFMab a = .RFMab ∧
    HBM3.get_preq_command L d .RFMsb a = .RFMsb := by
  have hACT : ∀ l, m_preqs L l .ACT = none := by intro l; cases l <;> rfl
  have hPRE : ∀ l, m_preqs L l .PRE = none := by intro l; cases l <;> rfl
  have hPREA : ∀ l, m_preqs L l .PREA = none := by intro l; cases l <;> rfl
  have hRDA : ∀ l, m_preqs L l .RDA = none := by intro l; cases l <;> rfl
  have hWRA : ∀ l, m_preqs L l .WRA = none := by intro l; cases l <;> rfl
  have hRFMab : ∀ l, m_preqs L l .RFMab = none := by intro l; cases l <;> rfl
  have hRFMsb : ∀ l, m_preqs L l .RFMsb = none := by intro l; cases l <;> rfl
  exact ⟨fun l => ⟨hACT l, hPRE l, hPREA l, hRDA l, hWRA l, hRFMab l, hRFMsb l⟩,
    HBM3.preq_of_no_entry L d _ a hACT,
    HBM3.preq_of_no_entry L d _ a hPRE,
    HBM3.preq_of_no_entry L d _ a hPREA,
    HBM3.preq_of_no_entry L d _ a hRDA,
    HBM3.preq_of_no_entry L d _ a hWRA,
    HBM3.preq_of_no_entry L d _ a hRFMab,
    HBM3.preq_of_no_entry L d _ a hRFMsb⟩

/-! ## Claim on row-buffer hits -/

theorem AddrVec.getD_withRow_ne (a : AddrVec) (r : Int) (k : Nat) (hk : k ≠ Level.row.toNat) :
    (a.withRow r).getD k (-1) = a.getD k (-1) := by
  simp only [AddrVec.withRow, List.getD_eq_getElem?_getD]
  rw [List.getElem?_set_ne (fun h => hk h.symm)]

theorem AddrVec.getD_withRow_row (a : AddrVec) (r : Int) (hlen : Level.row.toNat < a.length) :
    (a.withRow r).getD Level.row.toNat (-1) = r := by
  simp only [AddrVec.withRow, List.getD_eq_getElem?_getD]
  rw [List.getElem?_set_self hlen]
  rfl

theorem AddrVec.bankPath_withRow (a : AddrVec) (r : Int) :
    (a.withRow r).bankPath = a.bankPath := by
  simp only [AddrVec.bankPath]
  rw [AddrVec.getD_withRow_ne a r _ (by decide), AddrVec.getD_withRow_ne a r _ (by decide),
    AddrVec.getD_withRow_ne a r _ (by decide), AddrVec.getD_withRow_ne a r _ (by decide)]

theorem AddrVec.length_of_valid (org : Organization) (a : AddrVec)
    (h : AddrVec.valid org a = true) : a.length = 7 := by
  simp only [AddrVec.valid, Bool.and_eq_true, beq_iff_eq] at h
  exact h.1

theorem Node.check_rowbuffer_hit_cons_none
    (rowhits : Level → Command → Option RowhitFunc) (command : Command) (addr_vec : AddrVec)
    (clk : Int) (l : Level) (below : List Level) (hl : rowhits l command = none)
    (hpos : 0 ≤ addr_vec.getD (l.toNat + 1) (-1)) (node : Node) :
    node.check_rowbuffer_hit rowhits command addr_vec clk (l :: below)
      = match node.m_child_nodes[(addr_vec.getD (l.toNat + 1) (-1)).toNat]? with
        | none => false
        | some c => c.check_rowbuffer_hit rowhits command addr_vec clk below := by
  simp only [Node.check_rowbuffer_hit, hl]
  rw [if_neg (by omega)]

/-- For RD and WR the walk from a channel node answers with the RowHit entry of the bank
level, asked at the bank that the address names. -/
theorem Node.check_rowbuffer_hit_bank (command : Command) (addr_vec : AddrVec) (clk : Int)
    (rowhit : RowhitFunc) (hbank : m_rowhits .bank command = some rowhit)
    (hother : ∀ l, l ≠ Level.bank → m_rowhits l command = none)
    (hpos : ∀ l ∈ [Level.pseudochannel, Level.rank, Level.bankgroup, Level.bank],
      0 ≤ addr_vec.getD l.toNat (-1))
    (channel bank : Node) (hget : channel.get? addr_vec.bankPath = some bank) :
    channel.check_rowbuffer_hit m_rowhits command addr_vec clk m_levels
      = rowhit bank command (addr_vec.getD Level.row.toNat (-1)) clk := by
  have h1 := hpos Level.pseudochannel (by simp)
  have h2 := hpos Level.rank (by simp)
  have h3 := hpos Level.bankgroup (by simp)
  have h4 := hpos Level.bank (by simp)
  unfold m_levels
  unfold AddrVec.bankPath at hget
  simp only [Node.get?] at hget
  rw [Node.check_rowbuffer_hit_cons_none m_rowhits command addr_vec clk Level.channel _
    (hother _ (by decide)) h1]
  cases hc1 : channel.m_child_nodes[(addr_vec.getD Level.pseudochannel.toNat (-1)).toNat]? with
  | none => rw [hc1] at hget; cases hget
  | some c1 =>
    rw [hc1] at hget
    simp only [] at hget ⊢
    have e1 : (channel.m_child_nodes[(addr_vec.getD (Level.channel.toNat + 1) (-1)).toNat]?)
        = some c1 := hc1
    rw [e1]
    simp only []
    rw [Node.check_rowbuffer_hit_cons_none m_rowhits command addr_vec clk Level.pseudochannel _
      (hother _ (by decide)) h2]
    cases hc2 : c1.m_child_nodes[(addr_vec.getD Level.rank.toNat (-1)).toNat]? with
    | none => rw [hc2] at hget; cases hget
    | some c2 =>
      rw [hc2] at hget
      simp only [] at hget ⊢
      have e2 : (c1.m_child_nodes[(addr_vec.getD (Level.pseudochannel.toNat + 1) (-1)).toNat]?)
          = some c2 := hc2
      rw [e2]
      simp only []
      rw [Node.check_rowbuffer_hit_cons_none m_rowhits command addr_vec clk Level.rank _
        (hother _ (by decide)) h3]
      cases hc3 : c2.m_child_nodes[(addr_vec.getD Level.bankgroup.toNat (-1)).toNat]? with
      | none => rw [hc3] at hget; cases hget
      | some c3 =>
        rw [hc3] at hget
        simp only [] at hget ⊢
        have e3 : (c2.m_child_nodes[(addr_vec.getD (Level.rank.toNat + 1) (-1)).toNat]?)
            = some c3 := hc3
        rw [e3]
        simp only []
        rw [Node.check_rowbuffer_hit_cons_none m_rowhits command addr_vec clk Level.bankgroup _
          (hother _ (by decide)) h4]
        cases hc4 : c3.m_child_nodes[(addr_vec.getD Level.bank.toNat (-1)).toNat]? with
        | none => rw [hc4] at hget; cases hget
        | some c4 =>
          rw [hc4] at hget
          simp only [Option.some.injEq] at hget
          have e4 : (c3.m_child_nodes[(addr_vec.getD (Level.bankgroup.toNat + 1) (-1)).toNat]?)
              = some c4 := hc4
          rw [e4]
          simp only [Node.check_rowbuffer_hit, hbank]
          rw [hget]
          rfl

theorem HBM3.rowbuffer_hit_at_bank (d : HBM3) (command : Command) (a : AddrVec)
    (rowhit : RowhitFunc) (hbank : m_rowhits .bank command = some rowhit)
    (hother : ∀ l, l ≠ Level.bank → m_rowhits l command = none)
    (hpos : ∀ l ∈ [Level.channel, Level.pseudochannel, Level.rank, Level.bankgroup,
      Level.bank], 0 ≤ a.getD l.toNat (-1))
    (channel bank : Node)
    (hch : d.m_channels[(a.getD Level.channel.toNat (-1)).toNat]? = some channel)
    (hget : channel.get? a.bankPath = some bank) :
    d.check_rowbuffer_hit command a = rowhit bank command (a.getD Level.row.toNat (-1)) d.m_clk := by
  have h0 := hpos Level.channel (by simp)
  simp only [HBM3.check_rowbuffer_hit, hch]
  rw [if_neg (by omega)]
  exact Node.check_rowbuffer_hit_bank command a d.m_clk rowhit hbank hother
    (fun l hl => hpos l (List.mem_cons_of_mem _ hl)) channel bank hget

/-- The addressed channel and bank after `issue_command` of a command whose only Action
entry is at the bank level. -/
theorem HBM3.bank_after_issue (d : HBM3) (command : Command) (a : AddrVec)
    (f : Lambdas.Action.Channel.ActionFunc) (hbank : m_actions .bank command = some f)
    (hother : ∀ l, l ≠ Level.bank → m_actions l command = none)
    (hpos : ∀ l ∈ [Level.channel, Level.pseudochannel, Level.rank, Level.bankgroup,
      Level.bank], 0 ≤ a.getD l.toNat (-1))
    (channel bank : Node)
    (hch : d.m_channels[(a.getD Level.channel.toNat (-1)).toNat]? = some channel)
    (hget : channel.get? a.bankPath = some bank) :
    ∃ channel', (d.issue_command command a).m_channels[(a.getD Level.channel.toNat (-1)).toNat]?
        = some channel' ∧
      channel'.get? a.bankPath = some (f bank command (a.getD Level.row.toNat (-1)) d.m_clk) := by
  have hlt : (a.getD Level.channel.toNat (-1)).toNat < d.m_channels.length := by
    rcases List.getElem?_eq_some_iff.mp hch with ⟨hlt, _⟩
    exact hlt
  refine ⟨channel.modifyAt
    (fun b => f b command (a.getD Level.row.toNat (-1)) d.m_clk) a.bankPath, ?_, ?_⟩
  · rw [HBM3.m_channels_issue_bank_action d command a f hbank hother hpos channel hch,
      List.getElem?_set_self hlt]
  · rw [Node.get?_modifyAt_self, hget]
    rfl

theorem m_actions_other_ACT : ∀ l, l ≠ Level.bank → m_actions l .ACT = none := by
  intro l hl
  cases l <;> first | rfl | exact absurd rfl hl

theorem m_actions_other_PRE : ∀ l, l ≠ Level.bank → m_actions l .PRE = none := by
  intro l hl
  cases l <;> first | rfl | exact absurd rfl hl

theorem m_rowhits_other_RD : ∀ l, l ≠ Level.bank → m_rowhits l .RD = none := by
  intro l hl
  cases l <;> first | rfl | exact absurd rfl hl

theorem m_rowhits_other_WR : ∀ l, l ≠ Level.bank → m_rowhits l .WR = none := by
  intro l hl
  cases l <;> first | rfl | exact absurd rfl hl

theorem Lambdas.RowHit.Bank.RDWR_ACT_same (b : Node) (c c' : Command) (r clk clk' : Int) :
    Lambdas.RowHit.Bank.RDWR (Lambdas.Action.Bank.ACT b c r clk) c' r clk' = true := by
  cases b
  simp [Lambdas.RowHit.Bank.RDWR, Lambdas.Action.Bank.ACT, Node.m_row_state, RowMap.set]

theorem Lambdas.RowHit.Bank.RDWR_ACT_PRE_other (b : Node) (c c' c'' : Command)
    (r r' r2 clk clk' clk'' : Int) (hne : r ≠ r2) :
    Lambdas.RowHit.Bank.RDWR
      (Lambdas.Action.Bank.ACT (Lambdas.Action.Bank.PRE b c r' clk) c' r2 clk') c'' r clk''
      = false := by
  cases b
  simp [Lambdas.RowHit.Bank.RDWR, Lambdas.Action.Bank.ACT, Lambdas.Action.Bank.PRE,
    Node.m_row_state, RowMap.set, RowMap.empty, hne]

open Lambdas.Action in
/-- C11: for every device state, every valid address of a bank of the tree (Closed with an
empty row map or in any other state) and all distinct row ids `r` and `r2`: after
`issue_command` of ACT to row `r` of the bank, `check_rowbuffer_hit` for RD and for WR
addressed to row `r` is true; after PRE and then ACT to row `r2` of the bank, it is false
for RD and WR addressed to row `r` and true for RD and WR addressed to row `r2`. -/
theorem C11_row_hit (d : HBM3) (a : AddrVec) (r r2 : Int) (channel bank : Node)
    (hvalid : AddrVec.valid d.m_organization a = true)
    (hch : d.m_channels[(a.getD Level.channel.toNat (-1)).toNat]? = some channel)
    (hbank : channel.get? a.bankPath = some bank) (hr : r ≠ r2) :
    (d.issue_command .ACT (a.withRow r)).check_rowbuffer_hit .RD (a.withRow r) = true ∧
    (d.issue_command .ACT (a.withRow r)).check_rowbuffer_hit .WR (a.withRow r) = true ∧
    (((d.issue_command .ACT (a.withRow r)).issue_command .PRE (a.withRow r)).issue_command
      .ACT (a.withRow r2)).check_rowbuffer_hit .RD (a.withRow r) = false ∧
    (((d.issue_command .ACT (a.withRow r)).issue_command .PRE (a.withRow r)).issue_command
      .ACT (a.withRow r2)).check_rowbuffer_hit .WR (a.withRow r) = false ∧
    (((d.issue_command .ACT (a.withRow r)).issue_command .PRE (a.withRow r)).issue_command
      .ACT (a.withRow r2)).check_rowbuffer_hit .RD (a.withRow r2) = true ∧
    (((d.issue_command .ACT (a.withRow r)).issue_command .PRE (a.withRow r)).issue_command
      .ACT (a.withRow r2)).check_rowbuffer_hit .WR (a.withRow r2) = true := by
  have hlen : Level.row.toNat < a.length := by
    rw [AddrVec.length_of_valid _ a hvalid]; decide
  have hpos : ∀ r' : Int, ∀ l ∈ [Level.channel, Level.pseudochannel, Level.rank,
      Level.bankgroup, Level.bank], 0 ≤ (a.withRow r').getD l.toNat (-1) := by
    intro r' l hl
    have hne : l.toNat ≠ Level.row.toNat := by
      simp only [List.mem_cons, List.mem_singleton, List.not_mem_nil, or_false] at hl
      rcases hl with h | h | h | h | h <;> (rw [h]; decide)
    rw [AddrVec.getD_withRow_ne a r' _ hne]
    exact AddrVec.nonneg_of_valid _ a hvalid l
  have hc0 : ∀ r' : Int, (a.withRow r').getD Level.channel.toNat (-1)
      = a.getD Level.channel.toNat (-1) :=
    fun r' => AddrVec.getD_withRow_ne a r' _ (by decide)
  -- the bank after the first ACT
  obtain ⟨ch1, hch1, hb1⟩ := HBM3.bank_after_issue d .ACT (a.withRow r) Bank.ACT rfl
    m_actions_other_ACT (hpos r) channel bank (by rw [hc0]; exact hch)
    (by rw [AddrVec.bankPath_withRow]; exact hbank)
  rw [hc0] at hch1
  rw [AddrVec.bankPath_withRow] at hb1
  -- the bank after the PRE
  obtain ⟨ch2, hch2, hb2⟩ := HBM3.bank_after_issue (d.issue_command .ACT (a.withRow r)) .PRE
    (a.withRow r) Bank.PRE rfl m_actions_other_PRE (hpos r) ch1 _ (by rw [hc0]; exact hch1)
    (by rw [AddrVec.bankPath_withRow]; exact hb1)
  rw [hc0] at hch2
  rw [AddrVec.bankPath_withRow] at hb2
  -- the bank after the second ACT
  obtain ⟨ch3, hch3, hb3⟩ := HBM3.bank_after_issue
    ((d.issue_command .ACT (a.withRow r)).issue_command .PRE (a.withRow r)) .ACT
    (a.withRow r2) Bank.ACT rfl m_actions_other_ACT (hpos r2) ch2 _ (by rw [hc0]; exact hch2)
    (by rw [AddrVec.bankPath_withRow]; exact hb2)
  rw [hc0] at hch3
  rw [AddrVec.bankPath_withRow] at hb3
  have hit : ∀ (d' : HBM3) (ch' b' : Node) (r' : Int),
      d'.m_channels[(a.getD Level.channel.toNat (-1)).toNat]? = some ch' →
      ch'.get? a.bankPath = some b' →
      d'.check_rowbuffer_hit .RD (a.withRow r') = Lambdas.RowHit.Bank.RDWR b' .RD r' d'.m_clk ∧
      d'.check_rowbuffer_hit .WR (a.withRow r') = Lambdas.RowHit.Bank.RDWR b' .WR r' d'.m_clk := by
    intro d' ch' b' r' h1 h2
    constructor
    · rw [HBM3.rowbuffer_hit_at_bank d' .RD (a.withRow r') _ rfl m_rowhits_other_RD (hpos r')
        ch' b' (by rw [hc0]; exact h1) (by rw [AddrVec.bankPath_withRow]; exact h2),
        AddrVec.getD_withRow_row a r' hlen]
    · rw [HBM3.rowbuffer_hit_at_bank d' .WR (a.withRow r') _ rfl m_rowhits_other_WR (hpos r')
        ch' b' (by rw [hc0]; exact h1) (by rw [AddrVec.bankPath_withRow]; exact h2),
        AddrVec.getD_withRow_row a r' hlen]
  rw [AddrVec.getD_withRow_row a r hlen] at hb1 hb2
  rw [AddrVec.getD_withRow_row a r2 hlen] at hb3
  refine ⟨?_, ?_, ?_, ?_, ?_, ?_⟩
  · rw [(hit _ ch1 _ r hch1 hb1).1]
    exact Lambdas.RowHit.Bank.RDWR_ACT_same _ _ _ _ _ _
  · rw [(hit _ ch1 _ r hch1 hb1).2]
    exact Lambdas.RowHit.Bank.RDWR_ACT_same _ _ _ _ _ _
  · rw [(hit _ ch3 _ r hch3 hb3).1]
    exact Lambdas.RowHit.Bank.RDWR_ACT_PRE_other _ _ _ _ _ _ _ _ _ _ hr
  · rw [(hit _ ch3 _ r hch3 hb3).2]
    exact Lambdas.RowHit.Bank.RDWR_ACT_PRE_other _ _ _ _ _ _ _ _ _ _ hr
  · rw [(hit _ ch3 _ r2 hch3 hb3).1]
    exact Lambdas.RowHit.Bank.RDWR_ACT_same _ _ _ _ _ _
  · rw [(hit _ ch3 _ r2 hch3 hb3).2]
    exact Lambdas.RowHit.Bank.RDWR_ACT_same _ _ _ _ _ _

set_option maxRecDepth 100000 in
/-- C11 on the sample device, bank 3 of bankgroup 2 of pseudochannel 1, which is Closed with
no open row, rows 7 and 9. -/
theorem C11_row_hit_witness :
    (HBM3.sample.firstChannel.getD [1, 0, 2, 3]).m_state = State.Closed ∧
    (HBM3.sample.issue_command .ACT [0, 1, 0, 2, 3, 7, 0]).check_rowbuffer_hit .RD
      [0, 1, 0, 2, 3, 7, 0] = true ∧
    (((HBM3.sample.issue_command .ACT [0, 1, 0, 2, 3, 7, 0]).issue_command .PRE
      [0, 1, 0, 2, 3, 7, 0]).issue_command .ACT [0, 1, 0, 2, 3, 9, 0]).check_rowbuffer_hit .RD
      [0, 1, 0, 2, 3, 7, 0] = false ∧
    (((HBM3.sample.issue_command .ACT [0, 1, 0, 2, 3, 7, 0]).issue_command .PRE
      [0, 1, 0, 2, 3, 7, 0]).issue_command .ACT [0, 1, 0, 2, 3, 9, 0]).check_rowbuffer_hit .WR
      [0, 1, 0, 2, 3, 9, 0] = true :=
  have h := C11_row_hit HBM3.sample [0, 1, 0, 2, 3, 0, 0] 7 9 HBM3.sample.firstChannel
    (HBM3.sample.firstChannel.getD [1, 0, 2, 3]) (by decide) rfl rfl (by decide)
  ⟨by decide, h.1, h.2.2.1, h.2.2.2.2.2⟩

/-! ## Per-bank actions -/

theorem Node.get?_cons_of_child (n c : Node) (i : Nat) (p : List Nat)
    (h : n.m_child_nodes[i]? = some c) : n.get? (i :: p) = c.get? p := by
  simp only [Node.get?, h]

theorem Lambdas.Action.Bank.get?_forSameIds (body : Node → Node) (rid gid bid : Int)
    (ch : Node) (i j k l : Nat) (rank bg bank : Node)
    (hr : ch.get? [i, j] = some rank) (hg : ch.get? [i, j, k] = some bg)
    (hb : ch.get? [i, j, k, l] = some bank) :
    (Lambdas.Action.Bank.forSameIds body rid gid bid ch).get? [i, j, k, l]
      = some (if rank.m_node_id = rid ∧ bg.m_node_id = gid ∧ bank.m_node_id = bid
          then body bank else bank) := by
  cases h1 : ch.m_child_nodes[i]? with
  | none => simp [Node.get?, h1] at hr
  | some pch =>
    rw [Node.get?_cons_of_child _ _ _ _ h1] at hr hg hb
    cases h2 : pch.m_child_nodes[j]? with
    | none => simp [Node.get?, h2] at hr
    | some rk =>
      rw [Node.get?_cons_of_child _ _ _ _ h2] at hr hg hb
      simp only [Node.get?, Option.some.injEq] at hr
      subst hr
      cases h3 : rk.m_child_nodes[k]? with
      | none => simp [Node.get?, h3] at hg
      | some g =>
        rw [Node.get?_cons_of_child _ _ _ _ h3] at hg hb
        simp only [Node.get?, Option.some.injEq] at hg
        subst hg
        cases h4 : g.m_child_nodes[l]? with
        | none => simp [Node.get?, h4] at hb
        | some b =>
          rw [Node.get?_cons_of_child _ _ _ _ h4] at hb
          simp only [Node.get?, Option.some.injEq] at hb
          subst hb
          unfold Lambdas.Action.Bank.forSameIds
          rw [Node.get?_forChildren_cons, h1, Option.some_bind, Node.get?_forChildren_cons, h2,
            Option.some_bind]
          by_cases c1 : rk.m_node_id = rid
          · rw [if_pos c1, Node.get?_forChildren_cons, h3, Option.some_bind]
            by_cases c2 : g.m_node_id = gid
            · rw [if_pos c2, Node.get?_forChildren_cons, h4, Option.some_bind]
              by_cases c3 : b.m_node_id = bid
              · simp [c1, c2, c3, Node.get?]
              · simp [c3, Node.get?]
            · rw [if_neg c2, Node.get?_cons_of_child _ _ _ _ h4]
              simp [c2, Node.get?]
          · rw [if_neg c1, Node.get?_cons_of_child _ _ _ _ h3,
              Node.get?_cons_of_child _ _ _ _ h4]
            simp [c1, Node.get?]

/-- C17 (amended): on a channel `ch` whose bank `n` lies at the child indices
`[i, j, k, l]` under the rank `rank0` and the bankgroup `bg0`, `Bank::ACTPB` and
`Bank::PREPB` applied at `n` both run, and they change exactly the banks whose rank,
bankgroup and bank `m_node_id` equal those of `n`, in whichever pseudochannel they
lie: such a bank is left as `Bank::ACT` (as `Bank::PRE`) leaves it, and every other
bank four levels below the channel is the same node before and after. -/
theorem C17_per_bank_actions (ch : Node) (i j k l : Nat) (rank0 bg0 n : Node) (cmd : Command)
    (target_id clk : Int)
    (hr0 : ch.get? [i, j] = some rank0) (hg0 : ch.get? [i, j, k] = some bg0)
    (hn : ch.get? [i, j, k, l] = some n) :
    ∃ a p, Lambdas.Action.Bank.ACTPB 4 ch [i, j, k, l] cmd target_id clk = some a ∧
      Lambdas.Action.Bank.PREPB 4 ch [i, j, k, l] cmd target_id clk = some p ∧
      ∀ (i2 j2 k2 l2 : Nat) (rank bg bank : Node),
        ch.get? [i2, j2] = some rank → ch.get? [i2, j2, k2] = some bg →
        ch.get? [i2, j2, k2, l2] = some bank →
        ((rank.m_node_id = rank0.m_node_id ∧ bg.m_node_id = bg0.m_node_id ∧
            bank.m_node_id = n.m_node_id) →
          a.get? [i2, j2, k2, l2] = some (Lambdas.Action.Bank.ACT bank cmd target_id clk) ∧
          p.get? [i2, j2, k2, l2] = some (Lambdas.Action.Bank.PRE bank cmd target_id clk)) ∧
        (¬ (rank.m_node_id = rank0.m_node_id ∧ bg.m_node_id = bg0.m_node_id ∧
            bank.m_node_id = n.m_node_id) →
          a.get? [i2, j2, k2, l2] = some bank ∧ p.get? [i2, j2, k2, l2] = some bank) := by
  refine ⟨Lambdas.Action.Bank.forSameIds (fun bank => Lambdas.Action.Bank.ACT bank cmd target_id clk)
      rank0.m_node_id bg0.m_node_id n.m_node_id ch,
    Lambdas.Action.Bank.forSameIds (fun bank => Lambdas.Action.Bank.PRE bank cmd target_id clk)
      rank0.m_node_id bg0.m_node_id n.m_node_id ch, ?_, ?_, ?_⟩
  · simp only [Lambdas.Action.Bank.ACTPB, if_true, hr0, hg0, hn]
  · simp only [Lambdas.Action.Bank.PREPB, if_true, hr0, hg0, hn]
  · intro i2 j2 k2 l2 rank bg bank hr hg hb
    rw [Lambdas.Action.Bank.get?_forSameIds _ _ _ _ ch i2 j2 k2 l2 rank bg bank hr hg hb,
      Lambdas.Action.Bank.get?_forSameIds _ _ _ _ ch i2 j2 k2 l2 rank bg bank hr hg hb]
    constructor
    · intro h
      rw [if_pos h, if_pos h]
      exact ⟨rfl, rfl⟩
    · intro h
      rw [if_neg h, if_neg h]
      exact ⟨rfl, rfl⟩

set_option maxRecDepth 100000 in
/-- C17 (amended) on the first channel of the sample device, which has two
pseudochannels: `Bank::ACTPB` and `Bank::PREPB` at the bank with the child indices
`[0, 0, 0, 0]` act on the bank `[1, 0, 0, 0]` of the other pseudochannel as `Bank::ACT`
and `Bank::PRE` do, and leave the bank `[0, 0, 0, 1]` as it was. -/
theorem C17_per_bank_actions_witness :
    HBM3.sample.firstChannel.get? [0, 0, 0, 0]
      = some (HBM3.sample.firstChannel.getD [0, 0, 0, 0]) ∧
    ∃ a p, Lambdas.Action.Bank.ACTPB 4 HBM3.sample.firstChannel [0, 0, 0, 0] .ACT 7 100 = some a ∧
      Lambdas.Action.Bank.PREPB 4 HBM3.sample.firstChannel [0, 0, 0, 0] .ACT 7 100 = some p ∧
      a.get? [1, 0, 0, 0] = some (Lambdas.Action.Bank.ACT
        (HBM3.sample.firstChannel.getD [1, 0, 0, 0]) .ACT 7 100) ∧
      p.get? [1, 0, 0, 0] = some (Lambdas.Action.Bank.PRE
        (HBM3.sample.firstChannel.getD [1, 0, 0, 0]) .ACT 7 100) ∧
      a.get? [0, 0, 0, 1] = some (HBM3.sample.firstChannel.getD [0, 0, 0, 1]) ∧
      p.get? [0, 0, 0, 1] = some (HBM3.sample.firstChannel.getD [0, 0, 0, 1]) :=
  match C17_per_bank_actions HBM3.sample.firstChannel 0 0 0 0
    (HBM3.sample.firstChannel.getD [0, 0]) (HBM3.sample.firstChannel.getD [0, 0, 0])
    (HBM3.sample.firstChannel.getD [0, 0, 0, 0]) .ACT 7 100 rfl rfl rfl with
  | ⟨a, p, ha, hp, h⟩ =>
    ⟨rfl, a, p, ha, hp,
      ((h 1 0 0 0 (HBM3.sample.firstChannel.getD [1, 0])
        (HBM3.sample.firstChannel.getD [1, 0, 0]) (HBM3.sample.firstChannel.getD [1, 0, 0, 0])
        rfl rfl rfl).1 (by decide)).1,
      ((h 1 0 0 0 (HBM3.sample.firstChannel.getD [1, 0])
        (HBM3.sample.firstChannel.getD [1, 0, 0]) (HBM3.sample.firstChannel.getD [1, 0, 0, 0])
        rfl rfl rfl).1 (by decide)).2,
      ((h 0 0 0 1 (HBM3.sample.firstChannel.getD [0, 0])
        (HBM3.sample.firstChannel.getD [0, 0, 0]) (HBM3.sample.firstChannel.getD [0, 0, 0, 1])
        rfl rfl rfl).2 (by decide)).1,
      ((h 0 0 0 1 (HBM3.sample.firstChannel.getD [0, 0])
        (HBM3.sample.firstChannel.getD [0, 0, 0]) (HBM3.sample.firstChannel.getD [0, 0, 0, 1])
        rfl rfl rfl).2 (by decide)).2⟩

set_option maxRecDepth 100000 in
/-- C17 as stated fails on the first channel of the sample device: `Bank::ACTPB` applied
at the bank with the child indices `[0, 0, 0, 0]` opens the bank `[1, 0, 0, 0]`, which
has the same rank, bankgroup and bank ids in the other pseudochannel and was `Closed`
without an open row 7; and `Bank::PREPB` applied at `[0, 0, 0, 0]` after an ACT to
`[1, 0, 0, 0]` closes that bank. -/
theorem C17_counterexample :
    (HBM3.sample.firstChannel.get? [1, 0, 0, 0]).map Node.m_state = some State.Closed ∧
    (HBM3.sample.firstChannel.get? [1, 0, 0, 0]).map (fun b => b.m_row_state 7) = some none ∧
    ((Lambdas.Action.Bank.ACTPB 4 HBM3.sample.firstChannel [0, 0, 0, 0] .ACT 7 100).bind
      (fun a => a.get? [1, 0, 0, 0])).map Node.m_state = some State.Opened ∧
    ((Lambdas.Action.Bank.ACTPB 4 HBM3.sample.firstChannel [0, 0, 0, 0] .ACT 7 100).bind
      (fun a => a.get? [1, 0, 0, 0])).map (fun b => b.m_row_state 7)
      = some (some State.Opened) ∧
    ((HBM3.sample.issue_command .ACT [0, 1, 0, 0, 0, 7, 0]).firstChannel.get?
      [1, 0, 0, 0]).map Node.m_state = some State.Opened ∧
    ((Lambdas.Action.Bank.PREPB 4 (HBM3.sample.issue_command .ACT
        [0, 1, 0, 0, 0, 7, 0]).firstChannel [0, 0, 0, 0] .PRE 7 100).bind
      (fun p => p.get? [1, 0, 0, 0])).map Node.m_state = some State.Closed := by
  decide



/-! ## Resolution of the timing values -/

theorem override_timing_eq (rounding : ℚ → Int → Int) (p : TimingParams) (tck : Int)
    (v : List Int) (i : Nat) :
    override_timing rounding p tck v i
      = match override_value rounding p tck i with
        | some x => v.set i x
        | none => v := by
  unfold override_timing override_value
  cases m_timings[i]? with
  | none => rfl
  | some X =>
    dsimp only
    cases p.cycles X with
    | some c => rfl
    | none =>
      dsimp only
      cases p.nanos X with
      | some t => rfl
      | none => rfl

theorem override_timing_length (rounding : ℚ → Int → Int) (p : TimingParams) (tck : Int)
    (v : List Int) (i : Nat) : (override_timing rounding p tck v i).length = v.length := by
  rw [override_timing_eq]
  cases override_value rounding p tck i <;> simp

theorem override_timing_foldl_length (rounding : ℚ → Int → Int) (p : TimingParams) (tck : Int)
    (is : List Nat) (v : List Int) :
    (is.foldl (override_timing rounding p tck) v).length = v.length := by
  induction is generalizing v with
  | nil => rfl
  | cons i rest ih => rw [List.foldl_cons, ih, override_timing_length]

theorem override_timing_getD_ne (rounding : ℚ → Int → Int) (p : TimingParams) (tck : Int)
    (v : List Int) (i j : Nat) (d : Int) (h : i ≠ j) :
    (override_timing rounding p tck v i).getD j d = v.getD j d := by
  rw [override_timing_eq]
  cases override_value rounding p tck i with
  | none => rfl
  | some x => simp [List.getD_eq_getElem?_getD, List.getElem?_set, h]

theorem override_timing_getD_self (rounding : ℚ → Int → Int) (p : TimingParams) (tck : Int)
    (v : List Int) (j : Nat) (d : Int) (h : j < v.length) :
    (override_timing rounding p tck v j).getD j d
      = (override_value rounding p tck j).getD (v.getD j d) := by
  rw [override_timing_eq]
  cases override_value rounding p tck j with
  | none => rfl
  | some x => simp [List.getD_eq_getElem?_getD, List.getElem?_set, h]

theorem override_timing_foldl_getD (rounding : ℚ → Int → Int) (p : TimingParams) (tck : Int)
    (is : List Nat) (v : List Int) (j : Nat) (d : Int) (h : j < v.length) :
    (is.foldl (override_timing rounding p tck) v).getD j d
      = if j ∈ is then (override_value rounding p tck j).getD (v.getD j d) else v.getD j d := by
  induction is generalizing v with
  | nil => simp
  | cons i rest ih =>
    rw [List.foldl_cons, ih _ (by rw [override_timing_length]; exact h)]
    by_cases hij : i = j
    · subst hij
      rw [override_timing_getD_self _ _ _ _ _ _ h]
      by_cases hr : i ∈ rest
      · simp only [hr, List.mem_cons, true_or, or_true, if_true]
        cases override_value rounding p tck i <;> rfl
      · simp [hr]
    · rw [override_timing_getD_ne _ _ _ _ _ _ _ hij]
      have : (j ∈ i :: rest) ↔ j ∈ rest := by
        simp only [List.mem_cons]
        constructor
        · rintro (h1 | h1)
          · exact absurd h1.symm hij
          · exact h1
        · exact Or.inr
      simp only [this]

theorem m_timings_getElem?_toNat (X : Timing) : m_timings[X.toNat]? = some X := by
  cases X <;> rfl

theorem Timing.toNat_lt (X : Timing) : X.toNat < 26 := by
  cases X <;> decide

theorem Timing.toNat_mem_range (X : Timing) (h1 : X ≠ .rate) (h2 : X ≠ .tCK_ps) :
    X.toNat ∈ List.range' 1 (m_timings.length - 2) := by
  cases X <;> first | exact absurd rfl h1 | exact absurd rfl h2 | decide

theorem Timing.toNat_injective (X Y : Timing) (h : X.toNat = Y.toNat) : X = Y := by
  cases X <;> cases Y <;> first | rfl | exact absurd h (by decide)

theorem override_value_toNat (rounding : ℚ → Int → Int) (p : TimingParams) (tck : Int)
    (X : Timing) :
    override_value rounding p tck X.toNat
      = match p.cycles X with
        | some c => some c
        | none =>
          match p.nanos X with
          | some t => some (rounding t tck)
          | none => none := by
  unfold override_value
  rw [m_timings_getElem?_toNat]

theorem derive_and_override_length (rounding : ℚ → Int → Int) (U : Unspecified)
    (org : Organization) (p : TimingParams) (v : List Int) :
    (derive_and_override rounding U org p v).length = v.length := by
  unfold derive_and_override
  simp only [override_timing_foldl_length, List.length_set]

theorem derive_and_override_getD (rounding : ℚ → Int → Int) (U : Unspecified)
    (org : Organization) (p : TimingParams) (v : List Int) (X : Timing) (d : Int)
    (hv : v.length = 26) :
    (derive_and_override rounding U org p v).getD X.toNat d =
      if X = .tCK_ps then tCK_ps U (v.getD Timing.rate.toNat (-1))
      else if X = .rate then v.getD Timing.rate.toNat d
      else
        match p.cycles X with
        | some c => c
        | none =>
          match p.nanos X with
          | some t => rounding t (tCK_ps U (v.getD Timing.rate.toNat (-1)))
          | none =>
            if X = .nRFC then
              rounding (table_at tRFC_TABLE U.tRFC_outside (density_id org.density))
                (tCK_ps U (v.getD Timing.rate.toNat (-1)))
            else if X = .nREFISB then
              rounding (table_at tREFISB_TABLE U.tREFISB_outside (org.countOf .rank))
                (tCK_ps U (v.getD Timing.rate.toNat (-1)))
            else v.getD X.toNat d := by
  unfold derive_and_override
  simp only []
  rw [override_timing_foldl_getD _ _ _ _ _ _ _
    (by simp only [List.length_set, hv]; exact Timing.toNat_lt X), override_value_toNat]
  cases X <;>
    cases p.cycles _ <;> cases p.nanos _ <;>
    simp [Timing.toNat, List.getD_eq_getElem?_getD, List.getElem?_set, hv, m_timings]


theorem JEDEC_rounding_nonneg (t : ℚ) (tck : Int) (ht : 0 ≤ t) (htck : 0 ≤ tck) :
    0 ≤ JEDEC_rounding t tck := by
  unfold JEDEC_rounding
  apply Int.ceil_nonneg
  exact div_nonneg (mul_nonneg ht (by norm_num)) (by exact_mod_cast htck)

theorem List.mem_of_lookup_eq_some_pair {α β : Type} [BEq α] [LawfulBEq α] (a : α) (b : β)
    (l : List (α × β)) (h : l.lookup a = some b) : (a, b) ∈ l := by
  induction l with
  | nil => simp [List.lookup] at h
  | cons x rest ih =>
    obtain ⟨k, y⟩ := x
    simp only [List.lookup] at h
    split at h
    · rename_i heq
      have hk : a = k := by simpa using heq
      simp only [Option.some.injEq] at h
      subst hk; subst h
      exact List.mem_cons_self _ _
    · exact List.mem_cons_of_mem _ (ih h)

theorem resize_length (v : List Int) (n : Nat) (val : Int) : (resize v n val).length = n := by
  unfold resize
  simp only [List.length_append, List.length_take, List.length_replicate]
  omega

theorem timing_presets_row_length (preset_name : String) (row : List Int)
    (h : (preset_name, row) ∈ timing_presets) : row.length = 26 := by
  simp only [timing_presets, List.mem_cons, List.mem_singleton, List.not_mem_nil, or_false,
    Prod.mk.injEq] at h
  rcases h with h | h | h | h | h <;> (obtain ⟨_, h2⟩ := h; subst h2; rfl)

theorem resolve_timing_vals_ok (rounding : ℚ → Int → Int) (U : Unspecified)
    (org : Organization) (m0 : List Int) (p : TimingParams) (w : List Int)
    (h : resolve_timing_vals rounding U org m0 p = .ok w) :
    ∃ v, v.length = 26 ∧ w = derive_and_override rounding U org p v ∧
      (∀ preset_name, p.preset = some preset_name →
        (preset_name, v) ∈ timing_presets ∧ p.rate = none) ∧
      (p.preset = none → p.rate = none → v = resize m0 m_timings.length (-1)) ∧
      (∀ dq, p.preset = none → p.rate = some dq →
        v = (resize m0 m_timings.length (-1)).set Timing.rate.toNat dq) := by
  unfold resolve_timing_vals load_timing_preset set_rate at h
  cases hp : p.preset with
  | none =>
    rw [hp] at h
    cases hr : p.rate with
    | none =>
      rw [hr] at h
      simp only [Except.ok.injEq] at h
      refine ⟨_, resize_length _ _ _, h.symm, ?_, fun _ _ => rfl, ?_⟩
      · intro n hn; cases hn
      · intro dq _ hdq; cases hdq
    | some dq =>
      rw [hr] at h
      simp only [Bool.false_eq_true, if_false, Except.ok.injEq] at h
      refine ⟨_, ?_, h.symm, ?_, ?_, ?_⟩
      · rw [List.length_set]; exact resize_length _ _ _
      · intro n hn; cases hn
      · intro _ hdq; cases hdq
      · intro dq2 _ hdq
        cases hdq
        rfl
  | some preset_name =>
    rw [hp] at h
    dsimp only at h
    cases hl : timing_presets.lookup preset_name with
    | none => rw [hl] at h; cases h
    | some row =>
      rw [hl] at h
      dsimp only at h
      have hmem := List.mem_of_lookup_eq_some_pair _ _ _ hl
      cases hr : p.rate with
      | none =>
        rw [hr] at h
        simp only [Except.ok.injEq] at h
        refine ⟨row, timing_presets_row_length _ _ hmem, h.symm, ?_, ?_, ?_⟩
        · intro n hn
          cases hn
          exact ⟨hmem, rfl⟩
        · intro hn; cases hn
        · intro _ hn; cases hn
      | some dq =>
        rw [hr] at h
        simp at h

theorem resolve_timing_vals_length (rounding : ℚ → Int → Int) (U : Unspecified)
    (org : Organization) (m0 : List Int) (p : TimingParams) (w : List Int)
    (h : resolve_timing_vals rounding U org m0 p = .ok w) : w.length = 26 := by
  obtain ⟨v, hv, hw, _⟩ := resolve_timing_vals_ok _ _ _ _ _ _ h
  rw [hw, derive_and_override_length, hv]

theorem m_timings_toNat_getElem : ∀ i, i < 26 → (m_timings[i]?).map Timing.toNat = some i := by
  decide

theorem Timing.exists_of_lt (i : Nat) (h : i < 26) : ∃ X : Timing, X.toNat = i := by
  have := m_timings_toNat_getElem i h
  cases hX : m_timings[i]? with
  | none => rw [hX] at this; cases this
  | some X =>
    rw [hX] at this
    exact ⟨X, by simpa using this⟩

theorem slots_ne_iff (w : List Int) (hw : w.length = 26) :
    (∀ x ∈ w, x ≠ -1) ↔ ∀ X : Timing, w.getD X.toNat (-1) ≠ -1 := by
  constructor
  · intro h X
    have hX : X.toNat < w.length := by rw [hw]; exact Timing.toNat_lt X
    rw [List.getD_eq_getElem?_getD, List.getElem?_eq_getElem hX, Option.getD_some]
    exact h _ (List.getElem_mem _)
  · intro h x hx
    obtain ⟨i, hi, rfl⟩ := List.getElem_of_mem hx
    obtain ⟨X, rfl⟩ := Timing.exists_of_lt i (by rw [← hw]; exact hi)
    have := h X
    rwa [List.getD_eq_getElem?_getD, List.getElem?_eq_getElem hi, Option.getD_some] at this

theorem set_timing_vals_of_resolve (rounding : ℚ → Int → Int) (U : Unspecified)
    (org : Organization) (m0 : List Int) (p : TimingParams) (w : List Int)
    (h : resolve_timing_vals rounding U org m0 p = .ok w) :
    set_timing_vals rounding U org m0 p
      = match w.findIdx? (fun x => x == -1) with
        | some i => .error (ConfigurationError.timingNotSpecified i)
        | none =>
          .ok { m_timing_vals := w,
                m_read_latency := TimingVals.ofVector w .nCL + TimingVals.ofVector w .nBL,
                rules := timing_cons (TimingVals.ofVector w) } := by
  unfold set_timing_vals
  rw [h]

theorem set_timing_vals_ok_of_slots (rounding : ℚ → Int → Int) (U : Unspecified)
    (org : Organization) (m0 : List Int) (p : TimingParams) (w : List Int)
    (h : resolve_timing_vals rounding U org m0 p = .ok w)
    (hne : ∀ X : Timing, w.getD X.toNat (-1) ≠ -1) :
    set_timing_vals rounding U org m0 p
      = .ok { m_timing_vals := w,
              m_read_latency := TimingVals.ofVector w .nCL + TimingVals.ofVector w .nBL,
              rules := timing_cons (TimingVals.ofVector w) } := by
  rw [set_timing_vals_of_resolve _ _ _ _ _ _ h]
  have hnone : w.findIdx? (fun x => x == -1) = none := by
    rw [List.findIdx?_eq_none_iff]
    intro x hx
    have := (slots_ne_iff w (resolve_timing_vals_length _ _ _ _ _ _ h)).2 hne x hx
    simpa using this
  rw [hnone]

theorem set_timing_vals_ok (rounding : ℚ → Int → Int) (U : Unspecified)
    (org : Organization) (m0 : List Int) (p : TimingParams) (s : TimingSetup)
    (h : set_timing_vals rounding U org m0 p = .ok s) :
    resolve_timing_vals rounding U org m0 p = .ok s.m_timing_vals ∧
    ∀ x ∈ s.m_timing_vals, x ≠ -1 := by
  cases hres : resolve_timing_vals rounding U org m0 p with
  | error e =>
    unfold set_timing_vals at h
    rw [hres] at h
    cases h
  | ok w =>
    rw [set_timing_vals_of_resolve _ _ _ _ _ _ hres] at h
    cases hidx : w.findIdx? (fun x => x == -1) with
    | some i => rw [hidx] at h; cases h
    | none =>
      rw [hidx] at h
      simp only [Except.ok.injEq] at h
      subst h
      refine ⟨rfl, ?_⟩
      intro x hx
      have := (List.findIdx?_eq_none_iff.1 hidx) x hx
      simpa using this


theorem org_presets_table_bounds (org_name : String) (org : Organization)
    (h : (org_name, org) ∈ org_presets) :
    0 ≤ density_id org.density ∧ density_id org.density < 8 ∧
    0 ≤ org.countOf .rank ∧ org.countOf .rank < 8 := by
  simp only [org_presets, List.mem_cons, List.mem_singleton, List.not_mem_nil, or_false,
    Prod.mk.injEq] at h
  rcases h with h | h | h | h | h | h | h | h | h | h | h | h <;>
    (obtain ⟨_, h2⟩ := h; subst h2; decide)

theorem table_at_nonneg (table : List Int) (outside : Int → Int) (i : Int)
    (htable : ∀ x ∈ table, 0 ≤ x) (h0 : 0 ≤ i) (h1 : i < table.length) :
    0 ≤ table_at table outside i := by
  unfold table_at
  rw [if_pos ⟨h0, h1⟩]
  have hi : i.toNat < table.length := by omega
  rw [List.getD_eq_getElem?_getD, List.getElem?_eq_getElem hi, Option.getD_some]
  exact htable _ (List.getElem_mem _)

theorem set_timing_vals_preset_ok (U : Unspecified) (org : Organization) (m0 : List Int)
    (preset_name : String) (row : List Int)
    (hres : resolve_timing_vals JEDEC_rounding U org m0 (TimingParams.ofPreset preset_name)
      = .ok (derive_and_override JEDEC_rounding U org (TimingParams.ofPreset preset_name) row))
    (hlen : row.length = 26)
    (hrow : ∀ X : Timing, X ≠ .nRFC → X ≠ .nREFISB → row.getD X.toNat (-1) ≠ -1)
    (htck : 0 ≤ tCK_ps U (row.getD Timing.rate.toNat (-1)))
    (hd : 0 ≤ table_at tRFC_TABLE U.tRFC_outside (density_id org.density))
    (hr : 0 ≤ table_at tREFISB_TABLE U.tREFISB_outside (org.countOf .rank)) :
    ∃ s, set_timing_vals JEDEC_rounding U org m0 (TimingParams.ofPreset preset_name) = .ok s ∧
      (∀ X : Timing, X ≠ .nRFC → X ≠ .nREFISB → X ≠ .tCK_ps →
        s.m_timing_vals.getD X.toNat (-1) = row.getD X.toNat (-1)) ∧
      s.m_timing_vals.getD Timing.rate.toNat (-1) = row.getD Timing.rate.toNat (-1) := by
  have hslot : ∀ X : Timing, X ≠ .nRFC → X ≠ .nREFISB → X ≠ .tCK_ps →
      (derive_and_override JEDEC_rounding U org (TimingParams.ofPreset preset_name) row).getD
        X.toNat (-1) = row.getD X.toNat (-1) := by
    intro X h1 h2 h3
    rw [derive_and_override_getD _ _ _ _ _ _ _ hlen]
    by_cases h4 : X = .rate
    · subst h4; simp
    · simp [h1, h2, h3, h4, TimingParams.ofPreset]
  refine ⟨_, set_timing_vals_ok_of_slots _ _ _ _ _ _ hres ?_, hslot, hslot _ (by decide)
    (by decide) (by decide)⟩
  intro X
  by_cases h3 : X = .tCK_ps
  · subst h3
    rw [derive_and_override_getD _ _ _ _ _ _ _ hlen]
    simp only [if_true]
    omega
  by_cases h1 : X = .nRFC
  · subst h1
    rw [derive_and_override_getD _ _ _ _ _ _ _ hlen]
    have := JEDEC_rounding_nonneg _ _
      (Int.cast_nonneg.2 hd : (0 : ℚ) ≤ ((table_at tRFC_TABLE U.tRFC_outside
        (density_id org.density) : Int) : ℚ)) htck
    simp only [TimingParams.ofPreset, reduceCtorEq, if_false, if_true]
    intro heq
    rw [heq] at this
    exact absurd this (by decide)
  by_cases h2 : X = .nREFISB
  · subst h2
    rw [derive_and_override_getD _ _ _ _ _ _ _ hlen]
    have := JEDEC_rounding_nonneg _ _
      (Int.cast_nonneg.2 hr : (0 : ℚ) ≤ ((table_at tREFISB_TABLE U.tREFISB_outside
        (org.countOf .rank) : Int) : ℚ)) htck
    simp only [TimingParams.ofPreset, reduceCtorEq, if_false, if_true]
    intro heq
    rw [heq] at this
    exact absurd this (by decide)
  rw [hslot X h1 h2 h3]
  exact hrow X h1 h2

/-- C12: for each of the five timing presets and each of the twelve organization
presets, with no user override (and whatever the vector held on entry),
`set_timing_vals` with the rounding of the specification returns, and every slot other
than `nRFC`, `nREFISB` and `tCK_ps` holds the value of the preset row; so does the
slot `rate`. -/
theorem C12_preset_values (U : Unspecified) (m0 : List Int) (preset_name : String)
    (row : List Int) (org_name : String) (org : Organization)
    (hp : (preset_name, row) ∈ timing_presets) (ho : (org_name, org) ∈ org_presets) :
    ∃ s, set_timing_vals JEDEC_rounding U org m0 (TimingParams.ofPreset preset_name) = .ok s ∧
      (∀ X : Timing, X ≠ .nRFC → X ≠ .nREFISB → X ≠ .tCK_ps →
        s.m_timing_vals.getD X.toNat (-1) = row.getD X.toNat (-1)) ∧
      s.m_timing_vals.getD Timing.rate.toNat (-1) = row.getD Timing.rate.toNat (-1) := by
  obtain ⟨hd0, hd1, hr0, hr1⟩ := org_presets_table_bounds org_name org ho
  have hd := table_at_nonneg tRFC_TABLE U.tRFC_outside _ (by decide) hd0 hd1
  have hr := table_at_nonneg tREFISB_TABLE U.tREFISB_outside _ (by decide) hr0 hr1
  simp only [timing_presets, List.mem_cons, List.mem_singleton, List.not_mem_nil, or_false,
    Prod.mk.injEq] at hp
  rcases hp with hp | hp | hp | hp | hp <;>
    (obtain ⟨h1, h2⟩ := hp
     subst h1; subst h2
     refine set_timing_vals_preset_ok U org m0 _ _ rfl rfl ?_ ?_ hd hr
     · intro X h1 h2
       cases X <;> first | exact absurd rfl h1 | exact absurd rfl h2 | decide
     · unfold tCK_ps
       rw [if_neg (by decide)]
       decide)

/-- C12 at the preset `HBM3_4.8Gbps` on the organization `HBM3_2Gb_1R`: the slots
`rate`, `nCL`, `nRCDRD` and `nFAW` hold the 4800, 17, 17 and 36 of the preset row. -/
theorem C12_preset_values_witness :
    ∃ s, set_timing_vals JEDEC_rounding Unspecified.sample Organization.HBM3_2Gb_1R []
        (TimingParams.ofPreset "HBM3_4.8Gbps") = .ok s ∧
      s.m_timing_vals.getD Timing.rate.toNat (-1) = 4800 ∧
      s.m_timing_vals.getD Timing.nCL.toNat (-1) = 17 ∧
      s.m_timing_vals.getD Timing.nRCDRD.toNat (-1) = 17 ∧
      s.m_timing_vals.getD Timing.nFAW.toNat (-1) = 36 :=
  match C12_preset_values Unspecified.sample [] "HBM3_4.8Gbps"
    [4800, 2, 17, 17, 17, 17, 41, 58, 20, 5, 8, 5, 2, 4, 2, 4, 8, 10, 3, 36, -1, 240, 4680,
      -1, 10, 1200]
    "HBM3_2Gb_1R" Organization.HBM3_2Gb_1R (by decide) (by decide) with
  | ⟨s, hs, h, hrate⟩ =>
    ⟨s, hs, hrate, h .nCL (by decide) (by decide) (by decide),
      h .nRCDRD (by decide) (by decide) (by decide),
      h .nFAW (by decide) (by decide) (by decide)⟩


/-- C14: for every timing name `X` other than `rate` and `tCK_ps` for which the user
gives the cycle count `c`, whenever the resolution of the timing values goes through,
the slot of `X` is `c`, whatever the preset, the derived values, the physical time that
may be given for `X` too and the rounding function; so it is in what `set_timing_vals`
returns. -/
theorem C14_cycle_override (rounding : ℚ → Int → Int) (U : Unspecified) (org : Organization)
    (m0 : List Int) (p : TimingParams) (X : Timing) (c : Int) (w : List Int)
    (hX1 : X ≠ .rate) (hX2 : X ≠ .tCK_ps) (hc : p.cycles X = some c)
    (hres : resolve_timing_vals rounding U org m0 p = .ok w) :
    w.getD X.toNat (-1) = c ∧
    ∀ s, set_timing_vals rounding U org m0 p = .ok s → s.m_timing_vals.getD X.toNat (-1) = c := by
  have key : w.getD X.toNat (-1) = c := by
    obtain ⟨v, hv, hw, _⟩ := resolve_timing_vals_ok _ _ _ _ _ _ hres
    rw [hw, derive_and_override_getD _ _ _ _ _ _ _ hv, if_neg hX2, if_neg hX1, hc]
  refine ⟨key, fun s hs => ?_⟩
  have h2 := (set_timing_vals_ok _ _ _ _ _ _ hs).1
  rw [hres] at h2
  simp only [Except.ok.injEq] at h2
  rw [← h2]
  exact key

/-- C14 on the preset `HBM3_4.8Gbps` with `nRFC` given as 200 cycles and `tRFC` as
100 ns: the slot `nRFC` holds 200. -/
theorem C14_cycle_override_witness :
    (derive_and_override JEDEC_rounding Unspecified.sample Organization.HBM3_2Gb_1R
      TimingParams.sample_nRFC timing_presets_HBM3_4_8Gbps).getD Timing.nRFC.toNat (-1) = 200 ∧
    TimingParams.sample_nRFC.nanos .nRFC = some 100 :=
  ⟨(C14_cycle_override JEDEC_rounding Unspecified.sample Organization.HBM3_2Gb_1R []
    TimingParams.sample_nRFC .nRFC 200 _ (by decide) (by decide) rfl rfl).1, rfl⟩

/-- Whenever `set_timing_vals` returns, whatever the configuration and the rounding
function, the vector has its 26 slots and none of them holds the unset value `-1`. -/
theorem set_timing_vals_no_unset_slot (rounding : ℚ → Int → Int) (U : Unspecified)
    (org : Organization) (m0 : List Int) (p : TimingParams) (s : TimingSetup)
    (hs : set_timing_vals rounding U org m0 p = .ok s) :
    s.m_timing_vals.length = 26 ∧ (∀ x ∈ s.m_timing_vals, x ≠ -1) ∧
    ∀ X : Timing, s.m_timing_vals.getD X.toNat (-1) ≠ -1 := by
  obtain ⟨h1, h2⟩ := set_timing_vals_ok _ _ _ _ _ _ hs
  have hlen := resolve_timing_vals_length _ _ _ _ _ _ h1
  exact ⟨hlen, h2, (slots_ne_iff _ hlen).1 h2⟩

theorem resolve_timing_vals_rate_with_preset (rounding : ℚ → Int → Int) (U : Unspecified)
    (org : Organization) (m0 : List Int) (p : TimingParams) (preset_name : String) (dq : Int)
    (hp : p.preset = some preset_name) (hr : p.rate = some dq) :
    resolve_timing_vals rounding U org m0 p
      = match timing_presets.lookup preset_name with
        | some _ => .error ConfigurationError.rateWithPreset
        | none => .error (ConfigurationError.unrecognizedTimingPreset preset_name) := by
  unfold resolve_timing_vals load_timing_preset set_rate
  rw [hp]
  dsimp only
  cases timing_presets.lookup preset_name with
  | none => rfl
  | some row =>
    dsimp only
    rw [hr]
    rfl

/-- C23: for every preset name and every rate given together, `set_timing_vals` fails
with a configuration error, whatever the other settings: the error of the rate given
with a preset when the preset is one of the table (also when the rate is the one of
the preset), and the error of the unrecognized preset otherwise. -/
theorem C23_rate_with_preset (rounding : ℚ → Int → Int) (U : Unspecified)
    (org : Organization) (m0 : List Int) (p : TimingParams) (preset_name : String) (dq : Int)
    (hp : p.preset = some preset_name) (hr : p.rate = some dq) :
    (∃ e, set_timing_vals rounding U org m0 p = .error e) ∧
    (∀ row, (preset_name, row) ∈ timing_presets →
      set_timing_vals rounding U org m0 p = .error ConfigurationError.rateWithPreset) ∧
    (timing_presets.lookup preset_name = none →
      set_timing_vals rounding U org m0 p
        = .error (ConfigurationError.unrecognizedTimingPreset preset_name)) := by
  have h := resolve_timing_vals_rate_with_preset rounding U org m0 p preset_name dq hp hr
  refine ⟨?_, ?_, ?_⟩
  · unfold set_timing_vals
    rw [h]
    cases timing_presets.lookup preset_name with
    | none => exact ⟨_, rfl⟩
    | some row => exact ⟨_, rfl⟩
  · intro row hrow
    simp only [timing_presets, List.mem_cons, List.mem_singleton, List.not_mem_nil, or_false,
      Prod.mk.injEq] at hrow
    unfold set_timing_vals
    rw [h]
    rcases hrow with hrow | hrow | hrow | hrow | hrow <;>
      (obtain ⟨h1, _⟩ := hrow; subst h1; rfl)
  · intro hnone
    unfold set_timing_vals
    rw [h, hnone]

/-- C23 on the preset `HBM3_4.8Gbps` given with the rate 4800, the rate of that preset. -/
theorem C23_rate_with_preset_witness :
    timing_presets_HBM3_4_8Gbps.getD Timing.rate.toNat (-1) = 4800 ∧
    set_timing_vals JEDEC_rounding Unspecified.sample Organization.HBM3_2Gb_1R []
      TimingParams.sample_preset_and_rate = .error ConfigurationError.rateWithPreset :=
  ⟨rfl, (C23_rate_with_preset JEDEC_rounding Unspecified.sample Organization.HBM3_2Gb_1R []
    TimingParams.sample_preset_and_rate "HBM3_4.8Gbps" 4800 rfl rfl).2.1
      timing_presets_HBM3_4_8Gbps (by decide)⟩

/-- C22 (amended): for each of the five timing presets with no override, whatever the
organization, the entry vector and the rounding function, the resolution goes through
and the slot `tCK_ps` holds `1000000 / (rate / 4)` with both divisions truncated, one of
833, 769, 714, 666 and 625; this is less than the last column of the preset row, which
is overwritten. The vector that `set_timing_vals` returns is the resolved one. -/
theorem C22_tCK_ps_derived (rounding : ℚ → Int → Int) (U : Unspecified) (org : Organization)
    (m0 : List Int) (preset_name : String) (row : List Int)
    (hp : (preset_name, row) ∈ timing_presets) :
    ∃ w, resolve_timing_vals rounding U org m0 (TimingParams.ofPreset preset_name) = .ok w ∧
      w.getD Timing.tCK_ps.toNat (-1)
        = (1000000 : Int).tdiv ((row.getD Timing.rate.toNat (-1)).tdiv 4) ∧
      w.getD Timing.tCK_ps.toNat (-1) ∈ [(833 : Int), 769, 714, 666, 625] ∧
      w.getD Timing.tCK_ps.toNat (-1) < row.getD Timing.tCK_ps.toNat (-1) ∧
      ∀ s, set_timing_vals rounding U org m0 (TimingParams.ofPreset preset_name) = .ok s →
        s.m_timing_vals = w := by
  have hlen := timing_presets_row_length _ _ hp
  have key : resolve_timing_vals rounding U org m0 (TimingParams.ofPreset preset_name)
        = .ok (derive_and_override rounding U org (TimingParams.ofPreset preset_name) row) ∧
      tCK_ps U (row.getD Timing.rate.toNat (-1))
        = (1000000 : Int).tdiv ((row.getD Timing.rate.toNat (-1)).tdiv 4) ∧
      (1000000 : Int).tdiv ((row.getD Timing.rate.toNat (-1)).tdiv 4)
        ∈ [(833 : Int), 769, 714, 666, 625] ∧
      (1000000 : Int).tdiv ((row.getD Timing.rate.toNat (-1)).tdiv 4)
        < row.getD Timing.tCK_ps.toNat (-1) := by
    simp only [timing_presets, List.mem_cons, List.mem_singleton, List.not_mem_nil, or_false,
      Prod.mk.injEq] at hp
    rcases hp with hp | hp | hp | hp | hp <;>
      (obtain ⟨h1, h2⟩ := hp
       subst h1; subst h2
       refine ⟨rfl, ?_, by decide, by decide⟩
       unfold tCK_ps
       rw [if_neg (by decide)])
  obtain ⟨hres, htck, hmem, hlt⟩ := key
  have hslot : (derive_and_override rounding U org (TimingParams.ofPreset preset_name)
      row).getD Timing.tCK_ps.toNat (-1)
        = (1000000 : Int).tdiv ((row.getD Timing.rate.toNat (-1)).tdiv 4) := by
    rw [derive_and_override_getD _ _ _ _ _ _ _ hlen, if_pos rfl, htck]
  refine ⟨_, hres, hslot, ?_, ?_, ?_⟩
  · rw [hslot]; exact hmem
  · rw [hslot]; exact hlt
  · intro s hs
    have h2 := (set_timing_vals_ok _ _ _ _ _ _ hs).1
    rw [hres] at h2
    simp only [Except.ok.injEq] at h2
    exact h2.symm

/-- C22 (amended) on the preset `HBM3_4.8Gbps`: the slot `tCK_ps` holds 833. -/
theorem C22_tCK_ps_derived_witness :
    ∃ w, resolve_timing_vals JEDEC_rounding Unspecified.sample Organization.HBM3_2Gb_1R []
        (TimingParams.ofPreset "HBM3_4.8Gbps") = .ok w ∧
      w.getD Timing.tCK_ps.toNat (-1) = 833 :=
  match C22_tCK_ps_derived JEDEC_rounding Unspecified.sample Organization.HBM3_2Gb_1R []
    "HBM3_4.8Gbps" timing_presets_HBM3_4_8Gbps (by decide) with
  | ⟨w, hw, h, _⟩ => ⟨w, hw, h⟩

set_option maxRecDepth 100000 in
/-- C22 as stated fails on the preset `HBM3_4.8Gbps` with no override on the organization
`HBM3_2Gb_1R`: `set_timing_vals` returns with 833 in the slot `tCK_ps`, and the last
column of the preset row is 1200. -/
theorem C22_counterexample :
    (set_timing_vals JEDEC_rounding Unspecified.sample Organization.HBM3_2Gb_1R []
      (TimingParams.ofPreset "HBM3_4.8Gbps")).toOption.map
        (fun s => s.m_timing_vals.getD Timing.tCK_ps.toNat (-1)) = some 833 ∧
    timing_presets_HBM3_4_8Gbps.getD Timing.tCK_ps.toNat (-1) = 1200 := by
  decide!


theorem derive_and_override_nREFISB (rounding : ℚ → Int → Int) (U : Unspecified)
    (org : Organization) (p : TimingParams) (v : List Int) (hv : v.length = 26)
    (hc : p.cycles .nREFISB = none) (hn : p.nanos .nREFISB = none) :
    (derive_and_override rounding U org p v).getD Timing.nREFISB.toNat (-1)
      = rounding (table_at tREFISB_TABLE U.tREFISB_outside (org.countOf .rank))
          ((derive_and_override rounding U org p v).getD Timing.tCK_ps.toNat (-1)) := by
  rw [derive_and_override_getD _ _ _ _ _ _ _ hv, derive_and_override_getD _ _ _ _ _ _ _ hv,
    if_neg (by decide), if_neg (by decide), hc, hn, if_pos rfl]
  simp only [reduceCtorEq, if_false, if_true]

/-- C21, what the code does: on every configuration whose resolution goes through and
that gives neither `nREFISB` nor `tREFISB`, the slot `nREFISB` is the rounding, at the
value of the slot `tCK_ps`, of the entry of `tREFISB_TABLE` at the index equal to the
rank count: 122 ns for 1 rank, 82 ns for 2 ranks, 61 ns for 3 ranks and the 0 that
fills the table for 4 ranks. The 244 ns of the first entry is read by no rank count
from 1 to 4. -/
theorem C21_nREFISB_entry_at_rank_count (rounding : ℚ → Int → Int) (U : Unspecified)
    (org : Organization) (m0 : List Int) (p : TimingParams) (w : List Int)
    (hc : p.cycles .nREFISB = none) (hn : p.nanos .nREFISB = none)
    (hres : resolve_timing_vals rounding U org m0 p = .ok w) :
    (org.countOf .rank = 1 → w.getD Timing.nREFISB.toNat (-1)
      = rounding 122 (w.getD Timing.tCK_ps.toNat (-1))) ∧
    (org.countOf .rank = 2 → w.getD Timing.nREFISB.toNat (-1)
      = rounding 82 (w.getD Timing.tCK_ps.toNat (-1))) ∧
    (org.countOf .rank = 3 → w.getD Timing.nREFISB.toNat (-1)
      = rounding 61 (w.getD Timing.tCK_ps.toNat (-1))) ∧
    (org.countOf .rank = 4 → w.getD Timing.nREFISB.toNat (-1)
      = rounding 0 (w.getD Timing.tCK_ps.toNat (-1))) := by
  obtain ⟨v, hv, hw, _⟩ := resolve_timing_vals_ok _ _ _ _ _ _ hres
  have h := derive_and_override_nREFISB rounding U org p v hv hc hn
  rw [← hw] at h
  refine ⟨?_, ?_, ?_, ?_⟩ <;>
    (intro hr
     rw [h, hr]
     simp [table_at, tREFISB_TABLE])

/-- C21 on the preset `HBM3_4.8Gbps` and the organization `HBM3_2Gb_1R`, which has one
rank: the slot `nREFISB` is the rounding of 122 ns. -/
theorem C21_nREFISB_entry_at_rank_count_witness :
    Organization.HBM3_2Gb_1R.countOf .rank = 1 ∧
    (derive_and_override JEDEC_rounding Unspecified.sample Organization.HBM3_2Gb_1R
      (TimingParams.ofPreset "HBM3_4.8Gbps") timing_presets_HBM3_4_8Gbps).getD
        Timing.nREFISB.toNat (-1)
      = JEDEC_rounding 122
          ((derive_and_override JEDEC_rounding Unspecified.sample Organization.HBM3_2Gb_1R
            (TimingParams.ofPreset "HBM3_4.8Gbps") timing_presets_HBM3_4_8Gbps).getD
              Timing.tCK_ps.toNat (-1)) :=
  ⟨rfl, (C21_nREFISB_entry_at_rank_count JEDEC_rounding Unspecified.sample
    Organization.HBM3_2Gb_1R [] (TimingParams.ofPreset "HBM3_4.8Gbps")
    (derive_and_override JEDEC_rounding Unspecified.sample Organization.HBM3_2Gb_1R
      (TimingParams.ofPreset "HBM3_4.8Gbps") timing_presets_HBM3_4_8Gbps)
    rfl rfl rfl).1 rfl⟩

set_option maxRecDepth 100000 in
/-- C21 as stated fails on the preset `HBM3_4.8Gbps`: with the one rank of `HBM3_2Gb_1R`
`set_timing_vals` returns 147 in the slot `nREFISB` at the period 833, the rounding of
122 ns, where the rounding of the 244 ns of a 4-Hi stack is 293; with the four ranks
of `HBM3_8Gb_4R` it returns 0, where the rounding of the 61 ns of a 16-Hi stack is 74. -/
theorem C21_counterexample :
    (set_timing_vals JEDEC_rounding Unspecified.sample Organization.HBM3_2Gb_1R []
      (TimingParams.ofPreset "HBM3_4.8Gbps")).toOption.map
        (fun s => (s.m_timing_vals.getD Timing.nREFISB.toNat (-1),
          s.m_timing_vals.getD Timing.tCK_ps.toNat (-1))) = some (147, 833) ∧
    JEDEC_rounding 122 833 = 147 ∧ JEDEC_rounding 244 833 = 293 ∧
    Organization.HBM3_8Gb_4R.countOf .rank = 4 ∧
    (set_timing_vals JEDEC_rounding Unspecified.sample Organization.HBM3_8Gb_4R []
      (TimingParams.ofPreset "HBM3_4.8Gbps")).toOption.map
        (fun s => s.m_timing_vals.getD Timing.nREFISB.toNat (-1)) = some 0 ∧
    JEDEC_rounding 61 833 = 74 := by
  decide!

theorem density_id_range (d : Int) :
    (0 ≤ density_id d ∧ density_id d < 8) ↔
      d ∈ [(2048 : Int), 4096, 6144, 8192, 12288, 16384, 24576, 32768] := by
  unfold density_id
  simp only [List.mem_cons, List.mem_singleton, List.not_mem_nil, or_false]
  constructor
  · intro h
    by_contra hne
    simp only [not_or] at hne
    obtain ⟨h1, h2, h3, h4, h5, h6, h7, h8⟩ := hne
    rw [if_neg h1, if_neg h2, if_neg h3, if_neg h4, if_neg h5, if_neg h6, if_neg h7,
      if_neg h8] at h
    exact absurd h.1 (by decide)
  · rintro (h | h | h | h | h | h | h | h) <;> (subst h; decide)

/-- C26, what the code does: `density_id` is between 0 and 7 exactly for the eight
densities of its `switch` and is -1 for every other density, and `set_organization`
accepts organizations with another density: the preset `HBM3_2Gb_1R` with 4096 rows and
the declared density 1024 passes the density check, its `density_id` is -1 and the read
of `tRFC_TABLE[0][-1]` that derives `nRFC` is outside the table. -/
theorem C26_density_id_outside_table :
    (∀ d : Int, (0 ≤ density_id d ∧ density_id d < 8) ↔
      d ∈ [(2048 : Int), 4096, 6144, 8192, 12288, 16384, 24576, 32768]) ∧
    (∀ d : Int, d ∉ [(2048 : Int), 4096, 6144, 8192, 12288, 16384, 24576, 32768] →
      density_id d = -1) ∧
    set_organization ⟨-1, -1, []⟩ OrgParams.sample_1Gb
      = Except.ok ⟨1024, 32, [1, 2, 1, 4, 4, 4096, 32]⟩ ∧
    density_id 1024 = -1 ∧
    ∀ U : Unspecified, table_at tRFC_TABLE U.tRFC_outside (density_id 1024)
      = U.tRFC_outside (-1) := by
  refine ⟨density_id_range, ?_, rfl, rfl, fun U => rfl⟩
  intro d hd
  simp only [List.mem_cons, List.mem_singleton, List.not_mem_nil, or_false, not_or] at hd
  obtain ⟨h1, h2, h3, h4, h5, h6, h7, h8⟩ := hd
  unfold density_id
  rw [if_neg h1, if_neg h2, if_neg h3, if_neg h4, if_neg h5, if_neg h6, if_neg h7, if_neg h8]


/-! ## Same-bank precharge (`Bank::PREsb`, `BankGroup::PREsb`, `Rank::PREsb`) -/

theorem Node.get?_append (n : Node) (p q : List Nat) :
    n.get? (p ++ q) = (n.get? p).bind (fun c => c.get? q) := by
  induction p generalizing n with
  | nil => rfl
  | cons i p ih =>
    simp only [List.cons_append, Node.get?]
    cases n.m_child_nodes[i]? with
    | none => rfl
    | some c => exact ih c

theorem Node.get?_modifyAt_append (f : Node → Node) (p q : List Nat) (n : Node) :
    (n.modifyAt f p).get? (p ++ q) = (n.get? p).bind (fun c => (f c).get? q) := by
  rw [Node.get?_append, Node.get?_modifyAt_self]
  cases n.get? p <;> rfl

theorem Node.get?_modifyAt_other (f : Node → Node) (p q r : List Nat) (n : Node)
    (hlen : q.length = p.length) (hne : q ≠ p) :
    (n.modifyAt f p).get? (q ++ r) = n.get? (q ++ r) := by
  induction p generalizing n q with
  | nil =>
    cases q with
    | nil => exact absurd rfl hne
    | cons j q => simp at hlen
  | cons i p ih =>
    cases q with
    | nil => simp at hlen
    | cons j q =>
      simp only [Node.modifyAt]
      cases h : n.m_child_nodes[i]? with
      | none => rfl
      | some c =>
        have hi : i < n.m_child_nodes.length := by
          rcases List.getElem?_eq_some_iff.mp h with ⟨hlt, _⟩
          exact hlt
        simp only [List.cons_append, Node.get?, Node.m_child_nodes_setChildren]
        by_cases hij : i = j
        · subst hij
          rw [List.getElem?_set_self hi, h]
          exact ih q c (by simpa using hlen) (fun hq => hne (by rw [hq]))
        · rw [List.getElem?_set_ne hij]

theorem Lambdas.Action.Rank.get?_PREsb (rank : Node) (cmd : Command) (target_id clk : Int)
    (k l : Nat) :
    (Lambdas.Action.Rank.PREsb rank cmd target_id clk).get? [k, l]
      = (rank.get? [k, l]).map (fun bank =>
          if bank.m_node_id = target_id then Lambdas.Action.Bank.PRE bank cmd target_id clk
          else bank) := by
  unfold Lambdas.Action.Rank.PREsb
  refine Node.get?_forChildren_map _ _ _ (fun c1 => ?_) rank k
  refine Node.get?_forChildren_map _ _ _ (fun c2 => ?_) c1 l
  rfl


theorem Lambdas.Action.Bank.PRE_args (b : Node) (c c2 : Command) (r r2 clk clk2 : Int) :
    Lambdas.Action.Bank.PRE b c r clk = Lambdas.Action.Bank.PRE b c2 r2 clk2 := by
  cases b; rfl

theorem Lambdas.Action.Bank.PRE_closed (b : Node) (c : Command) (r clk : Int) :
    (Lambdas.Action.Bank.PRE b c r clk).m_state = State.Closed ∧
    (Lambdas.Action.Bank.PRE b c r clk).m_row_state = RowMap.empty := by
  cases b; exact ⟨rfl, rfl⟩

open Lambdas.Action in
/-- C25: for every tree `root`, every rank position `rank_pos` in it and every bank `n`
two levels below that rank (at the child indices `k`, `l`), `Bank::PREsb` at `n`,
`BankGroup::PREsb` at the bankgroup of `n` with the target id of `n` and `Rank::PREsb` at
the rank with the target id of `n` give one and the same tree. In it every bank two
levels below the rank whose `m_node_id` is that of `n` is `Closed` with an empty row
map, every other bank of the rank is the node it was, and so is every node at or below
another position of the length of `rank_pos` (the banks of the other ranks). -/
theorem C25_PREsb_agree (root : Node) (rank_pos : List Nat) (k l : Nat) (n : Node)
    (cmd1 cmd2 cmd3 : Command) (t1 clk1 clk2 clk3 : Int)
    (hn : root.get? (rank_pos ++ [k, l]) = some n) :
    ∃ T, Bank.PREsb root rank_pos k l cmd1 t1 clk1 = some T ∧
      BankGroup.PREsb root rank_pos k cmd2 n.m_node_id clk2 = some T ∧
      root.modifyAt (fun rank => Rank.PREsb rank cmd3 n.m_node_id clk3) rank_pos = T ∧
      (∀ k2 l2 b, root.get? (rank_pos ++ [k2, l2]) = some b →
        (b.m_node_id = n.m_node_id →
          ∃ b2, T.get? (rank_pos ++ [k2, l2]) = some b2 ∧
            b2.m_state = State.Closed ∧ b2.m_row_state = RowMap.empty) ∧
        (b.m_node_id ≠ n.m_node_id → T.get? (rank_pos ++ [k2, l2]) = some b)) ∧
      (∀ q r, q.length = rank_pos.length → q ≠ rank_pos →
        T.get? (q ++ r) = root.get? (q ++ r)) := by
  have hbg : ∃ g, root.get? (rank_pos ++ [k]) = some g := by
    have h2 : rank_pos ++ [k, l] = (rank_pos ++ [k]) ++ [l] := by simp
    rw [h2, Node.get?_append] at hn
    cases hg : root.get? (rank_pos ++ [k]) with
    | none => rw [hg] at hn; cases hn
    | some g => exact ⟨g, rfl⟩
  obtain ⟨g, hg⟩ := hbg
  refine ⟨root.modifyAt (fun rank => Rank.PREsb rank cmd3 n.m_node_id clk3) rank_pos,
    ?_, ?_, rfl, ?_, ?_⟩
  · unfold Bank.PREsb
    rw [hn]
    simp only [Rank.PREsb, Bank.PRE_args _ cmd1 cmd3 t1 n.m_node_id clk1 clk3]
  · unfold BankGroup.PREsb
    rw [hg]
    simp only [Rank.PREsb, Bank.PRE_args _ cmd2 cmd3 n.m_node_id n.m_node_id clk2 clk3]
  · intro k2 l2 b hb
    rw [Node.get?_modifyAt_append]
    rw [Node.get?_append] at hb
    cases hr : root.get? rank_pos with
    | none => rw [hr] at hb; cases hb
    | some rank =>
      rw [hr] at hb
      simp only [Option.some_bind] at hb ⊢
      rw [Rank.get?_PREsb, hb]
      simp only [Option.map_some']
      constructor
      · intro hid
        rw [if_pos hid]
        exact ⟨_, rfl, Bank.PRE_closed b cmd3 n.m_node_id clk3⟩
      · intro hid
        rw [if_neg hid]
  · intro q r hlen hne
    exact Node.get?_modifyAt_other _ _ _ _ _ hlen hne

set_option maxRecDepth 100000 in
open Lambdas.Action in
/-- C25 on the first channel of the sample device after an ACT to the bank 2 of the
bankgroup 3 of the rank at `[0, 0]`: the three actions for the bank 2 of the bankgroup
1 of that rank give the same tree, in which the bank 2 of the bankgroup 3 is `Closed`,
and the bank 3 of the bankgroup 3 is the node it was. -/
theorem C25_PREsb_agree_witness :
    (Node.sampleChannelOpened.get? [0, 0, 3, 2]).map Node.m_state = some State.Opened ∧
    (Node.sampleChannelOpened.getD [0, 0, 1, 2]).m_node_id = 2 ∧
    ∃ T, Bank.PREsb Node.sampleChannelOpened [0, 0] 1 2 .PRE 0 100 = some T ∧
      BankGroup.PREsb Node.sampleChannelOpened [0, 0] 1 .PRE 2 100 = some T ∧
      Node.sampleChannelOpened.modifyAt (fun rank => Rank.PREsb rank .PRE 2 100) [0, 0] = T ∧
      (∃ b2, T.get? [0, 0, 3, 2] = some b2 ∧ b2.m_state = State.Closed ∧
        b2.m_row_state = RowMap.empty) ∧
      T.get? [0, 0, 3, 3] = Node.sampleChannelOpened.get? [0, 0, 3, 3] :=
  match C25_PREsb_agree Node.sampleChannelOpened [0, 0] 1 2
    (Node.sampleChannelOpened.getD [0, 0, 1, 2]) .PRE .PRE .PRE 0 100 100 100 rfl with
  | ⟨T, h1, h2, h3, h4, _⟩ =>
    ⟨by decide, rfl, T, h1, h2, h3,
      (h4 3 2 (Node.sampleChannelOpened.getD [0, 0, 3, 2]) rfl).1 rfl,
      ((h4 3 3 (Node.sampleChannelOpened.getD [0, 0, 3, 3]) rfl).2 (by decide)).trans rfl⟩


/-! ## The invariant of the bank state machine -/

theorem Node.allAtDepth_iff (P : Node → Prop) (d : Nat) (n : Node) :
    Node.AllAtDepth P d n ↔ ∀ p b, p.length = d → n.get? p = some b → P b := by
  induction d generalizing n with
  | zero =>
    constructor
    · intro h p b hp hb
      have : p = [] := List.length_eq_zero.mp hp
      subst this
      simp only [Node.get?, Option.some.injEq] at hb
      subst hb
      exact h
    · intro h
      exact h [] n rfl rfl
  | succ d ih =>
    constructor
    · intro h p b hp hb
      cases p with
      | nil => simp at hp
      | cons i p =>
        simp only [Node.get?] at hb
        cases hc : n.m_child_nodes[i]? with
        | none => rw [hc] at hb; cases hb
        | some c =>
          rw [hc] at hb
          have hmem : c ∈ n.m_child_nodes := List.getElem?_mem hc
          exact (ih c).1 (h c hmem) p b (by simpa using hp) hb
    · intro h c hc
      obtain ⟨i, hi, rfl⟩ := List.getElem_of_mem hc
      refine (ih _).2 (fun p b hp hb => h (i :: p) b (by simp [hp]) ?_)
      simp only [Node.get?, List.getElem?_eq_getElem hi]
      exact hb

theorem Node.allAtDepth_forChildren (P : Node → Prop) (d : Nat) (f : Node → Node)
    (hf : ∀ c, Node.AllAtDepth P d c → Node.AllAtDepth P d (f c)) (n : Node)
    (h : Node.AllAtDepth P (d + 1) n) : Node.AllAtDepth P (d + 1) (n.forChildren f) := by
  intro c hc
  simp only [Node.forChildren, Node.m_child_nodes_setChildren, List.mem_map] at hc
  obtain ⟨c0, hc0, rfl⟩ := hc
  exact hf c0 (h c0 hc0)

theorem Node.allAtDepth_modifyAt (P : Node → Prop) (d : Nat) (f : Node → Node)
    (hf : ∀ c, Node.AllAtDepth P d c → Node.AllAtDepth P d (f c)) (p : List Nat) (n : Node)
    (h : Node.AllAtDepth P (d + p.length) n) :
    Node.AllAtDepth P (d + p.length) (n.modifyAt f p) := by
  induction p generalizing n with
  | nil => exact hf n h
  | cons i p ih =>
    simp only [Node.modifyAt]
    cases hc : n.m_child_nodes[i]? with
    | none => exact h
    | some c =>
      intro x hx
      simp only [Node.m_child_nodes_setChildren] at hx
      rcases List.mem_or_eq_of_mem_set hx with hx | hx
      · exact h x hx
      · subst hx
        exact ih c (h c (List.getElem?_mem hc))

theorem Node.bankInvariant_ACT (b : Node) (c : Command) (r clk : Int)
    (h : b.bankInvariant) : (Lambdas.Action.Bank.ACT b c r clk).bankInvariant := by
  cases b with
  | mk l i s rows ch =>
    obtain ⟨_, h2⟩ := h
    refine ⟨⟨fun _ => ⟨r, ?_⟩, fun _ => rfl⟩, ?_⟩
    · simp [Lambdas.Action.Bank.ACT, Node.m_row_state, RowMap.set]
    · intro r2 s2 hs
      simp only [Lambdas.Action.Bank.ACT, Node.m_row_state, RowMap.set] at hs
      split at hs
      · simp only [Option.some.injEq] at hs
        exact hs.symm
      · exact h2 r2 s2 hs

theorem Node.bankInvariant_PRE (b : Node) (c : Command) (r clk : Int) :
    (Lambdas.Action.Bank.PRE b c r clk).bankInvariant := by
  cases b with
  | mk l i s rows ch =>
    refine ⟨⟨fun h => ?_, fun h => ?_⟩, ?_⟩
    · simp [Lambdas.Action.Bank.PRE, Node.m_state] at h
    · obtain ⟨r2, hr2⟩ := h
      simp [Lambdas.Action.Bank.PRE, Node.m_row_state, RowMap.empty] at hr2
    · intro r2 s2 hs
      simp [Lambdas.Action.Bank.PRE, Node.m_row_state, RowMap.empty] at hs

theorem Node.bankInvariant_of_closed (b : Node) (h1 : b.m_state = State.Closed)
    (h2 : b.m_row_state = RowMap.empty) : b.bankInvariant := by
  refine ⟨⟨fun h => ?_, fun h => ?_⟩, ?_⟩
  · rw [h1] at h; cases h
  · obtain ⟨r, hr⟩ := h
    rw [h2] at hr
    exact absurd rfl hr
  · intro r s hs
    rw [h2] at hs
    cases hs

theorem Node.allAtDepth_getD (P : Node → Prop) (d : Nat) (ch : Node) (o : Option Node)
    (h : Node.AllAtDepth P d ch) (ho : ∀ T, o = some T → Node.AllAtDepth P d T) :
    Node.AllAtDepth P d (o.getD ch) := by
  cases o with
  | none => exact h
  | some T => exact ho T rfl

theorem Node.allAtDepth_loops2 (P : Node → Prop) (g : Node → Node) (hg : ∀ b, P b → P (g b))
    (rank : Node) (h : Node.AllAtDepth P 2 rank) :
    Node.AllAtDepth P 2 (rank.forChildren (fun bg => bg.forChildren g)) :=
  Node.allAtDepth_forChildren P 1 _
    (fun bg hbg => Node.allAtDepth_forChildren P 0 g hg bg hbg) rank h

theorem Node.allAtDepth_loops4 (P : Node → Prop) (g : Node → Node) (hg : ∀ b, P b → P (g b))
    (ch : Node) (h : Node.AllAtDepth P 4 ch) :
    Node.AllAtDepth P 4 (ch.forChildren (fun pch => pch.forChildren (fun rank =>
      rank.forChildren (fun bg => bg.forChildren g)))) :=
  Node.allAtDepth_forChildren P 3 _
    (fun pch hpch => Node.allAtDepth_forChildren P 2 _
      (fun rank hrank => Node.allAtDepth_loops2 P g hg rank hrank) pch hpch) ch h

theorem Lambdas.Action.Bank.allAtDepth_forSameIds (P : Node → Prop) (body : Node → Node)
    (hbody : ∀ b, P b → P (body b)) (rid gid bid : Int) (ch : Node)
    (h : Node.AllAtDepth P 4 ch) :
    Node.AllAtDepth P 4 (Lambdas.Action.Bank.forSameIds body rid gid bid ch) := by
  unfold Lambdas.Action.Bank.forSameIds
  refine Node.allAtDepth_forChildren P 3 _ (fun pch hpch => ?_) ch h
  refine Node.allAtDepth_forChildren P 2 _ (fun rank hrank => ?_) pch hpch
  split
  · refine Node.allAtDepth_forChildren P 1 _ (fun bg hbg => ?_) rank hrank
    split
    · refine Node.allAtDepth_forChildren P 0 _ (fun bank hbank => ?_) bg hbg
      show P _
      split
      · exact hbody bank hbank
      · exact hbank
    · exact hbg
  · exact hrank

theorem Node.bankInvariant_if_ACT (p : Prop) [Decidable p] (b : Node) (c : Command)
    (r clk : Int) (h : b.bankInvariant) :
    (if p then Lambdas.Action.Bank.ACT b c r clk else b).bankInvariant := by
  split
  · exact Node.bankInvariant_ACT b c r clk h
  · exact h

theorem Node.bankInvariant_if_PRE (p : Prop) [Decidable p] (b : Node) (c : Command)
    (r clk : Int) (h : b.bankInvariant) :
    (if p then Lambdas.Action.Bank.PRE b c r clk else b).bankInvariant := by
  split
  · exact Node.bankInvariant_PRE b c r clk
  · exact h

open Lambdas.Action in
theorem ActionCall.run_invariant (ch : Node) (c : ActionCall)
    (h : Node.AllAtDepth Node.bankInvariant 4 ch) :
    Node.AllAtDepth Node.bankInvariant 4 (c.run ch) := by
  unfold ActionCall.run
  split
  · exact Node.allAtDepth_modifyAt _ 0 _
      (fun b hb => Node.bankInvariant_ACT b _ _ _ hb) [_, _, _, _] ch h
  · refine Node.allAtDepth_modifyAt Node.bankInvariant 0 _ (fun b _ => ?_) [_, _, _, _] ch h
    exact Node.bankInvariant_PRE b _ _ _
  · refine Node.allAtDepth_getD _ _ _ _ h (fun T hT => ?_)
    unfold Bank.ACTAB at hT
    split at hT
    · split at hT
      · split at hT
        · simp only [Option.some.injEq] at hT
          subst hT
          exact Node.allAtDepth_loops4 _ _ (fun b hb => Node.bankInvariant_ACT b _ _ _ hb) ch h
        · cases hT
      · cases hT
    · cases hT
  · refine Node.allAtDepth_getD _ _ _ _ h (fun T hT => ?_)
    unfold Bank.ACTSB at hT
    split at hT
    · split at hT
      · split at hT
        · simp only [Option.some.injEq] at hT
          subst hT
          exact Node.allAtDepth_loops4 _ _
            (fun b hb => Node.bankInvariant_if_ACT _ b _ _ _ hb) ch h
        · cases hT
      · cases hT
    · cases hT
  · refine Node.allAtDepth_getD _ _ _ _ h (fun T hT => ?_)
    unfold Bank.ACTPB at hT
    split at hT
    · split at hT
      · split at hT
        · simp only [Option.some.injEq] at hT
          subst hT
          exact Bank.allAtDepth_forSameIds _ _
            (fun b hb => Node.bankInvariant_ACT b _ _ _ hb) _ _ _ ch h
        · cases hT
      · cases hT
    · cases hT
  · refine Node.allAtDepth_getD _ _ _ _ h (fun T hT => ?_)
    unfold Bank.PRESB at hT
    split at hT
    · split at hT
      · split at hT
        · simp only [Option.some.injEq] at hT
          subst hT
          refine Bank.allAtDepth_forSameIds Node.bankInvariant _ (fun b _ => ?_) _ _ _ ch h
          exact Node.bankInvariant_PRE b _ _ _
        · cases hT
      · cases hT
    · cases hT
  · refine Node.allAtDepth_getD _ _ _ _ h (fun T hT => ?_)
    unfold Bank.PREPB at hT
    split at hT
    · split at hT
      · split at hT
        · simp only [Option.some.injEq] at hT
          subst hT
          refine Bank.allAtDepth_forSameIds Node.bankInvariant _ (fun b _ => ?_) _ _ _ ch h
          exact Node.bankInvariant_PRE b _ _ _
        · cases hT
      · cases hT
    · cases hT
  · refine Node.allAtDepth_getD _ _ _ _ h (fun T hT => ?_)
    unfold Bank.PREsb at hT
    split at hT
    · cases hT
    · simp only [Option.some.injEq] at hT
      subst hT
      exact Node.allAtDepth_modifyAt _ 2 _
        (fun rank hrank => Node.allAtDepth_loops2 _ _
          (fun b hb => Node.bankInvariant_if_PRE _ b _ _ _ hb) rank hrank) [_, _] ch h
  · refine Node.allAtDepth_getD _ _ _ _ h (fun T hT => ?_)
    unfold BankGroup.PREsb at hT
    split at hT
    · cases hT
    · simp only [Option.some.injEq] at hT
      subst hT
      exact Node.allAtDepth_modifyAt _ 2 _
        (fun rank hrank => Node.allAtDepth_loops2 _ _
          (fun b hb => Node.bankInvariant_if_PRE _ b _ _ _ hb) rank hrank) [_, _] ch h
  · split
    · rename_i f hf
      unfold Rank.PREA at hf
      simp only [Level.toNat, Nat.reduceSub, OfNat.ofNat_ne_one, if_false, if_true,
        Option.some.injEq] at hf
      subst hf
      refine Node.allAtDepth_modifyAt Node.bankInvariant 2 _ (fun rank hrank => ?_) [_, _] ch h
      refine Node.allAtDepth_loops2 Node.bankInvariant _ (fun b _ => ?_) rank hrank
      exact Node.bankInvariant_PRE b _ _ _
    · exact h
  · exact Node.allAtDepth_modifyAt _ 2 _
      (fun rank hrank => Node.allAtDepth_loops2 _ _
        (fun b hb => Node.bankInvariant_if_PRE _ b _ _ _ hb) rank hrank) [_, _] ch h
  · split
    · rename_i f hf
      unfold Channel.PREA at hf
      simp only [Level.toNat, Nat.reduceSub] at hf
      rw [if_neg (by decide), if_neg (by decide)] at hf
      simp only [if_true, Option.some.injEq] at hf
      subst hf
      refine Node.allAtDepth_loops4 Node.bankInvariant _ (fun b _ => ?_) ch h
      rw [Channel.closeBank_eq_PRE b .PRE 0 0]
      exact Node.bankInvariant_PRE b _ _ _
    · exact h
  · exact h


theorem List.getLast?_getD_cons {α : Type} (a b : α) (l : List α) :
    ((a :: l).getLast?).getD b = (l.getLast?).getD a := by
  cases l with
  | nil => rfl
  | cons x xs =>
    rw [List.getLast?_cons_cons, List.getLast?_eq_getLast _ (List.cons_ne_nil x xs)]
    rfl

theorem Node.create_allAtDepth (below : List (Level × Nat)) :
    ∀ (level : Level) (id : Int),
      Node.AllAtDepth (fun b => b.m_row_state = RowMap.empty ∧
          b.m_state = m_init_states (((below.map Prod.fst).getLast?).getD level))
        below.length (Node.create level id below) := by
  induction below with
  | nil => intro level id; exact ⟨rfl, rfl⟩
  | cons x rest ih =>
    obtain ⟨l, n⟩ := x
    intro level id c hc
    simp only [Node.create, Node.m_child_nodes, List.mem_map] at hc
    obtain ⟨i, _, rfl⟩ := hc
    have := ih l i
    simp only [List.map_cons, List.getLast?_getD_cons]
    exact this

/-- C24: on the tree of a channel in which every node four levels down (every bank) is
`Closed` with an empty row map, after any finite sequence of calls of the actions of
`action.h` that assign states (`Bank::ACT`, `Bank::PRE`, `ACTAB`, `ACTSB`, `ACTPB`,
`PRESB`, `PREsb`, `PREPB`, `BankGroup::PREsb`, `Rank::PREA`, `Rank::PREsb` and
`Channel::PREA`, at any node and with any arguments) every bank satisfies the
invariant: its state is `Opened` exactly when its row map has an entry, and every
entry of its row map is `Opened`. -/
theorem C24_bank_invariant (ch : Node) (calls : List ActionCall)
    (h0 : ∀ p b, p.length = 4 → ch.get? p = some b →
      b.m_state = State.Closed ∧ b.m_row_state = RowMap.empty) :
    ∀ p b, p.length = 4 → (calls.foldl ActionCall.run ch).get? p = some b →
      (b.m_state = State.Opened ↔ ∃ r, b.m_row_state r ≠ none) ∧
      ∀ r s, b.m_row_state r = some s → s = State.Opened := by
  have hinit : Node.AllAtDepth Node.bankInvariant 4 ch :=
    (Node.allAtDepth_iff _ 4 ch).2
      (fun p b hp hb => Node.bankInvariant_of_closed b (h0 p b hp hb).1 (h0 p b hp hb).2)
  have hall : ∀ (cs : List ActionCall) (t : Node), Node.AllAtDepth Node.bankInvariant 4 t →
      Node.AllAtDepth Node.bankInvariant 4 (cs.foldl ActionCall.run t) := by
    intro cs
    induction cs with
    | nil => intro t ht; exact ht
    | cons c rest ih =>
      intro t ht
      exact ih _ (ActionCall.run_invariant t c ht)
  intro p b hp hb
  exact (Node.allAtDepth_iff _ 4 _).1 (hall calls ch hinit) p b hp hb


theorem HBM3.sample_firstChannel_eq :
    HBM3.sample.firstChannel
      = Node.create .channel 0
          [(.pseudochannel, 2), (.rank, 1), (.bankgroup, 4), (.bank, 4)] := by
  rfl

theorem HBM3.sample_firstChannel_banks_closed (p : List Nat) (b : Node) (hp : p.length = 4)
    (hb : HBM3.sample.firstChannel.get? p = some b) :
    b.m_state = State.Closed ∧ b.m_row_state = RowMap.empty := by
  rw [HBM3.sample_firstChannel_eq] at hb
  have := (Node.allAtDepth_iff _ 4 _).1
    (Node.create_allAtDepth [(.pseudochannel, 2), (.rank, 1), (.bankgroup, 4), (.bank, 4)]
      .channel 0) p b hp hb
  exact ⟨this.2, this.1⟩

set_option maxRecDepth 100000 in
/-- C24 on the first channel of the sample device and the four sample calls: the bank
`[0, 0, 2, 3]`, which the calls leave `Opened`, and the bank `[0, 0, 1, 2]`, which they
leave `Closed`, satisfy the invariant. -/
theorem C24_bank_invariant_witness :
    ((ActionCall.sampleCalls.foldl ActionCall.run HBM3.sample.firstChannel).get?
      [0, 0, 2, 3]).map Node.m_state = some State.Opened ∧
    ((ActionCall.sampleCalls.foldl ActionCall.run HBM3.sample.firstChannel).get?
      [0, 0, 1, 2]).map Node.m_state = some State.Closed ∧
    (((ActionCall.sampleCalls.foldl ActionCall.run HBM3.sample.firstChannel).getD
        [0, 0, 2, 3]).m_state = State.Opened ↔
      ∃ r, ((ActionCall.sampleCalls.foldl ActionCall.run HBM3.sample.firstChannel).getD
        [0, 0, 2, 3]).m_row_state r ≠ none) ∧
    (((ActionCall.sampleCalls.foldl ActionCall.run HBM3.sample.firstChannel).getD
        [0, 0, 1, 2]).m_state = State.Opened ↔
      ∃ r, ((ActionCall.sampleCalls.foldl ActionCall.run HBM3.sample.firstChannel).getD
        [0, 0, 1, 2]).m_row_state r ≠ none) :=
  ⟨by decide, by decide,
    (C24_bank_invariant HBM3.sample.firstChannel ActionCall.sampleCalls
      HBM3.sample_firstChannel_banks_closed [0, 0, 2, 3] _ rfl rfl).1,
    (C24_bank_invariant HBM3.sample.firstChannel ActionCall.sampleCalls
      HBM3.sample_firstChannel_banks_closed [0, 0, 1, 2] _ rfl rfl).1⟩


/-! ## Claim on the sign of the timing slots -/

end Ramulator
